import Mathlib

/-!
# feedbackd: the event lifecycle of `src/fbd-event.c`

A shallow embedding of `FbdEvent` and of the functions that drive the feedbacks
attached to it.  The event is a record; the feedback handles it refers to live
in a store indexed by handle number; every call the event makes on a collaborator
(a feedback, the GObject notification machinery, the GLib main loop) is appended
to a log, so that "what was called, and in which order" is part of the state.

A feedback may report that it ended from inside the very `run()` or `end()` call
made by the event.  The chain run -> ended -> restart can then nest without bound,
so the functions that may re-enter are given a fuel that bounds the nesting depth
of `fbd_feedback_run`; `none` means that the depth was exceeded.
-/

namespace Feedbackd

/-! ## Data model -/

/-- Modelled from the spec: the enumeration `FbdEventEndReason` of the header
`fbd-event.h`, which is not among the sources; the spec gives it the two values
Natural (the default) and Explicit. -/
inductive FbdEventEndReason
  | NATURAL
  | EXPLICIT
  deriving DecidableEq, Repr

/-- Modelled from the spec: the constant `FBD_EVENT_TIMEOUT_ONESHOT` of the header
`fbd-event.h` (raw timeout zero is Oneshot). -/
def FBD_EVENT_TIMEOUT_ONESHOT : Int := 0

/-- Modelled from the spec: the constant `FBD_EVENT_TIMEOUT_LOOP` of the header
`fbd-event.h` (a negative raw timeout is Loop; the lower bound and default of the
`timeout` property in `fbd_event_class_init` is -1). -/
def FBD_EVENT_TIMEOUT_LOOP : Int := -1

/-- The largest `int`, the upper bound of the `id` and `timeout` properties. -/
def G_MAXINT : Int := 2147483647

/-- The calls the event makes on its collaborators, in the order it makes them. -/
inductive Call
  /-- The call `fbd_feedback_run (fb)`. -/
  | feedback_run (fb : Nat)
  /-- The call `fbd_feedback_end (fb)`. -/
  | feedback_end (fb : Nat)
  /-- The call `g_object_notify_by_pspec (self, props[PROP_FEEDBACKS_ENDED])`. -/
  | notify_feedbacks_ended
  /-- The call `g_signal_emit (self, signals[SIGNAL_FEEDBACKS_ENDED], 0)`, with the
  end reason a handler of the signal reads from the event at that moment. -/
  | signal_feedbacks_ended (end_reason : FbdEventEndReason)
  /-- The call `g_object_notify_by_pspec (self, props[PROP_END_REASON])`. -/
  | notify_end_reason
  /-- The call `g_timeout_add_seconds (interval, on_timeout_expired, self)` and the
  source id it returned. -/
  | timeout_add_seconds (interval : Int) (source : Nat)
  /-- The call `g_source_remove (source)`. -/
  | source_remove (source : Nat)
  deriving DecidableEq, Repr

/-- Modelled from the spec: a feedback handle (`FbdFeedbackBase`, whose source is not
among the sources), as far as the event can observe it: what `has_ended()` reports,
the two tags kept as object data, the number of handlers of its `ended` signal that
are bound to the event, and whether its backend reports the end from inside the
`run()` respectively `end()` call (an instantaneous effect). -/
structure FbdFeedbackBase where
  /-- What `fbd_feedback_get_ended` reports. -/
  ended : Bool
  /-- The object data `fbd-level`, read with `GPOINTER_TO_UINT`. -/
  level : Nat
  /-- The object data `event-id`; `none` is the NULL pointer. -/
  event_id : Option Nat
  /-- How many handlers of the `ended` signal are connected with the event as data. -/
  handlers : Nat
  /-- Whether the effect ends inside the call that runs it. -/
  run_ends : Bool
  /-- Whether the effect reports its end inside the call that ends it. -/
  end_ends : Bool

/-- The fields of `struct _FbdEvent`; `feedbacks` holds handle numbers, head first. -/
structure FbdEvent where
  id : Nat
  app_id : Option String
  event : Option String
  sender : Option String
  timeout : Int
  expired : Bool
  timeout_id : Nat
  ended : Bool
  end_reason : FbdEventEndReason
  feedbacks : List Nat
  deriving DecidableEq, Repr

/-- One event together with what surrounds it: the feedback handles, the log of the
calls made so far, and the timeout sources pending in the GLib main loop. -/
structure World where
  ev : FbdEvent
  fbs : Nat → FbdFeedbackBase
  log : List Call
  /-- The ids of the timeout sources that are pending. -/
  sources : List Nat
  /-- The last source id the main loop handed out; ids start at 1. -/
  last_source : Nat

/-- Append one call to the log. -/
def World.emit (w : World) (c : Call) : World :=
  { w with log := w.log ++ [c] }

/-- Replace the record of one feedback handle. -/
def World.set_fb (w : World) (fb : Nat) (f : FbdFeedbackBase) : World :=
  { w with fbs := Function.update w.fbs fb f }

/-- Set what `has_ended()` reports for one handle. -/
def World.set_ended (w : World) (fb : Nat) (b : Bool) : World :=
  w.set_fb fb { w.fbs fb with ended := b }

/-- Set the number of `ended` handlers one handle has connected with the event. -/
def World.set_handlers (w : World) (fb : Nat) (n : Nat) : World :=
  w.set_fb fb { w.fbs fb with handlers := n }

/-- Replace the event record. -/
def World.set_ev (w : World) (e : FbdEvent) : World :=
  { w with ev := e }

/-- The number of times the `feedbacks-ended` signal occurs in a log. -/
def terminal_notifications (log : List Call) : Nat :=
  log.countP (fun c => match c with
    | Call.signal_feedbacks_ended _ => true
    | _ => false)

/-- The calls of a log that are made on feedback handles (`run` and `end`). -/
def handle_calls (log : List Call) : List Call :=
  log.filter (fun c => match c with
    | Call.feedback_run _ => true
    | Call.feedback_end _ => true
    | _ => false)

/-! ## The timeout policy of the spec -/

/-- The three timeout policies the spec distinguishes. -/
inductive TimeoutPolicy
  | Oneshot
  | Loop
  | TimedLoop (seconds : Int)
  deriving DecidableEq, Repr

/-- The decoding of the raw timeout as the spec words it: negative is Loop, zero is
Oneshot, positive is TimedLoop of that value. -/
def timeout_policy (timeout : Int) : TimeoutPolicy :=
  if timeout < 0 then TimeoutPolicy.Loop
  else if timeout = 0 then TimeoutPolicy.Oneshot
  else TimeoutPolicy.TimedLoop timeout

/-- The restart condition of the spec's policy table: never under Oneshot, under
Loop when the end reason is Natural, under TimedLoop when moreover the deadline has
not expired. -/
def restart_condition (e : FbdEvent) : Bool :=
  match timeout_policy e.timeout with
  | TimeoutPolicy.Oneshot => false
  | TimeoutPolicy.Loop => e.end_reason == FbdEventEndReason.NATURAL
  | TimeoutPolicy.TimedLoop _ => !e.expired && e.end_reason == FbdEventEndReason.NATURAL

/-- The deadline of a policy as the spec words it: the timer is armed only for
TimedLoop, for the policy's seconds. -/
def policy_deadline : TimeoutPolicy → Option Int
  | TimeoutPolicy.TimedLoop seconds => some seconds
  | _ => none

/-! ## Completion check and the reaction to a handle's end -/

/-- Modelled from the spec: `fbd_feedback_get_ended`, the point-in-time query
`has_ended()` of a handle. -/
def fbd_feedback_get_ended (w : World) (fb : Nat) : Bool :=
  (w.fbs fb).ended

/-- The function `fbd_event_get_feedbacks_ended`: true without feedbacks, otherwise
false at the first feedback that has not ended. -/
def fbd_event_get_feedbacks_ended (w : World) : Bool :=
  if w.ev.feedbacks.isEmpty then true
  else w.ev.feedbacks.all (fun fb => fbd_feedback_get_ended w fb)

/-- The function `check_ended`, with its return value. -/
def check_ended (w : World) : World × Bool :=
  if !fbd_event_get_feedbacks_ended w then (w, false)
  else
    let w1 := w.set_ev { w.ev with ended := true }
    let w2 := w1.emit Call.notify_feedbacks_ended
    let w3 := w2.emit (Call.signal_feedbacks_ended w2.ev.end_reason)
    (w3, true)

/-- The handler `on_fb_ended`; `run` stands for `fbd_feedback_run`. -/
def on_fb_ended (run : World → Nat → Option World) (w : World) (fb : Nat) : Option World :=
  if w.ev.timeout = FBD_EVENT_TIMEOUT_ONESHOT then
    some (check_ended w).1
  else if w.ev.timeout = FBD_EVENT_TIMEOUT_LOOP then
    if w.ev.end_reason ≠ FbdEventEndReason.NATURAL then
      some (check_ended w).1
    else
      run w fb
  else
    if !w.ev.expired && w.ev.end_reason == FbdEventEndReason.NATURAL then
      run w fb
    else
      some (check_ended w).1

/-- The emission of a signal to `n` connected handlers, one after the other. -/
def emit_signal (handler : World → Option World) : Nat → World → Option World
  | 0, w => some w
  | n + 1, w => (handler w).bind (emit_signal handler n)

/-- Modelled from the spec: the completion notification of a handle
(`fbd_feedback_base_done`): from now on the handle reports that it has ended, and
every handler the event has connected to its `ended` signal is called. -/
def fbd_feedback_base_done (run : World → Nat → Option World) (w : World) (fb : Nat) :
    Option World :=
  let w1 := w.set_ended fb true
  emit_signal (fun v => on_fb_ended run v fb) (w1.fbs fb).handlers w1

/-- Modelled from the spec: `fbd_feedback_run`, which starts or restarts the effect
(a running effect has not ended) and, for an instantaneous effect, reports the end
before it returns.  The fuel bounds the nesting depth of the restarts. -/
def fbd_feedback_run : Nat → World → Nat → Option World
  | 0 => fun _ _ => none
  | fuel + 1 => fun w fb =>
    let w1 := w.emit (Call.feedback_run fb)
    let w2 := w1.set_ended fb false
    if (w2.fbs fb).run_ends then
      fbd_feedback_base_done (fbd_feedback_run fuel) w2 fb
    else
      some w2

/-- Modelled from the spec: `fbd_feedback_end`, which requests the end of the effect;
a handle that stops at once reports the end before the call returns. -/
def fbd_feedback_end (fuel : Nat) (w : World) (fb : Nat) : Option World :=
  let w1 := w.emit (Call.feedback_end fb)
  if (w1.fbs fb).end_ends then
    fbd_feedback_base_done (fbd_feedback_run fuel) w1 fb
  else
    some w1

/-- A loop over a list of feedbacks, as `g_slist_foreach` and the `for` loops over
`GSList` nodes do it. -/
def foreach_feedback (f : World → Nat → Option World) : List Nat → World → Option World
  | [], w => some w
  | fb :: rest, w => (f w fb).bind (foreach_feedback f rest)

/-! ## Construction -/

/-- The instance initialiser `fbd_event_init` on zeroed memory. -/
def fbd_event_init : FbdEvent :=
  { id := 0, app_id := none, event := none, sender := none, timeout := -1,
    expired := false, timeout_id := 0, ended := false,
    end_reason := FbdEventEndReason.NATURAL, feedbacks := [] }

/-- The constructor `fbd_event_new`: `g_object_new` hands each value to
`fbd_event_set_property` unless the property's range in `fbd_event_class_init`
(`id` in 0..G_MAXINT, `timeout` in -1..G_MAXINT) rejects it. -/
def fbd_event_new (id : Int) (app_id event : Option String) (timeout : Int)
    (sender : Option String) : FbdEvent :=
  let e0 := fbd_event_init
  let e1 := if 0 ≤ id ∧ id ≤ G_MAXINT then { e0 with id := id.toNat } else e0
  let e2 := { e1 with app_id := app_id }
  let e3 := { e2 with event := event }
  let e4 := if -1 ≤ timeout ∧ timeout ≤ G_MAXINT then { e3 with timeout := timeout } else e3
  { e4 with sender := sender }

/-- The accessor `fbd_event_get_event`. -/
def fbd_event_get_event (e : FbdEvent) : Option String := e.event

/-- The accessor `fbd_event_get_app_id`. -/
def fbd_event_get_app_id (e : FbdEvent) : Option String := e.app_id

/-- The accessor `fbd_event_get_id`. -/
def fbd_event_get_id (e : FbdEvent) : Nat := e.id

/-- The accessor `fbd_event_get_timeout`. -/
def fbd_event_get_timeout (e : FbdEvent) : Int := e.timeout

/-- The accessor `fbd_event_get_end_reason`. -/
def fbd_event_get_end_reason (e : FbdEvent) : FbdEventEndReason := e.end_reason

/-- The accessor `fbd_event_get_sender`. -/
def fbd_event_get_sender (e : FbdEvent) : Option String := e.sender

/-- The accessor `fbd_event_get_feedbacks`. -/
def fbd_event_get_feedbacks (e : FbdEvent) : List Nat := e.feedbacks

/-- A world that holds the event `e` and the handles `fbs`, with nothing logged and
no timeout source pending. -/
def World.start (e : FbdEvent) (fbs : Nat → FbdFeedbackBase) : World :=
  { ev := e, fbs := fbs, log := [], sources := [], last_source := 0 }

/-! ## The operations on an event -/

/-- The setter `fbd_event_set_end_reason`. -/
def fbd_event_set_end_reason (w : World) (reason : FbdEventEndReason) : World :=
  if w.ev.end_reason = reason then w
  else (w.set_ev { w.ev with end_reason := reason }).emit Call.notify_end_reason

/-- The conversion `GUINT_TO_POINTER` followed by `g_object_set_data`: the value 0 is
the NULL pointer, which leaves no data behind. -/
def GUINT_TO_POINTER (v : Nat) : Option Nat :=
  if v = 0 then none else some v

/-- The function `fbd_event_add_feedback`. -/
def fbd_event_add_feedback (w : World) (feedback : Nat) : World :=
  let w1 := w.set_ev { w.ev with feedbacks := feedback :: w.ev.feedbacks }
  let w2 := w1.set_fb feedback { w1.fbs feedback with event_id := GUINT_TO_POINTER w1.ev.id }
  w2.set_handlers feedback ((w2.fbs feedback).handlers + 1)

/-- The function `fbd_event_remove_feedback`, with its return value. -/
def fbd_event_remove_feedback (w : World) (feedback : Nat) : World × Nat :=
  if w.ev.feedbacks.isEmpty then (w, 0)
  else
    let w1 :=
      if feedback ∈ w.ev.feedbacks then w.set_handlers feedback 0 else w
    let w2 := w1.set_ev { w1.ev with feedbacks := w1.ev.feedbacks.erase feedback }
    let len := w2.ev.feedbacks.length
    let w3 := if len = 0 then (check_ended w2).1 else w2
    (w3, len)

/-- The source callback `on_timeout_expired`. -/
def on_timeout_expired (w : World) : World :=
  w.set_ev { w.ev with expired := true, timeout_id := 0 }

/-- The main loop dispatches the pending timeout source `source`: it calls
`on_timeout_expired` and, as that returns `G_SOURCE_REMOVE`, drops the source. -/
def timeout_dispatch (w : World) (source : Nat) : World :=
  if source ∈ w.sources then
    let w1 := on_timeout_expired w
    { w1 with sources := w1.sources.erase source }
  else w

/-- The call `g_timeout_add_seconds` as `fbd_event_run_feedbacks` makes it: a new
source is pending and its id is stored in `timeout_id`. -/
def arm_timeout (w : World) : World :=
  let id := w.last_source + 1
  let w1 := { w with sources := w.sources ++ [id], last_source := id }
  let w2 := w1.emit (Call.timeout_add_seconds w1.ev.timeout id)
  w2.set_ev { w2.ev with timeout_id := id }

/-- The function `fbd_event_run_feedbacks`. -/
def fbd_event_run_feedbacks (fuel : Nat) (w : World) : Option World :=
  if w.ev.feedbacks.isEmpty then some w
  else
    let w1 := if w.ev.timeout > 0 then arm_timeout w else w
    foreach_feedback (fbd_feedback_run fuel) w1.ev.feedbacks w1

/-- The function `fbd_event_end_feedbacks`. -/
def fbd_event_end_feedbacks (fuel : Nat) (w : World) : Option World :=
  let w1 := fbd_event_set_end_reason w FbdEventEndReason.EXPLICIT
  foreach_feedback (fbd_feedback_end fuel) w1.ev.feedbacks w1

/-- The body of the second loop of `fbd_event_end_feedbacks_by_level`. -/
def end_if_above (fuel : Nat) (level : Nat) (w : World) (fb : Nat) : Option World :=
  if (w.fbs fb).level > level then
    fbd_feedback_end fuel (fbd_event_remove_feedback w fb).1 fb
  else
    some w

/-- The first loop of `fbd_event_end_feedbacks_by_level`: the number `num` of the
feedbacks of the list whose level is strictly above `level`. -/
def count_above (w : World) (feedbacks : List Nat) (level : Nat) : Nat :=
  feedbacks.countP (fun fb => (w.fbs fb).level > level)

/-- The function `fbd_event_end_feedbacks_by_level`. -/
def fbd_event_end_feedbacks_by_level (fuel : Nat) (w : World) (level : Nat) : Option World :=
  let feedbacks := fbd_event_get_feedbacks w.ev
  let num := count_above w feedbacks level
  if num = 0 then some w
  else
    let w1 :=
      if num = w.ev.feedbacks.length then
        fbd_event_set_end_reason w FbdEventEndReason.EXPLICIT
      else w
    foreach_feedback (end_if_above fuel level) feedbacks w1

/-- The function `fbd_event_dispose`: the pending timeout is removed and the list of
feedbacks is released. -/
def fbd_event_dispose (w : World) : World :=
  let w1 :=
    if w.ev.timeout_id ≠ 0 then
      let v := { w with sources := w.sources.erase w.ev.timeout_id }
      (v.emit (Call.source_remove w.ev.timeout_id)).set_ev { v.ev with timeout_id := 0 }
    else w
  if w1.ev.feedbacks.isEmpty then w1
  else w1.set_ev { w1.ev with feedbacks := [] }

/-! ## Sequences of operations -/

/-- What can happen to an event: the public operations, the expiry of a timeout
source, and a handle that reports its end on its own. -/
inductive Op
  | attach (fb : Nat)
  | detach (fb : Nat)
  | run_feedbacks
  | end_all
  | end_above_level (level : Nat)
  | set_end_reason (reason : FbdEventEndReason)
  | timer_expiry (source : Nat)
  | completion (fb : Nat)
  deriving DecidableEq, Repr

/-- One operation on the world. -/
def apply_op (fuel : Nat) (w : World) : Op → Option World
  | Op.attach fb => some (fbd_event_add_feedback w fb)
  | Op.detach fb => some (fbd_event_remove_feedback w fb).1
  | Op.run_feedbacks => fbd_event_run_feedbacks fuel w
  | Op.end_all => fbd_event_end_feedbacks fuel w
  | Op.end_above_level level => fbd_event_end_feedbacks_by_level fuel w level
  | Op.set_end_reason reason => some (fbd_event_set_end_reason w reason)
  | Op.timer_expiry source => some (timeout_dispatch w source)
  | Op.completion fb => fbd_feedback_base_done (fbd_feedback_run fuel) w fb

/-- A sequence of operations, from left to right. -/
def apply_ops (fuel : Nat) : List Op → World → Option World
  | [], w => some w
  | op :: rest, w => (apply_op fuel w op).bind (apply_ops fuel rest)

/-- A feedback handle that nobody has touched yet: not ended, no tags, no handler,
and an effect that ends only when it is told to (as the dummy feedback of the tests). -/
def fresh_feedback (level : Nat) : FbdFeedbackBase :=
  { ended := false, level := level, event_id := none, handlers := 0,
    run_ends := false, end_ends := true }

/-- The handles of `order` report their end on their own, one after the other. -/
def completions (fuel : Nat) (order : List Nat) (w : World) : Option World :=
  foreach_feedback (fbd_feedback_base_done (fbd_feedback_run fuel)) order w

/-- What the end of handles may change while no restart is possible: in the event
only `ended`, and that only together with a terminal notification; in the handles only
what `has_ended()` reports; in the log only `end()` calls and terminal notifications
read with the end reason of the event. -/
structure EndsOnly (w w' : World) (tail : List Call) : Prop where
  ev_eq : w'.ev = { w.ev with ended := w'.ev.ended }
  log_eq : w'.log = w.log ++ tail
  calls : ∀ c ∈ tail, c = Call.notify_feedbacks_ended ∨
    c = Call.signal_feedbacks_ended w.ev.end_reason ∨ ∃ fb, c = Call.feedback_end fb
  ended_eq : w'.ev.ended = w.ev.ended ∨
    (w'.ev.ended = true ∧ 0 < terminal_notifications tail)
  fbs_eq : ∀ y, w'.fbs y = { w.fbs y with ended := (w'.fbs y).ended }

/-- What calls on handles and their completions may change, restarts included: in
the event only `ended`, and that never back to false; in the handles only what
`has_ended()` reports; in the log only `run()` and `end()` calls and terminal
notifications read with the end reason of the event; the timeout sources not at all. -/
structure CallsOnly (w w' : World) (tail : List Call) : Prop where
  ev_eq : w'.ev = { w.ev with ended := w'.ev.ended }
  log_eq : w'.log = w.log ++ tail
  calls : ∀ c ∈ tail, c = Call.notify_feedbacks_ended ∨
    c = Call.signal_feedbacks_ended w.ev.end_reason ∨
    (∃ fb, c = Call.feedback_end fb) ∨ ∃ fb, c = Call.feedback_run fb
  ended_mono : w.ev.ended = true → w'.ev.ended = true
  fbs_eq : ∀ y, w'.fbs y = { w.fbs y with ended := (w'.fbs y).ended }
  sources_eq : w'.sources = w.sources
  last_source_eq : w'.last_source = w.last_source

/-- The number of times `g_timeout_add_seconds` occurs in a log. -/
def timers_armed (log : List Call) : Nat :=
  log.countP (fun c => match c with
    | Call.timeout_add_seconds _ _ => true
    | _ => false)

/-- What no operation on an event changes: the fields fixed at construction stay,
`ended` is never taken back, and an event with a raw timeout of at most 0 and no
timeout source pending stays without a pending source, arms none and does not
expire. -/
structure OpFrame (w w' : World) : Prop where
  id_eq : w'.ev.id = w.ev.id
  app_id_eq : w'.ev.app_id = w.ev.app_id
  event_eq : w'.ev.event = w.ev.event
  sender_eq : w'.ev.sender = w.ev.sender
  timeout_eq : w'.ev.timeout = w.ev.timeout
  ended_mono : w.ev.ended = true → w'.ev.ended = true
  quiet : w.ev.timeout ≤ 0 → w.sources = [] →
    w'.sources = [] ∧ w'.ev.expired = w.ev.expired ∧
      timers_armed w'.log = timers_armed w.log

/-- The guard of the `switch` in `on_fb_ended`: whether the handler answers the end of
a handle with `fbd_feedback_run`. -/
def on_fb_ended_restarts (e : FbdEvent) : Bool :=
  if e.timeout = FBD_EVENT_TIMEOUT_ONESHOT then false
  else if e.timeout = FBD_EVENT_TIMEOUT_LOOP then
    !(e.end_reason != FbdEventEndReason.NATURAL)
  else !e.expired && e.end_reason == FbdEventEndReason.NATURAL

/-- The invariant of the spec on `ended`: if `ended` is true, no handle is attached or
every attached handle reports that it has ended. -/
def ended_sound (w : World) : Bool :=
  !w.ev.ended || fbd_event_get_feedbacks_ended w

/-- The operations that keep `ended_sound` in the state `w`: detach, end_all,
end_above_level, set_end_reason and the expiry of a timer always; the completion of a
handle when the event does not restart it or `ended` is false; attach while `ended` is
false; run_feedbacks while `ended` is false and the event restarts its handles or no
attached effect ends inside `run()`. -/
def keeps_ended_sound (w : World) : Op → Bool
  | Op.attach _ => !w.ev.ended
  | Op.run_feedbacks =>
    !w.ev.ended && (on_fb_ended_restarts w.ev ||
      w.ev.feedbacks.all (fun fb => !(w.fbs fb).run_ends))
  | Op.completion _ => !on_fb_ended_restarts w.ev || !w.ev.ended
  | _ => true

/-- Whether every operation of a sequence keeps `ended_sound` in the state in which it
is applied. -/
def ops_keep_ended_sound (fuel : Nat) : List Op → World → Bool
  | [], _ => true
  | op :: rest, w =>
    keeps_ended_sound w op &&
      (match apply_op fuel w op with
        | some w1 => ops_keep_ended_sound fuel rest w1
        | none => true)

/-! ## LED discovery and the colour array (`src/fbd-dev-leds.c`) -/

/-- The macro `LED_MULTI_INDEX_RED`. -/
def LED_MULTI_INDEX_RED : String := "red"

/-- The macro `LED_MULTI_INDEX_GREEN`. -/
def LED_MULTI_INDEX_GREEN : String := "green"

/-- The macro `LED_MULTI_INDEX_BLUE`. -/
def LED_MULTI_INDEX_BLUE : String := "blue"

/-- The values of the enumeration `FbdFeedbackLedColor` that `fbd-dev-leds.c` names;
the header that declares it is not among the sources. -/
inductive FbdFeedbackLedColor
  | WHITE
  | RED
  | GREEN
  | BLUE
  | RGB
  deriving DecidableEq, Repr

/-- The fields of `struct _FbdDevLed`, without the udev device. -/
structure FbdDevLed where
  max_brightness : Nat
  red_index : Nat
  green_index : Nat
  blue_index : Nat
  color : FbdFeedbackLedColor
  deriving DecidableEq, Repr

/-- The LED as `initable_init` has it before it reads `multi_index`: memory from
`g_malloc0` with the colour and the maximal brightness set. -/
def fbd_dev_led_new (color : FbdFeedbackLedColor) (brightness : Nat) : FbdDevLed :=
  { max_brightness := brightness, red_index := 0, green_index := 0, blue_index := 0,
    color := color }

/-- One round of the loop of `initable_init` over the entries of `multi_index`; the
state is the LED and the `guint` variable `counter`. -/
def multi_index_round (st : FbdDevLed × Nat) (entry : String) : FbdDevLed × Nat :=
  if entry = LED_MULTI_INDEX_RED then
    ({ st.1 with red_index := st.2 }, (st.2 + 1) % 2 ^ 32)
  else if entry = LED_MULTI_INDEX_GREEN then
    ({ st.1 with green_index := st.2 }, (st.2 + 1) % 2 ^ 32)
  else if entry = LED_MULTI_INDEX_BLUE then
    ({ st.1 with blue_index := st.2 }, (st.2 + 1) % 2 ^ 32)
  else st

/-- The part of `initable_init` that reads the `multi_index` attribute into the LED;
`none` is the attribute that is missing (`index` is NULL). -/
def read_multi_index (led : FbdDevLed) (index : Option (List String)) : FbdDevLed :=
  match index with
  | none => led
  | some entries => (entries.foldl multi_index_round (led, 0)).1

/-- The number of entries of `multi_index` that the loop recognises. -/
def recognised_entries (entries : List String) : Nat :=
  entries.countP (fun entry => entry = LED_MULTI_INDEX_RED ∨
    entry = LED_MULTI_INDEX_GREEN ∨ entry = LED_MULTI_INDEX_BLUE)

/-- The writes `colors[index] = value` that the `switch` of
`fbd_dev_leds_start_periodic` makes for an RGB LED, in their order; the `default`
case returns before it writes. -/
def rgb_writes (led : FbdDevLed) (color : FbdFeedbackLedColor) : List (Nat × Nat) :=
  match color with
  | FbdFeedbackLedColor.WHITE =>
    [(led.red_index, led.max_brightness), (led.green_index, led.max_brightness),
      (led.blue_index, led.max_brightness)]
  | FbdFeedbackLedColor.RED =>
    [(led.red_index, led.max_brightness), (led.green_index, 0), (led.blue_index, 0)]
  | FbdFeedbackLedColor.GREEN =>
    [(led.red_index, 0), (led.green_index, led.max_brightness), (led.blue_index, 0)]
  | FbdFeedbackLedColor.BLUE =>
    [(led.red_index, 0), (led.green_index, 0), (led.blue_index, led.max_brightness)]
  | FbdFeedbackLedColor.RGB => []

/-- A write into an array of `guint`; `none` when the index is outside the array. -/
def array_write (colors : Option (List Nat)) (write : Nat × Nat) : Option (List Nat) :=
  match colors with
  | none => none
  | some cs => if write.1 < cs.length then some (cs.set write.1 write.2) else none

/-- The array `colors` of `fbd_dev_leds_start_periodic` after the writes of the
`switch`, starting from `{ 0, 0, 0 }`; `none` when a write was outside the array. -/
def rgb_colors (led : FbdDevLed) (color : FbdFeedbackLedColor) : Option (List Nat) :=
  (rgb_writes led color).foldl array_write (some [0, 0, 0])

/-! ## Example worlds -/

/-- A world with one attached handle, number 1, and an untouched handle 2. -/
def world_one_attached : World :=
  fbd_event_add_feedback
    (World.start (fbd_event_new 1 (some "app") (some "window-close") (-1) none)
      (fun _ => fresh_feedback 0)) 1

/-- A newly constructed Oneshot event, with untouched handles around it. -/
def world_new_oneshot : World :=
  World.start (fbd_event_new 1 (some "app") (some "window-close") 0 none)
    (fun _ => fresh_feedback 0)

/-- The operations "attach the handle, detach it again", `n` times over. -/
def attach_detach_rounds (fb : Nat) : Nat → List Op
  | 0 => []
  | n + 1 => Op.attach fb :: Op.detach fb :: attach_detach_rounds fb n

/-- A Oneshot event with the handles 1 and 2 attached, in this order. -/
def world_two_attached : World :=
  fbd_event_add_feedback (fbd_event_add_feedback world_new_oneshot 1) 2

/-- A Loop event with the handles 1 and 2 attached, in this order. -/
def world_two_attached_loop : World :=
  fbd_event_add_feedback (fbd_event_add_feedback
    (World.start (fbd_event_new 1 (some "app") (some "window-close") (-1) none)
      (fun _ => fresh_feedback 0)) 1) 2

/-- The event of the level test: Oneshot, with handle 1 (level 10) and handle 2
(level 5) attached, in this order. -/
def world_levels : World :=
  fbd_event_add_feedback (fbd_event_add_feedback
    (World.start (fbd_event_new 1 (some "app") (some "window-close") 0 none)
      (fun k => fresh_feedback (if k = 1 then 10 else 5))) 1) 2

/-- The event of the timeout test, TimedLoop of one second, with handle 1 attached. -/
def world_timed : World :=
  fbd_event_add_feedback
    (World.start (fbd_event_new 1 (some "app") (some "window-close") 1 none)
      (fun _ => fresh_feedback 0)) 1

/-- The event of the timeout test after `fbd_event_run_feedbacks`: the timer is armed
as source 1 and handle 1 is running. -/
def world_timed_running : World :=
  ((arm_timeout world_timed).emit (Call.feedback_run 1)).set_ended 1 false

/-- A feedback handle whose effect is instantaneous: it ends inside the `run()` call
that starts it. -/
def instant_feedback (level : Nat) : FbdFeedbackBase :=
  { fresh_feedback level with run_ends := true }

/-- A Loop event (raw timeout -1) with one attached handle whose effect is
instantaneous. -/
def world_loop_instant : World :=
  fbd_event_add_feedback
    (World.start (fbd_event_new 1 (some "app") (some "window-close") (-1) none)
      (fun _ => instant_feedback 0)) 1

/-- A TimedLoop event of one second with one attached handle whose effect is
instantaneous. -/
def world_timed_instant : World :=
  fbd_event_add_feedback
    (World.start (fbd_event_new 1 (some "app") (some "window-close") 1 none)
      (fun _ => instant_feedback 0)) 1

/-- A Oneshot event with one attached handle whose effect is instantaneous. -/
def world_oneshot_instant : World :=
  fbd_event_add_feedback
    (World.start (fbd_event_new 1 (some "app") (some "window-close") 0 none)
      (fun _ => instant_feedback 0)) 1

/-! ## Basic facts -/

@[simp] theorem emit_ev (w : World) (c : Call) : (w.emit c).ev = w.ev := rfl
@[simp] theorem emit_fbs (w : World) (c : Call) : (w.emit c).fbs = w.fbs := rfl
@[simp] theorem emit_log (w : World) (c : Call) : (w.emit c).log = w.log ++ [c] := rfl
@[simp] theorem emit_sources (w : World) (c : Call) : (w.emit c).sources = w.sources := rfl
@[simp] theorem emit_last_source (w : World) (c : Call) :
    (w.emit c).last_source = w.last_source := rfl
@[simp] theorem set_ev_ev (w : World) (e : FbdEvent) : (w.set_ev e).ev = e := rfl
@[simp] theorem set_ev_fbs (w : World) (e : FbdEvent) : (w.set_ev e).fbs = w.fbs := rfl
@[simp] theorem set_ev_log (w : World) (e : FbdEvent) : (w.set_ev e).log = w.log := rfl
@[simp] theorem set_ev_sources (w : World) (e : FbdEvent) :
    (w.set_ev e).sources = w.sources := rfl
@[simp] theorem set_ev_last_source (w : World) (e : FbdEvent) :
    (w.set_ev e).last_source = w.last_source := rfl
@[simp] theorem set_fb_ev (w : World) (fb : Nat) (f : FbdFeedbackBase) :
    (w.set_fb fb f).ev = w.ev := rfl
@[simp] theorem set_fb_log (w : World) (fb : Nat) (f : FbdFeedbackBase) :
    (w.set_fb fb f).log = w.log := rfl
@[simp] theorem set_fb_sources (w : World) (fb : Nat) (f : FbdFeedbackBase) :
    (w.set_fb fb f).sources = w.sources := rfl
@[simp] theorem set_fb_last_source (w : World) (fb : Nat) (f : FbdFeedbackBase) :
    (w.set_fb fb f).last_source = w.last_source := rfl
@[simp] theorem set_fb_fbs_same (w : World) (fb : Nat) (f : FbdFeedbackBase) :
    (w.set_fb fb f).fbs fb = f := by
  simp [World.set_fb]
theorem set_fb_fbs_other (w : World) (fb x : Nat) (f : FbdFeedbackBase) (h : x ≠ fb) :
    (w.set_fb fb f).fbs x = w.fbs x := by
  simp [World.set_fb, Function.update_noteq h]

@[simp] theorem set_ended_ev (w : World) (fb : Nat) (b : Bool) :
    (w.set_ended fb b).ev = w.ev := rfl
@[simp] theorem set_ended_log (w : World) (fb : Nat) (b : Bool) :
    (w.set_ended fb b).log = w.log := rfl
@[simp] theorem set_ended_sources (w : World) (fb : Nat) (b : Bool) :
    (w.set_ended fb b).sources = w.sources := rfl
@[simp] theorem set_ended_last_source (w : World) (fb : Nat) (b : Bool) :
    (w.set_ended fb b).last_source = w.last_source := rfl
@[simp] theorem set_ended_ended (w : World) (fb : Nat) (b : Bool) :
    ((w.set_ended fb b).fbs fb).ended = b := by
  simp [World.set_ended]
@[simp] theorem set_ended_handlers (w : World) (fb x : Nat) (b : Bool) :
    ((w.set_ended fb b).fbs x).handlers = (w.fbs x).handlers := by
  by_cases h : x = fb
  · subst h; simp [World.set_ended]
  · simp [World.set_ended, set_fb_fbs_other w fb x _ h]
@[simp] theorem set_ended_run_ends (w : World) (fb x : Nat) (b : Bool) :
    ((w.set_ended fb b).fbs x).run_ends = (w.fbs x).run_ends := by
  by_cases h : x = fb
  · subst h; simp [World.set_ended]
  · simp [World.set_ended, set_fb_fbs_other w fb x _ h]
@[simp] theorem set_ended_end_ends (w : World) (fb x : Nat) (b : Bool) :
    ((w.set_ended fb b).fbs x).end_ends = (w.fbs x).end_ends := by
  by_cases h : x = fb
  · subst h; simp [World.set_ended]
  · simp [World.set_ended, set_fb_fbs_other w fb x _ h]
@[simp] theorem set_ended_level (w : World) (fb x : Nat) (b : Bool) :
    ((w.set_ended fb b).fbs x).level = (w.fbs x).level := by
  by_cases h : x = fb
  · subst h; simp [World.set_ended]
  · simp [World.set_ended, set_fb_fbs_other w fb x _ h]
theorem set_ended_other (w : World) (fb x : Nat) (b : Bool) (h : x ≠ fb) :
    (w.set_ended fb b).fbs x = w.fbs x :=
  set_fb_fbs_other w fb x _ h

@[simp] theorem set_handlers_ev (w : World) (fb : Nat) (n : Nat) :
    (w.set_handlers fb n).ev = w.ev := rfl
@[simp] theorem set_handlers_log (w : World) (fb : Nat) (n : Nat) :
    (w.set_handlers fb n).log = w.log := rfl
@[simp] theorem set_handlers_sources (w : World) (fb : Nat) (n : Nat) :
    (w.set_handlers fb n).sources = w.sources := rfl
@[simp] theorem set_handlers_last_source (w : World) (fb : Nat) (n : Nat) :
    (w.set_handlers fb n).last_source = w.last_source := rfl
@[simp] theorem set_handlers_handlers (w : World) (fb : Nat) (n : Nat) :
    ((w.set_handlers fb n).fbs fb).handlers = n := by
  simp [World.set_handlers]
@[simp] theorem set_handlers_ended (w : World) (fb x : Nat) (n : Nat) :
    ((w.set_handlers fb n).fbs x).ended = (w.fbs x).ended := by
  by_cases h : x = fb
  · subst h; simp [World.set_handlers]
  · simp [World.set_handlers, set_fb_fbs_other w fb x _ h]
@[simp] theorem set_handlers_level (w : World) (fb x : Nat) (n : Nat) :
    ((w.set_handlers fb n).fbs x).level = (w.fbs x).level := by
  by_cases h : x = fb
  · subst h; simp [World.set_handlers]
  · simp [World.set_handlers, set_fb_fbs_other w fb x _ h]
@[simp] theorem set_handlers_run_ends (w : World) (fb x : Nat) (n : Nat) :
    ((w.set_handlers fb n).fbs x).run_ends = (w.fbs x).run_ends := by
  by_cases h : x = fb
  · subst h; simp [World.set_handlers]
  · simp [World.set_handlers, set_fb_fbs_other w fb x _ h]
@[simp] theorem set_handlers_end_ends (w : World) (fb x : Nat) (n : Nat) :
    ((w.set_handlers fb n).fbs x).end_ends = (w.fbs x).end_ends := by
  by_cases h : x = fb
  · subst h; simp [World.set_handlers]
  · simp [World.set_handlers, set_fb_fbs_other w fb x _ h]
theorem set_handlers_other (w : World) (fb x : Nat) (n : Nat) (h : x ≠ fb) :
    (w.set_handlers fb n).fbs x = w.fbs x :=
  set_fb_fbs_other w fb x _ h

theorem fbd_feedback_run_zero (w : World) (fb : Nat) : fbd_feedback_run 0 w fb = none := rfl

theorem fbd_feedback_run_succ (fuel : Nat) (w : World) (fb : Nat) :
    fbd_feedback_run (fuel + 1) w fb =
      if (w.fbs fb).run_ends = true then
        fbd_feedback_base_done (fbd_feedback_run fuel)
          ((w.emit (Call.feedback_run fb)).set_ended fb false) fb
      else some ((w.emit (Call.feedback_run fb)).set_ended fb false) := by
  simp [fbd_feedback_run]

theorem fbd_feedback_base_done_eq (run : World → Nat → Option World) (w : World) (fb : Nat) :
    fbd_feedback_base_done run w fb =
      emit_signal (fun v => on_fb_ended run v fb) (w.fbs fb).handlers (w.set_ended fb true) := by
  simp [fbd_feedback_base_done]

theorem fbd_feedback_end_eq (fuel : Nat) (w : World) (fb : Nat) :
    fbd_feedback_end fuel w fb =
      if (w.fbs fb).end_ends = true then
        fbd_feedback_base_done (fbd_feedback_run fuel) (w.emit (Call.feedback_end fb)) fb
      else some (w.emit (Call.feedback_end fb)) := by
  simp [fbd_feedback_end]

theorem get_feedbacks_ended_iff (w : World) :
    fbd_event_get_feedbacks_ended w = true ↔
      ∀ fb ∈ w.ev.feedbacks, fbd_feedback_get_ended w fb = true := by
  unfold fbd_event_get_feedbacks_ended
  by_cases h : w.ev.feedbacks.isEmpty = true
  · have h0 : w.ev.feedbacks = [] := List.isEmpty_iff.mp h
    simp [h0]
  · simp [h, List.all_eq_true]

theorem check_ended_of_all (w : World)
    (h : ∀ fb ∈ w.ev.feedbacks, fbd_feedback_get_ended w fb = true) :
    check_ended w =
      ({ w with ev := { w.ev with ended := true },
                log := w.log ++ [Call.notify_feedbacks_ended,
                  Call.signal_feedbacks_ended w.ev.end_reason] }, true) := by
  have hall : fbd_event_get_feedbacks_ended w = true := (get_feedbacks_ended_iff w).mpr h
  simp [check_ended, hall, World.emit, World.set_ev]

theorem check_ended_of_not_all (w : World)
    (h : ∃ fb ∈ w.ev.feedbacks, fbd_feedback_get_ended w fb = false) :
    check_ended w = (w, false) := by
  have hall : fbd_event_get_feedbacks_ended w = false := by
    cases hb : fbd_event_get_feedbacks_ended w with
    | false => rfl
    | true =>
      obtain ⟨fb, hm, hf⟩ := h
      have := (get_feedbacks_ended_iff w).mp hb fb hm
      rw [hf] at this
      exact absurd this (by decide)
  simp [check_ended, hall]

theorem erase_eq_filter_of_count_one (l : List Nat) (a : Nat) (h : l.count a = 1) :
    l.erase a = l.filter (fun x => x != a) := by
  induction l with
  | nil => simp at h
  | cons b t ih =>
    by_cases hb : b = a
    · subst hb
      have h0 : t.count b = 0 := by simpa using h
      have hnm : b ∉ t := List.count_eq_zero.mp h0
      have hf : t.filter (fun x => x != b) = t := by
        apply List.filter_eq_self.mpr
        intro x hx
        have : x ≠ b := fun e => hnm (e ▸ hx)
        simpa using this
      simp [hf]
    · have hc : t.count a = 1 := by
        rw [List.count_cons] at h
        simpa [hb] using h
      have hba : (b == a) = false := by simpa using hb
      rw [List.erase_cons, hba]
      simp [ih hc, hb]

theorem isEmpty_false_of_mem {l : List Nat} {a : Nat} (h : a ∈ l) : l.isEmpty = false := by
  cases l with
  | nil => cases h
  | cons b t => rfl

theorem remove_feedback_of_mem (w : World) (fb : Nat) (hmem : fb ∈ w.ev.feedbacks) :
    fbd_event_remove_feedback w fb =
      (if (w.ev.feedbacks.erase fb).length = 0 then
          (check_ended ((w.set_handlers fb 0).set_ev
            { w.ev with feedbacks := w.ev.feedbacks.erase fb })).1
        else
          (w.set_handlers fb 0).set_ev
            { w.ev with feedbacks := w.ev.feedbacks.erase fb },
        (w.ev.feedbacks.erase fb).length) := by
  have he : w.ev.feedbacks.isEmpty = false := isEmpty_false_of_mem hmem
  unfold fbd_event_remove_feedback
  rw [if_neg (by simp [he]), if_pos hmem]
  rfl

/-- Whether `on_fb_ended` takes a branch that calls `fbd_feedback_run`. -/
theorem on_fb_ended_eq (run : World → Nat → Option World) (w : World) (fb : Nat)
    (hrange : FBD_EVENT_TIMEOUT_LOOP ≤ w.ev.timeout ∨ w.ev.expired = false) :
    on_fb_ended run w fb =
      if restart_condition w.ev = true then run w fb else some (check_ended w).1 := by
  unfold on_fb_ended restart_condition timeout_policy
  unfold FBD_EVENT_TIMEOUT_LOOP at hrange
  by_cases h0 : w.ev.timeout = 0
  · simp [FBD_EVENT_TIMEOUT_ONESHOT, h0]
  · by_cases h1 : w.ev.timeout = -1
    · cases hr : w.ev.end_reason <;>
        simp [FBD_EVENT_TIMEOUT_ONESHOT, FBD_EVENT_TIMEOUT_LOOP, h1, hr]
    · by_cases hneg : w.ev.timeout < 0
      · have hx : w.ev.expired = false := by
          rcases hrange with h | h
          · omega
          · exact h
        cases hr : w.ev.end_reason <;>
          simp [FBD_EVENT_TIMEOUT_ONESHOT, FBD_EVENT_TIMEOUT_LOOP, h0, h1, hr, hx, hneg]
      · cases hr : w.ev.end_reason <;> cases hx : w.ev.expired <;>
          simp [FBD_EVENT_TIMEOUT_ONESHOT, FBD_EVENT_TIMEOUT_LOOP, h0, h1, hr, hx, hneg]

/-- An instantaneous effect that is restarted on every completion never returns:
each `run()` ends inside the call, and the handler answers with the next `run()`. -/
theorem run_restart_none (fb : Nat) :
    ∀ (fuel : Nat) (w : World),
      (FBD_EVENT_TIMEOUT_LOOP ≤ w.ev.timeout ∨ w.ev.expired = false) →
      restart_condition w.ev = true → (w.fbs fb).run_ends = true →
      0 < (w.fbs fb).handlers → fbd_feedback_run fuel w fb = none := by
  intro fuel
  induction fuel with
  | zero => intro w _ _ _ _; rfl
  | succ n ih =>
    intro w hrange hres hrun hh
    obtain ⟨k, hk⟩ : ∃ k, (w.fbs fb).handlers = k + 1 := ⟨(w.fbs fb).handlers - 1, by omega⟩
    have hstep := ih (((w.emit (Call.feedback_run fb)).set_ended fb false).set_ended fb true)
      hrange hres (by simpa using hrun) (by simpa using hh)
    rw [fbd_feedback_run_succ, if_pos hrun, fbd_feedback_base_done_eq]
    have hhand : (((w.emit (Call.feedback_run fb)).set_ended fb false).fbs fb).handlers
        = k + 1 := by simpa using hk
    rw [hhand]
    simp only [emit_signal]
    rw [on_fb_ended_eq (fbd_feedback_run n)
      (((w.emit (Call.feedback_run fb)).set_ended fb false).set_ended fb true) fb hrange,
      if_pos (by simpa using hres), hstep]
    rfl

theorem terminal_notifications_append (l1 l2 : List Call) :
    terminal_notifications (l1 ++ l2) = terminal_notifications l1 + terminal_notifications l2 := by
  simp [terminal_notifications, List.countP_append]

theorem handle_calls_append (l1 l2 : List Call) :
    handle_calls (l1 ++ l2) = handle_calls l1 ++ handle_calls l2 := by
  simp [handle_calls, List.filter_append]

/-- One round of attach and detach on an event without handles drains it again and
adds one terminal notification. -/
theorem attach_detach_round (w : World) (fb : Nat) (h : w.ev.feedbacks = []) :
    (fbd_event_remove_feedback (fbd_event_add_feedback w fb) fb).1.ev.feedbacks = [] ∧
    terminal_notifications (fbd_event_remove_feedback (fbd_event_add_feedback w fb) fb).1.log
      = terminal_notifications w.log + 1 := by
  have hfb : (fbd_event_add_feedback w fb).ev.feedbacks = [fb] := by
    simp [fbd_event_add_feedback, h]
  have hmem : fb ∈ (fbd_event_add_feedback w fb).ev.feedbacks := by simp [hfb]
  have hlog : (fbd_event_add_feedback w fb).log = w.log := by
    simp [fbd_event_add_feedback]
  rw [remove_feedback_of_mem _ _ hmem]
  simp only [hfb, List.erase_cons_head, List.length_nil, if_true]
  rw [check_ended_of_all _ (by intro x hx; simp at hx)]
  constructor
  · rfl
  · simp [hlog, terminal_notifications_append, terminal_notifications]

theorem foreach_feedback_append (f : World → Nat → Option World) (a b : List Nat) (w : World) :
    foreach_feedback f (a ++ b) w = (foreach_feedback f a w).bind (foreach_feedback f b) := by
  induction a generalizing w with
  | nil => simp [foreach_feedback]
  | cons x t ih =>
    simp only [List.cons_append, foreach_feedback]
    cases hx : f w x with
    | none => simp
    | some v => simp [ih]

/-- Under Oneshot, or once the end reason is Explicit, the handler only runs the
completion check. -/
theorem on_fb_ended_check (run : World → Nat → Option World) (w : World) (fb : Nat)
    (h : w.ev.timeout = FBD_EVENT_TIMEOUT_ONESHOT ∨
      w.ev.end_reason = FbdEventEndReason.EXPLICIT) :
    on_fb_ended run w fb = some (check_ended w).1 := by
  unfold on_fb_ended
  rcases h with h | h
  · simp [h]
  · simp [h]

theorem done_one_handler (run : World → Nat → Option World) (w : World) (fb : Nat)
    (h : w.ev.timeout = FBD_EVENT_TIMEOUT_ONESHOT ∨
      w.ev.end_reason = FbdEventEndReason.EXPLICIT)
    (hh : (w.fbs fb).handlers = 1) :
    fbd_feedback_base_done run w fb = some (check_ended (w.set_ended fb true)).1 := by
  rw [fbd_feedback_base_done_eq, hh]
  simp only [emit_signal]
  rw [on_fb_ended_check run (w.set_ended fb true) fb (by simpa using h)]
  rfl

theorem done_no_handler (run : World → Nat → Option World) (w : World) (fb : Nat)
    (hh : (w.fbs fb).handlers = 0) :
    fbd_feedback_base_done run w fb = some (w.set_ended fb true) := by
  rw [fbd_feedback_base_done_eq, hh]
  rfl

/-- The completion of a handle while another attached handle has not ended only marks
the handle as ended. -/
theorem done_not_last (run : World → Nat → Option World) (w : World) (fb : Nat)
    (h : w.ev.timeout = FBD_EVENT_TIMEOUT_ONESHOT ∨
      w.ev.end_reason = FbdEventEndReason.EXPLICIT)
    (hh : (w.fbs fb).handlers = 1)
    (hy : ∃ y ∈ w.ev.feedbacks, y ≠ fb ∧ (w.fbs y).ended = false) :
    fbd_feedback_base_done run w fb = some (w.set_ended fb true) := by
  rw [done_one_handler run w fb h hh]
  obtain ⟨y, hym, hne, hf⟩ := hy
  rw [check_ended_of_not_all (w.set_ended fb true)
    ⟨y, hym, by simp [fbd_feedback_get_ended, set_ended_other w fb y true hne, hf]⟩]

/-- The completion of the last attached handle that had not ended sets `ended` and
emits the terminal notification. -/
theorem done_last (run : World → Nat → Option World) (w : World) (fb : Nat)
    (h : w.ev.timeout = FBD_EVENT_TIMEOUT_ONESHOT ∨
      w.ev.end_reason = FbdEventEndReason.EXPLICIT)
    (hh : (w.fbs fb).handlers = 1)
    (hy : ∀ y ∈ w.ev.feedbacks, y ≠ fb → (w.fbs y).ended = true) :
    fbd_feedback_base_done run w fb =
      some { w.set_ended fb true with
        ev := { w.ev with ended := true },
        log := w.log ++ [Call.notify_feedbacks_ended,
          Call.signal_feedbacks_ended w.ev.end_reason] } := by
  rw [done_one_handler run w fb h hh]
  rw [check_ended_of_all (w.set_ended fb true)]
  · rfl
  · intro y hym
    by_cases hne : y = fb
    · subst hne
      simp [fbd_feedback_get_ended]
    · simp [fbd_feedback_get_ended, set_ended_other w fb y true hne, hy y hym hne]

/-- Completions of handles while some other attached handle has not ended only mark
those handles as ended. -/
theorem completions_not_last (fuel : Nat) :
    ∀ (cs : List Nat) (w : World),
      (w.ev.timeout = FBD_EVENT_TIMEOUT_ONESHOT ∨
        w.ev.end_reason = FbdEventEndReason.EXPLICIT) →
      (∀ fb ∈ cs, (w.fbs fb).handlers = 1) →
      (∃ y ∈ w.ev.feedbacks, y ∉ cs ∧ (w.fbs y).ended = false) →
      ∃ w', completions fuel cs w = some w' ∧ w'.ev = w.ev ∧ w'.log = w.log ∧
        (∀ y, (w'.fbs y).ended = (decide (y ∈ cs) || (w.fbs y).ended)) ∧
        (∀ y, (w'.fbs y).handlers = (w.fbs y).handlers) := by
  intro cs
  induction cs with
  | nil =>
    intro w _ _ _
    exact ⟨w, rfl, rfl, rfl, by simp, by simp⟩
  | cons c t ih =>
    intro w hq hh hy
    obtain ⟨y, hym, hyn, hyf⟩ := hy
    have hyc : y ≠ c := fun e => hyn (by simp [e])
    have hyt : y ∉ t := fun e => hyn (by simp [e])
    have hstep := done_not_last (fbd_feedback_run fuel) w c hq (hh c (by simp))
      ⟨y, hym, hyc, hyf⟩
    obtain ⟨w', hw', hev, hlog, hend, hhan⟩ := ih (w.set_ended c true) (by simpa using hq)
      (by intro fb hfb; simpa using hh fb (by simp [hfb]))
      ⟨y, by simpa using hym, hyt, by simp [set_ended_other w c y true hyc, hyf]⟩
    refine ⟨w', ?_, ?_, ?_, ?_, ?_⟩
    · simp only [completions, foreach_feedback, hstep, Option.some_bind]
      exact hw'
    · simpa using hev
    · simpa using hlog
    · intro z
      rw [hend z]
      by_cases hz : z = c
      · subst hz
        simp
      · simp [set_ended_other w c z true hz, hz]
    · intro z
      rw [hhan z]
      simp

/-- Ending handles that report the end at once, while some other attached handle has
not ended, only logs the calls and marks those handles as ended. -/
theorem ends_not_last (fuel : Nat) :
    ∀ (cs : List Nat) (w : World),
      w.ev.end_reason = FbdEventEndReason.EXPLICIT →
      (∀ fb ∈ cs, (w.fbs fb).handlers = 1 ∧ (w.fbs fb).end_ends = true) →
      (∃ y ∈ w.ev.feedbacks, y ∉ cs ∧ (w.fbs y).ended = false) →
      ∃ w', foreach_feedback (fbd_feedback_end fuel) cs w = some w' ∧ w'.ev = w.ev ∧
        w'.log = w.log ++ cs.map Call.feedback_end ∧
        (∀ y, (w'.fbs y).ended = (decide (y ∈ cs) || (w.fbs y).ended)) ∧
        (∀ y, (w'.fbs y).handlers = (w.fbs y).handlers) ∧
        (∀ y, (w'.fbs y).end_ends = (w.fbs y).end_ends) := by
  intro cs
  induction cs with
  | nil =>
    intro w _ _ _
    exact ⟨w, rfl, rfl, by simp, by simp, by simp, by simp⟩
  | cons c t ih =>
    intro w hq hh hy
    obtain ⟨y, hym, hyn, hyf⟩ := hy
    have hyc : y ≠ c := fun e => hyn (by simp [e])
    have hyt : y ∉ t := fun e => hyn (by simp [e])
    have hstep : fbd_feedback_end fuel w c
        = some ((w.emit (Call.feedback_end c)).set_ended c true) := by
      rw [fbd_feedback_end_eq, if_pos (hh c (by simp)).2]
      exact done_not_last (fbd_feedback_run fuel) (w.emit (Call.feedback_end c)) c
        (Or.inr (by simpa using hq)) (by simpa using (hh c (by simp)).1)
        ⟨y, by simpa using hym, hyc, by simpa using hyf⟩
    obtain ⟨w', hw', hev, hlog, hend, hhan, hee⟩ :=
      ih ((w.emit (Call.feedback_end c)).set_ended c true) (by simpa using hq)
        (by intro fb hfb; simpa using hh fb (by simp [hfb]))
        ⟨y, by simpa using hym, hyt, by
          rw [set_ended_other _ c y true hyc]; simpa using hyf⟩
    refine ⟨w', ?_, ?_, ?_, ?_, ?_, ?_⟩
    · simp only [foreach_feedback, hstep, Option.some_bind]
      exact hw'
    · simpa using hev
    · simpa using hlog
    · intro z
      rw [hend z]
      by_cases hz : z = c
      · subst hz
        simp
      · rw [set_ended_other _ c z true hz]
        simp [hz]
    · intro z
      rw [hhan z]
      simp
    · intro z
      rw [hee z]
      simp

theorem set_end_reason_reason (w : World) (r : FbdEventEndReason) :
    (fbd_event_set_end_reason w r).ev.end_reason = r := by
  unfold fbd_event_set_end_reason
  by_cases h : w.ev.end_reason = r
  · simp [h]
  · simp [h]

theorem set_end_reason_ev (w : World) (r : FbdEventEndReason) :
    (fbd_event_set_end_reason w r).ev = { w.ev with end_reason := r } := by
  unfold fbd_event_set_end_reason
  by_cases h : w.ev.end_reason = r
  · simp only [h, if_true]
    rw [← h]
  · simp [h]

theorem set_end_reason_fbs (w : World) (r : FbdEventEndReason) :
    (fbd_event_set_end_reason w r).fbs = w.fbs := by
  unfold fbd_event_set_end_reason
  by_cases h : w.ev.end_reason = r
  · simp [h]
  · simp [h]

theorem set_end_reason_log (w : World) (r : FbdEventEndReason) :
    (fbd_event_set_end_reason w r).log =
      w.log ++ (if w.ev.end_reason = r then [] else [Call.notify_end_reason]) := by
  unfold fbd_event_set_end_reason
  by_cases h : w.ev.end_reason = r
  · simp [h]
  · simp [h]

theorem EndsOnly.refl (w : World) : EndsOnly w w [] :=
  ⟨rfl, by simp, by simp, Or.inl rfl, fun _ => rfl⟩

theorem EndsOnly.trans {w w1 w2 : World} {t1 t2 : List Call}
    (h1 : EndsOnly w w1 t1) (h2 : EndsOnly w1 w2 t2) : EndsOnly w w2 (t1 ++ t2) := by
  have hr : w1.ev.end_reason = w.ev.end_reason := by rw [h1.ev_eq]
  refine ⟨?_, ?_, ?_, ?_, ?_⟩
  · rw [h2.ev_eq, h1.ev_eq]
  · rw [h2.log_eq, h1.log_eq, List.append_assoc]
  · intro c hc
    rcases List.mem_append.mp hc with hc | hc
    · exact h1.calls c hc
    · have := h2.calls c hc
      rw [hr] at this
      exact this
  · rcases h2.ended_eq with h | ⟨h, hp⟩
    · rcases h1.ended_eq with h' | ⟨h', hp'⟩
      · exact Or.inl (h.trans h')
      · exact Or.inr ⟨h.trans h', by rw [terminal_notifications_append]; omega⟩
    · exact Or.inr ⟨h, by rw [terminal_notifications_append]; omega⟩
  · intro y
    rw [h2.fbs_eq y, h1.fbs_eq y]

theorem EndsOnly.check (w : World) :
    ∃ tail, EndsOnly w (check_ended w).1 tail ∧ handle_calls tail = [] := by
  cases hb : fbd_event_get_feedbacks_ended w with
  | true =>
    rw [check_ended_of_all w ((get_feedbacks_ended_iff w).mp hb)]
    refine ⟨[Call.notify_feedbacks_ended, Call.signal_feedbacks_ended w.ev.end_reason],
      ⟨rfl, rfl, ?_, ?_, fun _ => rfl⟩, ?_⟩
    · intro c hc
      simp at hc
      rcases hc with hc | hc
      · exact Or.inl hc
      · exact Or.inr (Or.inl hc)
    · exact Or.inr ⟨rfl, by simp [terminal_notifications]⟩
    · simp [handle_calls]
  | false =>
    have : check_ended w = (w, false) := by simp [check_ended, hb]
    rw [this]
    exact ⟨[], EndsOnly.refl w, rfl⟩

theorem EndsOnly.emit_end (w : World) (fb : Nat) :
    EndsOnly w (w.emit (Call.feedback_end fb)) [Call.feedback_end fb] :=
  ⟨rfl, rfl, by intro c hc; simp at hc; exact Or.inr (Or.inr ⟨fb, hc⟩), Or.inl rfl,
    fun _ => rfl⟩

theorem EndsOnly.set_ended (w : World) (fb : Nat) (b : Bool) :
    EndsOnly w (w.set_ended fb b) [] := by
  refine ⟨rfl, by simp, by simp, Or.inl rfl, ?_⟩
  intro y
  by_cases h : y = fb
  · subst h
    simp [World.set_ended]
  · rw [set_ended_other w fb y b h]

/-- Whether the event can restart a handle is decided by fields that the end of
handles does not change. -/
theorem EndsOnly.no_restart {w w' : World} {tail : List Call} (h : EndsOnly w w' tail)
    (hq : w.ev.timeout = FBD_EVENT_TIMEOUT_ONESHOT ∨
      w.ev.end_reason = FbdEventEndReason.EXPLICIT) :
    w'.ev.timeout = FBD_EVENT_TIMEOUT_ONESHOT ∨
      w'.ev.end_reason = FbdEventEndReason.EXPLICIT := by
  rw [h.ev_eq]
  exact hq

/-- The handlers of a handle's `ended` signal, while no restart is possible. -/
theorem emit_signal_ends (run : World → Nat → Option World) (fb : Nat) :
    ∀ (n : Nat) (w : World),
      (w.ev.timeout = FBD_EVENT_TIMEOUT_ONESHOT ∨
        w.ev.end_reason = FbdEventEndReason.EXPLICIT) →
      ∃ w' tail, emit_signal (fun v => on_fb_ended run v fb) n w = some w' ∧
        EndsOnly w w' tail ∧ handle_calls tail = [] := by
  intro n
  induction n with
  | zero =>
    intro w _
    exact ⟨w, [], rfl, EndsOnly.refl w, rfl⟩
  | succ k ih =>
    intro w hq
    obtain ⟨t1, h1, hc1⟩ := EndsOnly.check w
    obtain ⟨w', t2, hw', h2, hc2⟩ := ih (check_ended w).1 (h1.no_restart hq)
    refine ⟨w', t1 ++ t2, ?_, h1.trans h2, ?_⟩
    · simp only [emit_signal]
      rw [on_fb_ended_check run w fb hq]
      exact hw'
    · rw [handle_calls_append, hc1, hc2]
      rfl

theorem done_ends (run : World → Nat → Option World) (w : World) (fb : Nat)
    (hq : w.ev.timeout = FBD_EVENT_TIMEOUT_ONESHOT ∨
      w.ev.end_reason = FbdEventEndReason.EXPLICIT) :
    ∃ w' tail, fbd_feedback_base_done run w fb = some w' ∧
      EndsOnly w w' tail ∧ handle_calls tail = [] := by
  have h0 := EndsOnly.set_ended w fb true
  obtain ⟨w', t, hw', h1, hc⟩ := emit_signal_ends run fb (w.fbs fb).handlers
    (w.set_ended fb true) (h0.no_restart hq)
  refine ⟨w', [] ++ t, ?_, h0.trans h1, by simpa using hc⟩
  rw [fbd_feedback_base_done_eq]
  exact hw'

theorem end_ends (fuel : Nat) (w : World) (fb : Nat)
    (hq : w.ev.timeout = FBD_EVENT_TIMEOUT_ONESHOT ∨
      w.ev.end_reason = FbdEventEndReason.EXPLICIT) :
    ∃ w' tail, fbd_feedback_end fuel w fb = some w' ∧
      EndsOnly w w' tail ∧ handle_calls tail = [Call.feedback_end fb] := by
  have h0 := EndsOnly.emit_end w fb
  rw [fbd_feedback_end_eq]
  by_cases he : (w.fbs fb).end_ends = true
  · rw [if_pos he]
    obtain ⟨w', t, hw', h1, hc⟩ := done_ends (fbd_feedback_run fuel)
      (w.emit (Call.feedback_end fb)) fb (h0.no_restart hq)
    refine ⟨w', [Call.feedback_end fb] ++ t, hw', h0.trans h1, ?_⟩
    rw [handle_calls_append, hc]
    simp [handle_calls]
  · rw [if_neg he]
    exact ⟨_, _, rfl, h0, by simp [handle_calls]⟩

theorem foreach_end_ends (fuel : Nat) :
    ∀ (cs : List Nat) (w : World),
      (w.ev.timeout = FBD_EVENT_TIMEOUT_ONESHOT ∨
        w.ev.end_reason = FbdEventEndReason.EXPLICIT) →
      ∃ w' tail, foreach_feedback (fbd_feedback_end fuel) cs w = some w' ∧
        EndsOnly w w' tail ∧ handle_calls tail = cs.map Call.feedback_end := by
  intro cs
  induction cs with
  | nil =>
    intro w _
    exact ⟨w, [], rfl, EndsOnly.refl w, rfl⟩
  | cons c t ih =>
    intro w hq
    obtain ⟨w1, t1, hw1, h1, hc1⟩ := end_ends fuel w c hq
    obtain ⟨w2, t2, hw2, h2, hc2⟩ := ih w1 (h1.no_restart hq)
    refine ⟨w2, t1 ++ t2, ?_, h1.trans h2, ?_⟩
    · simp only [foreach_feedback, hw1, Option.some_bind]
      exact hw2
    · rw [handle_calls_append, hc1, hc2]
      rfl

/-- Ending handles that do not report the end inside the call only logs the calls. -/
theorem foreach_end_async (fuel : Nat) :
    ∀ (cs : List Nat) (w : World), (∀ fb ∈ cs, (w.fbs fb).end_ends = false) →
      foreach_feedback (fbd_feedback_end fuel) cs w =
        some { w with log := w.log ++ cs.map Call.feedback_end } := by
  intro cs
  induction cs with
  | nil =>
    intro w _
    simp [foreach_feedback]
  | cons c t ih =>
    intro w h
    have hc : fbd_feedback_end fuel w c = some (w.emit (Call.feedback_end c)) := by
      rw [fbd_feedback_end_eq, if_neg (by simp [h c (by simp)])]
    simp only [foreach_feedback, hc, Option.some_bind]
    rw [ih (w.emit (Call.feedback_end c)) (by intro fb hfb; simpa using h fb (by simp [hfb]))]
    simp [World.emit]

/-- The call `end()` on a handle that has no handler connected with the event reaches
the event in no way: it is logged, and the event is as before. -/
theorem end_detached (fuel : Nat) (w : World) (c : Nat) (h0 : (w.fbs c).handlers = 0) :
    ∃ w', fbd_feedback_end fuel w c = some w' ∧ w'.ev = w.ev ∧
      w'.log = w.log ++ [Call.feedback_end c] ∧
      (∀ y, (w'.fbs y).level = (w.fbs y).level) := by
  rw [fbd_feedback_end_eq]
  by_cases he : (w.fbs c).end_ends = true
  · rw [if_pos he, done_no_handler _ _ _ (by simpa using h0)]
    exact ⟨_, rfl, rfl, rfl, by intro y; simp⟩
  · rw [if_neg he]
    exact ⟨_, rfl, rfl, rfl, by intro y; simp⟩

/-- The removal of a handle of which the list holds no earlier copy. -/
theorem remove_shape (v : World) (c : Nat) (kept rest : List Nat)
    (hf : v.ev.feedbacks = kept ++ c :: rest) (hk : c ∉ kept) :
    (fbd_event_remove_feedback v c).1.ev =
      { v.ev with feedbacks := kept ++ rest,
                  ended := (decide (kept ++ rest = []) || v.ev.ended) } ∧
    (fbd_event_remove_feedback v c).1.log = v.log ++
      (if kept ++ rest = [] then
        [Call.notify_feedbacks_ended, Call.signal_feedbacks_ended v.ev.end_reason]
      else []) ∧
    ((fbd_event_remove_feedback v c).1.fbs c).handlers = 0 ∧
    (∀ y, ((fbd_event_remove_feedback v c).1.fbs y).level = (v.fbs y).level) := by
  have hmem : c ∈ v.ev.feedbacks := by simp [hf]
  have herase : v.ev.feedbacks.erase c = kept ++ rest := by
    rw [hf, List.erase_append_right _ hk, List.erase_cons_head]
  rw [remove_feedback_of_mem v c hmem, herase]
  by_cases hz : kept ++ rest = []
  · have hlen : (kept ++ rest).length = 0 := by rw [hz]; rfl
    rw [if_pos hlen, check_ended_of_all _ (by intro x hx; simp [hz] at hx)]
    simp only [hz, if_true]
    refine ⟨by simp, by simp, by simp, by intro y; simp⟩
  · have hlen : ¬ (kept ++ rest).length = 0 := fun e => hz (List.length_eq_zero.mp e)
    rw [if_neg hlen]
    simp only [hz, if_false]
    refine ⟨?_, by simp, by simp, by intro y; simp⟩
    cases hx : v.ev.ended <;> simp [hx]

/-- One round of the second loop of `fbd_event_end_feedbacks_by_level` for a handle
above the level. -/
theorem level_step (fuel : Nat) (v : World) (c : Nat) (kept rest : List Nat)
    (hf : v.ev.feedbacks = kept ++ c :: rest) (hk : c ∉ kept) :
    ∃ v', fbd_feedback_end fuel (fbd_event_remove_feedback v c).1 c = some v' ∧
      v'.ev = { v.ev with feedbacks := kept ++ rest,
                          ended := (decide (kept ++ rest = []) || v.ev.ended) } ∧
      v'.log = v.log ++
        ((if kept ++ rest = [] then
          [Call.notify_feedbacks_ended, Call.signal_feedbacks_ended v.ev.end_reason]
        else []) ++ [Call.feedback_end c]) ∧
      (∀ y, (v'.fbs y).level = (v.fbs y).level) := by
  obtain ⟨hev, hlog, hh, hlv⟩ := remove_shape v c kept rest hf hk
  obtain ⟨v', hv', hev', hlog', hlv'⟩ :=
    end_detached fuel (fbd_event_remove_feedback v c).1 c hh
  refine ⟨v', hv', by rw [hev', hev], by rw [hlog', hlog, List.append_assoc], ?_⟩
  intro y
  rw [hlv' y, hlv y]

/-- The second loop of `fbd_event_end_feedbacks_by_level` over the rest `cs` of the
copied list, when the event's list is `kept ++ cs` with the handles of `kept` at or
below the level: the handles of `cs` above the level are removed and ended, and the
terminal notification is emitted, once, exactly if nothing remains attached. -/
theorem level_loop (fuel t : Nat) (lv : Nat → Nat) :
    ∀ (cs kept : List Nat) (v : World),
      (∀ y, (v.fbs y).level = lv y) →
      v.ev.feedbacks = kept ++ cs → (∀ y ∈ kept, lv y ≤ t) →
      ∃ v' tail, foreach_feedback (end_if_above fuel t) cs v = some v' ∧
        v'.ev = { v.ev with
          feedbacks := kept ++ cs.filter (fun y => decide (lv y ≤ t)),
          ended := v'.ev.ended } ∧
        v'.log = v.log ++ tail ∧
        handle_calls tail = (cs.filter (fun y => decide (lv y > t))).map Call.feedback_end ∧
        (∀ c ∈ tail, c = Call.notify_feedbacks_ended ∨
          c = Call.signal_feedbacks_ended v.ev.end_reason ∨ ∃ fb, c = Call.feedback_end fb) ∧
        (if kept ++ cs.filter (fun y => decide (lv y ≤ t)) = [] ∧ cs ≠ [] then
          v'.ev.ended = true ∧ terminal_notifications tail = 1
        else v'.ev.ended = v.ev.ended ∧ terminal_notifications tail = 0) ∧
        (∀ y, (v'.fbs y).level = lv y) := by
  intro cs
  induction cs with
  | nil =>
    intro kept v hlv hf _
    refine ⟨v, [], rfl, ?_, by simp, rfl, by simp, ?_, hlv⟩
    · simp only [List.filter_nil]
      rw [← hf]
    · simp [terminal_notifications]
  | cons c rest ih =>
    intro kept v hlv hf hk
    by_cases hc : lv c ≤ t
    · have hstep : end_if_above fuel t v c = some v := by
        unfold end_if_above
        rw [if_neg (by rw [hlv c]; omega)]
      obtain ⟨v', tail, hv', hev, hlog, hcalls, honly, hcond, hlv'⟩ :=
        ih (kept ++ [c]) v hlv (by rw [hf]; simp)
          (by
            intro y hy
            rcases List.mem_append.mp hy with hy | hy
            · exact hk y hy
            · simp at hy; rw [hy]; exact hc)
      refine ⟨v', tail, ?_, ?_, hlog, ?_, honly, ?_, hlv'⟩
      · simp only [foreach_feedback, hstep, Option.some_bind]
        exact hv'
      · rw [hev]
        simp [List.filter_cons_of_pos, hc]
      · rw [hcalls, List.filter_cons_of_neg (by simp; omega)]
      · rw [if_neg (by simp)] at hcond
        rw [if_neg (by simp [List.filter_cons_of_pos, hc])]
        exact hcond
    · have hck : c ∉ kept := fun hm => hc (hk c hm)
      obtain ⟨v1, hv1, hev1, hlog1, hlv1⟩ := level_step fuel v c kept rest hf hck
      have hstep : end_if_above fuel t v c = some v1 := by
        unfold end_if_above
        rw [if_pos (by rw [hlv c]; omega)]
        exact hv1
      have hr1 : v1.ev.end_reason = v.ev.end_reason := by rw [hev1]
      obtain ⟨v', tail, hv', hev, hlog, hcalls, honly, hcond, hlv'⟩ :=
        ih kept v1 (fun y => (hlv1 y).trans (hlv y)) (by rw [hev1]) hk
      have hfil : (c :: rest).filter (fun y => decide (lv y ≤ t))
          = rest.filter (fun y => decide (lv y ≤ t)) :=
        List.filter_cons_of_neg (by simpa using hc)
      have hfil2 : (c :: rest).filter (fun y => decide (lv y > t))
          = c :: rest.filter (fun y => decide (lv y > t)) :=
        List.filter_cons_of_pos (by simp; omega)
      refine ⟨v', ((if kept ++ rest = [] then
          [Call.notify_feedbacks_ended, Call.signal_feedbacks_ended v.ev.end_reason]
        else []) ++ [Call.feedback_end c]) ++ tail, ?_, ?_, ?_, ?_, ?_, ?_, hlv'⟩
      · simp only [foreach_feedback, hstep, Option.some_bind]
        exact hv'
      · rw [hev, hev1, hfil]
      · rw [hlog, hlog1, List.append_assoc]
      · rw [handle_calls_append, hcalls, hfil2, handle_calls_append]
        by_cases hz : kept ++ rest = []
        · simp [hz, handle_calls]
        · simp [hz, handle_calls]
      · intro x hx
        rcases List.mem_append.mp hx with hx | hx
        · rcases List.mem_append.mp hx with hx | hx
          · by_cases hz : kept ++ rest = []
            · rw [if_pos hz] at hx
              simp at hx
              rcases hx with hx | hx
              · exact Or.inl hx
              · exact Or.inr (Or.inl hx)
            · rw [if_neg hz] at hx
              cases hx
          · simp at hx
            exact Or.inr (Or.inr ⟨c, hx⟩)
        · have := honly x hx
          rw [hr1] at this
          exact this
      · rw [hfil]
        have hv1e : v1.ev.ended = (decide (kept ++ rest = []) || v.ev.ended) := by
          rw [hev1]
        by_cases hA : kept ++ rest.filter (fun y => decide (lv y ≤ t)) = []
        · rw [if_pos ⟨hA, by simp⟩]
          by_cases hrest : rest = []
          · have hz : kept ++ rest = [] := by
              rw [hrest] at hA ⊢
              simpa using hA
            rw [if_neg (by simp [hrest])] at hcond
            refine ⟨by rw [hcond.1, hv1e]; simp [hz], ?_⟩
            rw [terminal_notifications_append, hcond.2, if_pos hz]
            simp [terminal_notifications]
          · have hz : ¬ kept ++ rest = [] := by simp [hrest]
            rw [if_pos ⟨hA, hrest⟩] at hcond
            refine ⟨hcond.1, ?_⟩
            rw [terminal_notifications_append, hcond.2, if_neg hz]
            simp [terminal_notifications]
        · rw [if_neg (by simp [hA])]
          have hz : ¬ kept ++ rest = [] := by
            intro e
            apply hA
            have := List.append_eq_nil.mp e
            simp [this.1, this.2]
          rw [if_neg (by simp [hA])] at hcond
          refine ⟨by rw [hcond.1, hv1e]; simp [hz], ?_⟩
          rw [terminal_notifications_append, hcond.2, if_neg hz]
          simp [terminal_notifications]

theorem count_above_eq_zero (w : World) (l : List Nat) (level : Nat) :
    count_above w l level = 0 ↔ ∀ fb ∈ l, (w.fbs fb).level ≤ level := by
  unfold count_above
  rw [List.countP_eq_zero]
  constructor
  · intro h fb hfb
    have := h fb hfb
    simpa using this
  · intro h fb hfb
    have := h fb hfb
    simpa using this

theorem count_above_eq_length (w : World) (l : List Nat) (level : Nat) :
    count_above w l level = l.length ↔ ∀ fb ∈ l, (w.fbs fb).level > level := by
  unfold count_above
  rw [List.countP_eq_length]
  constructor
  · intro h fb hfb
    have := h fb hfb
    simpa using this
  · intro h fb hfb
    have := h fb hfb
    simpa using this

theorem filter_below_eq_nil (w : World) (l : List Nat) (level : Nat) :
    l.filter (fun y => decide ((w.fbs y).level ≤ level)) = [] ↔
      ∀ fb ∈ l, (w.fbs fb).level > level := by
  rw [List.filter_eq_nil_iff]
  constructor
  · intro h fb hfb
    have := h fb hfb
    simp at this
    omega
  · intro h fb hfb
    have := h fb hfb
    simp
    omega

/-- The whole of `fbd_event_end_feedbacks_by_level` when some handle is above the
level; `w1` is the world after the conditional assignment of the end reason. -/
theorem by_level_core (fuel : Nat) (w : World) (level : Nat)
    (hcnt : count_above w w.ev.feedbacks level ≠ 0) :
    ∃ w' tail, fbd_event_end_feedbacks_by_level fuel w level = some w' ∧
      w'.ev = { (if count_above w w.ev.feedbacks level = w.ev.feedbacks.length then
          fbd_event_set_end_reason w FbdEventEndReason.EXPLICIT else w).ev with
        feedbacks := w.ev.feedbacks.filter (fun y => decide ((w.fbs y).level ≤ level)),
        ended := w'.ev.ended } ∧
      w'.log = (if count_above w w.ev.feedbacks level = w.ev.feedbacks.length then
          fbd_event_set_end_reason w FbdEventEndReason.EXPLICIT else w).log ++ tail ∧
      handle_calls tail =
        (w.ev.feedbacks.filter (fun y => decide ((w.fbs y).level > level))).map
          Call.feedback_end ∧
      (∀ c ∈ tail, c = Call.notify_feedbacks_ended ∨
        c = Call.signal_feedbacks_ended
          (if count_above w w.ev.feedbacks level = w.ev.feedbacks.length then
            fbd_event_set_end_reason w FbdEventEndReason.EXPLICIT else w).ev.end_reason ∨
        ∃ fb, c = Call.feedback_end fb) ∧
      (if count_above w w.ev.feedbacks level = w.ev.feedbacks.length then
        w'.ev.ended = true ∧ terminal_notifications tail = 1
      else w'.ev.ended = w.ev.ended ∧ terminal_notifications tail = 0) := by
  have hne : w.ev.feedbacks ≠ [] := by
    intro e
    apply hcnt
    simp [count_above, e]
  have hw1 : ∀ v : World, v.fbs = w.fbs → v.ev.feedbacks = w.ev.feedbacks →
      v.ev.ended = w.ev.ended →
      ∃ w' tail, foreach_feedback (end_if_above fuel level) w.ev.feedbacks v = some w' ∧
        w'.ev = { v.ev with
          feedbacks := w.ev.feedbacks.filter (fun y => decide ((w.fbs y).level ≤ level)),
          ended := w'.ev.ended } ∧
        w'.log = v.log ++ tail ∧
        handle_calls tail =
          (w.ev.feedbacks.filter (fun y => decide ((w.fbs y).level > level))).map
            Call.feedback_end ∧
        (∀ c ∈ tail, c = Call.notify_feedbacks_ended ∨
          c = Call.signal_feedbacks_ended v.ev.end_reason ∨ ∃ fb, c = Call.feedback_end fb) ∧
        (if count_above w w.ev.feedbacks level = w.ev.feedbacks.length then
          w'.ev.ended = true ∧ terminal_notifications tail = 1
        else w'.ev.ended = w.ev.ended ∧ terminal_notifications tail = 0) := by
    intro v hfbs hfeed hend
    obtain ⟨w', tail, hw', hev, hlog, hcalls, honly, hcond, _⟩ :=
      level_loop fuel level (fun y => (w.fbs y).level) w.ev.feedbacks [] v
        (by intro y; rw [hfbs]) (by simpa using hfeed) (by simp)
    refine ⟨w', tail, hw', by simpa using hev, hlog, hcalls, honly, ?_⟩
    by_cases hall : count_above w w.ev.feedbacks level = w.ev.feedbacks.length
    · rw [if_pos hall]
      have hnil := (filter_below_eq_nil w w.ev.feedbacks level).mpr
        ((count_above_eq_length w w.ev.feedbacks level).mp hall)
      rw [if_pos ⟨by simpa using hnil, hne⟩] at hcond
      exact hcond
    · rw [if_neg hall]
      have hnil : ¬ w.ev.feedbacks.filter (fun y => decide ((w.fbs y).level ≤ level)) = [] :=
        fun e => hall ((count_above_eq_length w w.ev.feedbacks level).mpr
          ((filter_below_eq_nil w w.ev.feedbacks level).mp e))
      rw [if_neg (fun hx => hnil (by simpa using hx.1))] at hcond
      rw [← hend]
      exact hcond
  unfold fbd_event_end_feedbacks_by_level
  simp only [fbd_event_get_feedbacks]
  rw [if_neg hcnt]
  by_cases hall : count_above w w.ev.feedbacks level = w.ev.feedbacks.length
  · simp only [hall, if_true]
    have := hw1 (fbd_event_set_end_reason w FbdEventEndReason.EXPLICIT)
      (set_end_reason_fbs w _) (by rw [set_end_reason_ev]) (by rw [set_end_reason_ev])
    simpa only [hall, if_true] using this
  · simp only [hall, if_false]
    have := hw1 w rfl rfl rfl
    simpa only [hall, if_false] using this

theorem count_end_handle_calls (l : List Call) (fb : Nat) :
    (handle_calls l).count (Call.feedback_end fb) = l.count (Call.feedback_end fb) := by
  unfold handle_calls
  exact List.count_filter rfl

theorem count_run_handle_calls (l : List Call) (fb : Nat) :
    (handle_calls l).count (Call.feedback_run fb) = l.count (Call.feedback_run fb) := by
  unfold handle_calls
  exact List.count_filter rfl

theorem feedback_end_injective : Function.Injective Call.feedback_end := by
  intro a b h
  cases h
  rfl

/-- Everything `fbd_event_end_feedbacks_by_level` does, in one statement. -/
theorem by_level_full (fuel : Nat) (w : World) (level : Nat) :
    ∃ w' tail, fbd_event_end_feedbacks_by_level fuel w level = some w' ∧
      w'.log = w.log ++ tail ∧
      w'.ev.feedbacks = w.ev.feedbacks.filter (fun y => decide ((w.fbs y).level ≤ level)) ∧
      handle_calls tail =
        (w.ev.feedbacks.filter (fun y => decide ((w.fbs y).level > level))).map
          Call.feedback_end ∧
      (count_above w w.ev.feedbacks level = 0 → w' = w ∧ tail = []) ∧
      ((0 < count_above w w.ev.feedbacks level ∧
          count_above w w.ev.feedbacks level = w.ev.feedbacks.length) →
        w'.ev = { w.ev with end_reason := FbdEventEndReason.EXPLICIT, feedbacks := [],
                            ended := true } ∧
        terminal_notifications tail = 1 ∧
        ∃ t2, tail = (if w.ev.end_reason = FbdEventEndReason.EXPLICIT then []
            else [Call.notify_end_reason]) ++ t2 ∧
          ∀ c ∈ t2, c = Call.notify_feedbacks_ended ∨
            c = Call.signal_feedbacks_ended FbdEventEndReason.EXPLICIT ∨
            ∃ fb, c = Call.feedback_end fb) ∧
      (¬ (0 < count_above w w.ev.feedbacks level ∧
          count_above w w.ev.feedbacks level = w.ev.feedbacks.length) →
        w'.ev = { w.ev with
          feedbacks := w.ev.feedbacks.filter (fun y => decide ((w.fbs y).level ≤ level)) } ∧
        terminal_notifications tail = 0) := by
  by_cases hcnt : count_above w w.ev.feedbacks level = 0
  · have hall := (count_above_eq_zero w w.ev.feedbacks level).mp hcnt
    have hfil : w.ev.feedbacks.filter (fun y => decide ((w.fbs y).level ≤ level))
        = w.ev.feedbacks :=
      List.filter_eq_self.mpr (by intro a ha; simpa using hall a ha)
    have hfil2 : w.ev.feedbacks.filter (fun y => decide ((w.fbs y).level > level)) = [] :=
      List.filter_eq_nil_iff.mpr (by intro a ha; have := hall a ha; simp; omega)
    refine ⟨w, [], ?_, by simp, hfil.symm, by rw [hfil2]; rfl, fun _ => ⟨rfl, rfl⟩, ?_, ?_⟩
    · unfold fbd_event_end_feedbacks_by_level
      simp only [fbd_event_get_feedbacks]
      rw [if_pos hcnt]
    · intro h
      omega
    · intro _
      rw [hfil]
      exact ⟨rfl, rfl⟩
  · obtain ⟨w', tail, hw', hev, hlog, hcalls, honly, hcond⟩ := by_level_core fuel w level hcnt
    by_cases hall : count_above w w.ev.feedbacks level = w.ev.feedbacks.length
    · simp only [hall, if_true] at hev hlog honly hcond
      have hnil := (filter_below_eq_nil w w.ev.feedbacks level).mpr
        ((count_above_eq_length w w.ev.feedbacks level).mp hall)
      rw [set_end_reason_reason] at honly
      refine ⟨w', (if w.ev.end_reason = FbdEventEndReason.EXPLICIT then []
          else [Call.notify_end_reason]) ++ tail, hw', ?_, ?_, ?_, ?_, ?_, ?_⟩
      · rw [hlog, set_end_reason_log, List.append_assoc]
      · rw [hev]
      · rw [handle_calls_append, hcalls]
        by_cases hr : w.ev.end_reason = FbdEventEndReason.EXPLICIT
        · simp [hr, handle_calls]
        · simp [hr, handle_calls]
      · intro h0
        exact absurd h0 hcnt
      · intro _
        refine ⟨?_, ?_, tail, rfl, honly⟩
        · rw [hev, hcond.1, hnil, set_end_reason_ev]
        · rw [terminal_notifications_append, hcond.2]
          by_cases hr : w.ev.end_reason = FbdEventEndReason.EXPLICIT
          · simp [hr, terminal_notifications]
          · simp [hr, terminal_notifications]
      · intro hcon
        exact absurd ⟨Nat.pos_of_ne_zero hcnt, hall⟩ hcon
    · simp only [hall, if_false] at hev hlog honly hcond
      refine ⟨w', tail, hw', hlog, by rw [hev], hcalls, ?_, ?_, ?_⟩
      · intro h0
        exact absurd h0 hcnt
      · intro hcon
        exact absurd hcon.2 hall
      · intro _
        refine ⟨?_, hcond.2⟩
        rw [hev, hcond.1]

theorem check_ended_fbs (w : World) : (check_ended w).1.fbs = w.fbs := by
  unfold check_ended
  split <;> rfl

theorem check_ended_sources (w : World) : (check_ended w).1.sources = w.sources := by
  unfold check_ended
  split <;> rfl

theorem check_ended_last_source (w : World) :
    (check_ended w).1.last_source = w.last_source := by
  unfold check_ended
  split <;> rfl

theorem check_ended_ev (w : World) :
    (check_ended w).1.ev = { w.ev with ended := (check_ended w).1.ev.ended } := by
  unfold check_ended
  split <;> rfl

theorem remove_feedback_of_not_mem (w : World) (fb : Nat) (h : fb ∉ w.ev.feedbacks) :
    fbd_event_remove_feedback w fb = (w, w.ev.feedbacks.length) := by
  unfold fbd_event_remove_feedback
  by_cases he : w.ev.feedbacks.isEmpty = true
  · have h0 : w.ev.feedbacks = [] := List.isEmpty_iff.mp he
    simp [h0]
  · have hne : w.ev.feedbacks ≠ [] := fun e => he (List.isEmpty_iff.mpr e)
    have hlen : w.ev.feedbacks.length ≠ 0 := fun e => hne (List.length_eq_zero.mp e)
    simp [he, h, World.set_ev, List.erase_of_not_mem h, hlen]

/-- The handles after `fbd_event_remove_feedback`: the removed handle has lost its
handlers, nothing else has changed. -/
theorem remove_feedback_fbs (w : World) (fb : Nat) :
    (fbd_event_remove_feedback w fb).1.fbs =
      if fb ∈ w.ev.feedbacks then (w.set_handlers fb 0).fbs else w.fbs := by
  by_cases hm : fb ∈ w.ev.feedbacks
  · rw [remove_feedback_of_mem w fb hm, if_pos hm]
    dsimp only
    split
    · rw [check_ended_fbs]
      rfl
    · rfl
  · rw [remove_feedback_of_not_mem w fb hm, if_neg hm]

theorem CallsOnly.calls_refl (w : World) : CallsOnly w w [] :=
  ⟨rfl, by simp, by simp, fun h => h, fun _ => rfl, rfl, rfl⟩

theorem CallsOnly.calls_trans {w w1 w2 : World} {t1 t2 : List Call}
    (h1 : CallsOnly w w1 t1) (h2 : CallsOnly w1 w2 t2) : CallsOnly w w2 (t1 ++ t2) := by
  have hr : w1.ev.end_reason = w.ev.end_reason := by rw [h1.ev_eq]
  refine ⟨?_, ?_, ?_, ?_, ?_, ?_, ?_⟩
  · rw [h2.ev_eq, h1.ev_eq]
  · rw [h2.log_eq, h1.log_eq, List.append_assoc]
  · intro c hc
    rcases List.mem_append.mp hc with hc | hc
    · exact h1.calls c hc
    · have := h2.calls c hc
      rw [hr] at this
      exact this
  · intro h
    exact h2.ended_mono (h1.ended_mono h)
  · intro y
    rw [h2.fbs_eq y, h1.fbs_eq y]
  · rw [h2.sources_eq, h1.sources_eq]
  · rw [h2.last_source_eq, h1.last_source_eq]

theorem CallsOnly.calls_check (w : World) : ∃ tail, CallsOnly w (check_ended w).1 tail := by
  cases hb : fbd_event_get_feedbacks_ended w with
  | true =>
    rw [check_ended_of_all w ((get_feedbacks_ended_iff w).mp hb)]
    refine ⟨[Call.notify_feedbacks_ended, Call.signal_feedbacks_ended w.ev.end_reason],
      ⟨rfl, rfl, ?_, fun _ => rfl, fun _ => rfl, rfl, rfl⟩⟩
    intro c hc
    simp at hc
    rcases hc with hc | hc
    · exact Or.inl hc
    · exact Or.inr (Or.inl hc)
  | false =>
    have : check_ended w = (w, false) := by simp [check_ended, hb]
    rw [this]
    exact ⟨[], CallsOnly.calls_refl w⟩

theorem CallsOnly.calls_emit_end (w : World) (fb : Nat) :
    CallsOnly w (w.emit (Call.feedback_end fb)) [Call.feedback_end fb] :=
  ⟨rfl, rfl, by intro c hc; simp at hc; exact Or.inr (Or.inr (Or.inl ⟨fb, hc⟩)),
    fun h => h, fun _ => rfl, rfl, rfl⟩

theorem CallsOnly.emit_run (w : World) (fb : Nat) :
    CallsOnly w (w.emit (Call.feedback_run fb)) [Call.feedback_run fb] :=
  ⟨rfl, rfl, by intro c hc; simp at hc; exact Or.inr (Or.inr (Or.inr ⟨fb, hc⟩)),
    fun h => h, fun _ => rfl, rfl, rfl⟩

theorem CallsOnly.calls_set_ended (w : World) (fb : Nat) (b : Bool) :
    CallsOnly w (w.set_ended fb b) [] := by
  refine ⟨rfl, by simp, by simp, fun h => h, ?_, rfl, rfl⟩
  intro y
  by_cases h : y = fb
  · subst h
    simp [World.set_ended]
  · rw [set_ended_other w fb y b h]

/-- What `on_fb_ended` changes, given what the `run()` it may call changes. -/
theorem on_fb_ended_calls (run : World → Nat → Option World)
    (hrun : ∀ v fb v', run v fb = some v' → ∃ t, CallsOnly v v' t)
    (w : World) (fb : Nat) (w' : World) (h : on_fb_ended run w fb = some w') :
    ∃ t, CallsOnly w w' t := by
  unfold on_fb_ended at h
  split at h
  · cases h
    exact CallsOnly.calls_check w
  · split at h
    · split at h
      · cases h
        exact CallsOnly.calls_check w
      · exact hrun w fb w' h
    · split at h
      · exact hrun w fb w' h
      · cases h
        exact CallsOnly.calls_check w

theorem emit_signal_calls (run : World → Nat → Option World)
    (hrun : ∀ v fb v', run v fb = some v' → ∃ t, CallsOnly v v' t) (fb : Nat) :
    ∀ (n : Nat) (w w' : World),
      emit_signal (fun v => on_fb_ended run v fb) n w = some w' → ∃ t, CallsOnly w w' t := by
  intro n
  induction n with
  | zero =>
    intro w w' h
    cases h
    exact ⟨[], CallsOnly.calls_refl w⟩
  | succ k ih =>
    intro w w' h
    simp only [emit_signal] at h
    cases h1 : on_fb_ended run w fb with
    | none => rw [h1] at h; cases h
    | some w1 =>
      rw [h1] at h
      obtain ⟨t1, c1⟩ := on_fb_ended_calls run hrun w fb w1 h1
      obtain ⟨t2, c2⟩ := ih w1 w' h
      exact ⟨t1 ++ t2, c1.calls_trans c2⟩

theorem done_calls (run : World → Nat → Option World)
    (hrun : ∀ v fb v', run v fb = some v' → ∃ t, CallsOnly v v' t)
    (w : World) (fb : Nat) (w' : World) (h : fbd_feedback_base_done run w fb = some w') :
    ∃ t, CallsOnly w w' t := by
  rw [fbd_feedback_base_done_eq] at h
  obtain ⟨t, c⟩ := emit_signal_calls run hrun fb _ _ _ h
  exact ⟨[] ++ t, (CallsOnly.calls_set_ended w fb true).calls_trans c⟩

/-- Whatever `fbd_feedback_run` sets off, if it returns, the event has changed in no
field but `ended`. -/
theorem run_calls :
    ∀ (fuel : Nat) (w : World) (fb : Nat) (w' : World),
      fbd_feedback_run fuel w fb = some w' → ∃ t, CallsOnly w w' t := by
  intro fuel
  induction fuel with
  | zero =>
    intro w fb w' h
    cases h
  | succ n ih =>
    intro w fb w' h
    rw [fbd_feedback_run_succ] at h
    have c0 : CallsOnly w ((w.emit (Call.feedback_run fb)).set_ended fb false)
        ([Call.feedback_run fb] ++ []) :=
      (CallsOnly.emit_run w fb).calls_trans (CallsOnly.calls_set_ended _ fb false)
    split at h
    · obtain ⟨t, c⟩ := done_calls (fbd_feedback_run n) ih _ fb w' h
      exact ⟨_, c0.calls_trans c⟩
    · cases h
      exact ⟨_, c0⟩

theorem end_calls (fuel : Nat) (w : World) (fb : Nat) (w' : World)
    (h : fbd_feedback_end fuel w fb = some w') : ∃ t, CallsOnly w w' t := by
  rw [fbd_feedback_end_eq] at h
  split at h
  · obtain ⟨t, c⟩ := done_calls (fbd_feedback_run fuel) (run_calls fuel) _ fb w' h
    exact ⟨_, (CallsOnly.calls_emit_end w fb).calls_trans c⟩
  · cases h
    exact ⟨_, CallsOnly.calls_emit_end w fb⟩

theorem foreach_calls (f : World → Nat → Option World)
    (hf : ∀ v fb v', f v fb = some v' → ∃ t, CallsOnly v v' t) :
    ∀ (cs : List Nat) (w w' : World),
      foreach_feedback f cs w = some w' → ∃ t, CallsOnly w w' t := by
  intro cs
  induction cs with
  | nil =>
    intro w w' h
    cases h
    exact ⟨[], CallsOnly.calls_refl w⟩
  | cons c rest ih =>
    intro w w' h
    simp only [foreach_feedback] at h
    cases h1 : f w c with
    | none => rw [h1] at h; cases h
    | some w1 =>
      rw [h1] at h
      obtain ⟨t1, c1⟩ := hf w c w1 h1
      obtain ⟨t2, c2⟩ := ih w1 w' h
      exact ⟨t1 ++ t2, c1.calls_trans c2⟩

theorem timers_armed_append (l1 l2 : List Call) :
    timers_armed (l1 ++ l2) = timers_armed l1 + timers_armed l2 := by
  simp [timers_armed, List.countP_append]

theorem OpFrame.frame_refl (w : World) : OpFrame w w :=
  ⟨rfl, rfl, rfl, rfl, rfl, fun h => h, fun _ h => ⟨h, rfl, rfl⟩⟩

theorem OpFrame.frame_trans {w w1 w2 : World} (h1 : OpFrame w w1) (h2 : OpFrame w1 w2) :
    OpFrame w w2 := by
  refine ⟨h2.id_eq.trans h1.id_eq, h2.app_id_eq.trans h1.app_id_eq,
    h2.event_eq.trans h1.event_eq, h2.sender_eq.trans h1.sender_eq,
    h2.timeout_eq.trans h1.timeout_eq, fun h => h2.ended_mono (h1.ended_mono h), ?_⟩
  intro ht hs
  obtain ⟨a1, b1, c1⟩ := h1.quiet ht hs
  obtain ⟨a2, b2, c2⟩ := h2.quiet (by rw [h1.timeout_eq]; exact ht) a1
  exact ⟨a2, b2.trans b1, c2.trans c1⟩

theorem CallsOnly.timers {w w' : World} {t : List Call} (h : CallsOnly w w' t) :
    timers_armed w'.log = timers_armed w.log := by
  have ht : timers_armed t = 0 := by
    unfold timers_armed
    rw [List.countP_eq_zero]
    intro c hc
    rcases h.calls c hc with e | e | ⟨fb, e⟩ | ⟨fb, e⟩ <;> simp [e]
  rw [h.log_eq, timers_armed_append, ht]
  rfl

theorem CallsOnly.frame {w w' : World} {t : List Call} (h : CallsOnly w w' t) :
    OpFrame w w' := by
  refine ⟨by rw [h.ev_eq], by rw [h.ev_eq], by rw [h.ev_eq], by rw [h.ev_eq],
    by rw [h.ev_eq], h.ended_mono, ?_⟩
  intro _ hs
  exact ⟨by rw [h.sources_eq]; exact hs, by rw [h.ev_eq], h.timers⟩

theorem set_end_reason_frame (w : World) (r : FbdEventEndReason) :
    OpFrame w (fbd_event_set_end_reason w r) := by
  unfold fbd_event_set_end_reason
  split
  · exact OpFrame.frame_refl w
  · exact ⟨rfl, rfl, rfl, rfl, rfl, fun h => h, fun _ hs =>
      ⟨hs, rfl, by simp [timers_armed_append, timers_armed]⟩⟩

theorem add_feedback_frame (w : World) (fb : Nat) :
    OpFrame w (fbd_event_add_feedback w fb) :=
  ⟨rfl, rfl, rfl, rfl, rfl, fun h => h, fun _ hs => ⟨hs, rfl, rfl⟩⟩

theorem remove_feedback_frame (w : World) (fb : Nat) :
    OpFrame w (fbd_event_remove_feedback w fb).1 := by
  by_cases hm : fb ∈ w.ev.feedbacks
  · rw [remove_feedback_of_mem w fb hm]
    dsimp only
    have h0 : OpFrame w ((w.set_handlers fb 0).set_ev
        { w.ev with feedbacks := w.ev.feedbacks.erase fb }) :=
      ⟨rfl, rfl, rfl, rfl, rfl, fun h => h, fun _ hs => ⟨hs, rfl, rfl⟩⟩
    split
    · obtain ⟨t, c⟩ := CallsOnly.calls_check ((w.set_handlers fb 0).set_ev
        { w.ev with feedbacks := w.ev.feedbacks.erase fb })
      exact h0.frame_trans c.frame
    · exact h0
  · rw [remove_feedback_of_not_mem w fb hm]
    exact OpFrame.frame_refl w

theorem timeout_dispatch_frame (w : World) (source : Nat) :
    OpFrame w (timeout_dispatch w source) := by
  unfold timeout_dispatch
  split
  · rename_i hm
    refine ⟨rfl, rfl, rfl, rfl, rfl, fun h => h, ?_⟩
    intro _ hs
    rw [hs] at hm
    cases hm
  · exact OpFrame.frame_refl w

theorem foreach_frame (f : World → Nat → Option World)
    (hf : ∀ v fb v', f v fb = some v' → OpFrame v v') :
    ∀ (cs : List Nat) (w w' : World), foreach_feedback f cs w = some w' → OpFrame w w' := by
  intro cs
  induction cs with
  | nil =>
    intro w w' h
    cases h
    exact OpFrame.frame_refl w
  | cons c rest ih =>
    intro w w' h
    simp only [foreach_feedback] at h
    cases h1 : f w c with
    | none => rw [h1] at h; cases h
    | some w1 =>
      rw [h1] at h
      exact (hf w c w1 h1).frame_trans (ih w1 w' h)

theorem run_feedbacks_frame (fuel : Nat) (w w' : World)
    (h : fbd_event_run_feedbacks fuel w = some w') : OpFrame w w' := by
  unfold fbd_event_run_feedbacks at h
  split at h
  · cases h
    exact OpFrame.frame_refl w
  · by_cases ht : w.ev.timeout > 0
    · simp only [ht, if_true] at h
      have h0 : OpFrame w (arm_timeout w) :=
        ⟨rfl, rfl, rfl, rfl, rfl, fun h => h, fun hle _ => absurd hle (by omega)⟩
      obtain ⟨t, c⟩ := foreach_calls (fbd_feedback_run fuel) (run_calls fuel) _ _ _ h
      exact h0.frame_trans c.frame
    · simp only [ht, if_false] at h
      obtain ⟨t, c⟩ := foreach_calls (fbd_feedback_run fuel) (run_calls fuel) _ _ _ h
      exact c.frame

theorem end_feedbacks_frame (fuel : Nat) (w w' : World)
    (h : fbd_event_end_feedbacks fuel w = some w') : OpFrame w w' := by
  unfold fbd_event_end_feedbacks at h
  obtain ⟨t, c⟩ := foreach_calls (fbd_feedback_end fuel) (end_calls fuel) _ _ _ h
  exact (set_end_reason_frame w _).frame_trans c.frame

theorem end_if_above_frame (fuel level : Nat) (w : World) (fb : Nat) (w' : World)
    (h : end_if_above fuel level w fb = some w') : OpFrame w w' := by
  unfold end_if_above at h
  split at h
  · obtain ⟨t, c⟩ := end_calls fuel _ fb w' h
    exact (remove_feedback_frame w fb).frame_trans c.frame
  · cases h
    exact OpFrame.frame_refl w

theorem end_feedbacks_by_level_frame (fuel : Nat) (w : World) (level : Nat) (w' : World)
    (h : fbd_event_end_feedbacks_by_level fuel w level = some w') : OpFrame w w' := by
  unfold fbd_event_end_feedbacks_by_level at h
  dsimp only at h
  split at h
  · cases h
    exact OpFrame.frame_refl w
  · split at h
    · exact (set_end_reason_frame w _).frame_trans
        (foreach_frame _ (end_if_above_frame fuel level) _ _ _ h)
    · exact foreach_frame _ (end_if_above_frame fuel level) _ _ _ h

/-- Every operation keeps the frame. -/
theorem apply_op_frame (fuel : Nat) (w : World) (op : Op) (w' : World)
    (h : apply_op fuel w op = some w') : OpFrame w w' := by
  cases op with
  | attach fb => cases h; exact add_feedback_frame w fb
  | detach fb => cases h; exact remove_feedback_frame w fb
  | run_feedbacks => exact run_feedbacks_frame fuel w w' h
  | end_all => exact end_feedbacks_frame fuel w w' h
  | end_above_level level => exact end_feedbacks_by_level_frame fuel w level w' h
  | set_end_reason reason => cases h; exact set_end_reason_frame w reason
  | timer_expiry source => cases h; exact timeout_dispatch_frame w source
  | completion fb =>
    obtain ⟨t, c⟩ := done_calls (fbd_feedback_run fuel) (run_calls fuel) w fb w' h
    exact c.frame

theorem apply_ops_frame (fuel : Nat) :
    ∀ (ops : List Op) (w w' : World), apply_ops fuel ops w = some w' → OpFrame w w' := by
  intro ops
  induction ops with
  | nil =>
    intro w w' h
    cases h
    exact OpFrame.frame_refl w
  | cons op rest ih =>
    intro w w' h
    simp only [apply_ops] at h
    cases h1 : apply_op fuel w op with
    | none => rw [h1] at h; cases h
    | some w1 =>
      rw [h1] at h
      exact (apply_op_frame fuel w op w1 h1).frame_trans (ih w1 w' h)

theorem on_fb_ended_guard (run : World → Nat → Option World) (w : World) (fb : Nat) :
    on_fb_ended run w fb =
      if on_fb_ended_restarts w.ev = true then run w fb else some (check_ended w).1 := by
  unfold on_fb_ended on_fb_ended_restarts
  by_cases h0 : w.ev.timeout = FBD_EVENT_TIMEOUT_ONESHOT
  · simp [h0]
  · by_cases h1 : w.ev.timeout = FBD_EVENT_TIMEOUT_LOOP
    · cases hr : w.ev.end_reason <;> simp [h0, h1, hr]
    · cases hr : w.ev.end_reason <;> cases hx : w.ev.expired <;> simp [h0, h1, hr, hx]

theorem on_fb_ended_restarts_eq (e : FbdEvent)
    (hrange : FBD_EVENT_TIMEOUT_LOOP ≤ e.timeout ∨ e.expired = false) :
    on_fb_ended_restarts e = restart_condition e := by
  unfold on_fb_ended_restarts restart_condition timeout_policy
  unfold FBD_EVENT_TIMEOUT_LOOP at hrange
  by_cases h0 : e.timeout = 0
  · simp [FBD_EVENT_TIMEOUT_ONESHOT, h0]
  · by_cases h1 : e.timeout = -1
    · cases hr : e.end_reason with
      | NATURAL => simp [FBD_EVENT_TIMEOUT_ONESHOT, FBD_EVENT_TIMEOUT_LOOP, h1]
      | EXPLICIT =>
        simp [FBD_EVENT_TIMEOUT_ONESHOT, FBD_EVENT_TIMEOUT_LOOP, h1]
        decide
    · by_cases hneg : e.timeout < 0
      · have hx : e.expired = false := by
          rcases hrange with h | h
          · omega
          · exact h
        cases hr : e.end_reason <;>
          simp [FBD_EVENT_TIMEOUT_ONESHOT, FBD_EVENT_TIMEOUT_LOOP, h0, h1, hr, hx, hneg]
      · cases hr : e.end_reason <;> cases hx : e.expired <;>
          simp [FBD_EVENT_TIMEOUT_ONESHOT, FBD_EVENT_TIMEOUT_LOOP, h0, h1, hr, hx, hneg]

/-- An effect that does not end inside `run()`: the call is logged, the handle is
running, and the call returns. -/
theorem run_async (fuel : Nat) (w : World) (fb : Nat) (h : (w.fbs fb).run_ends = false) :
    fbd_feedback_run (fuel + 1) w fb =
      some ((w.emit (Call.feedback_run fb)).set_ended fb false) := by
  rw [fbd_feedback_run_succ, if_neg (by simp [h])]

/-- Running handles none of which ends inside `run()`. -/
theorem foreach_run_async (fuel : Nat) :
    ∀ (cs : List Nat) (w : World), (∀ fb ∈ cs, (w.fbs fb).run_ends = false) →
      ∃ w', foreach_feedback (fbd_feedback_run (fuel + 1)) cs w = some w' ∧
        w'.ev = w.ev ∧ w'.log = w.log ++ cs.map Call.feedback_run ∧
        w'.sources = w.sources ∧ w'.last_source = w.last_source ∧
        (∀ y, (w'.fbs y).ended = (!(decide (y ∈ cs)) && (w.fbs y).ended)) ∧
        (∀ y, w'.fbs y = { w.fbs y with ended := (w'.fbs y).ended }) := by
  intro cs
  induction cs with
  | nil =>
    intro w _
    exact ⟨w, rfl, rfl, by simp, rfl, rfl, by simp, fun _ => rfl⟩
  | cons c rest ih =>
    intro w h
    have hstep := run_async fuel w c (h c (by simp))
    obtain ⟨w', hw', hev, hlog, hsrc, hls, hend, hfbs⟩ :=
      ih ((w.emit (Call.feedback_run c)).set_ended c false)
        (by intro fb hfb; simpa using h fb (by simp [hfb]))
    refine ⟨w', ?_, by simpa using hev, by simpa using hlog, by simpa using hsrc,
      by simpa using hls, ?_, ?_⟩
    · simp only [foreach_feedback, hstep, Option.some_bind]
      exact hw'
    · intro y
      rw [hend y]
      by_cases hy : y = c
      · subst hy
        simp
      · rw [set_ended_other _ c y false hy]
        simp [hy]
    · intro y
      rw [hfbs y]
      by_cases hy : y = c
      · subst hy
        simp [World.set_ended]
      · rw [set_ended_other _ c y false hy]
        rfl

/-- The handlers of a handle's `ended` signal return when no effect ends inside
`run()`. -/
theorem emit_signal_async (fuel : Nat) (fb : Nat) :
    ∀ (n : Nat) (w : World), (∀ y, (w.fbs y).run_ends = false) →
      ∃ w', emit_signal (fun v => on_fb_ended (fbd_feedback_run (fuel + 1)) v fb) n w
        = some w' := by
  intro n
  induction n with
  | zero =>
    intro w _
    exact ⟨w, rfl⟩
  | succ k ih =>
    intro w h
    have hstep : ∃ w1, on_fb_ended (fbd_feedback_run (fuel + 1)) w fb = some w1 ∧
        ∀ y, (w1.fbs y).run_ends = false := by
      rw [on_fb_ended_guard]
      split
      · rw [run_async fuel w fb (h fb)]
        exact ⟨_, rfl, by intro y; simpa using h y⟩
      · exact ⟨_, rfl, by intro y; rw [check_ended_fbs]; exact h y⟩
    obtain ⟨w1, hw1, h1⟩ := hstep
    obtain ⟨w', hw'⟩ := ih w1 h1
    refine ⟨w', ?_⟩
    simp only [emit_signal, hw1, Option.some_bind]
    exact hw'

theorem done_async (fuel : Nat) (w : World) (fb : Nat)
    (h : ∀ y, (w.fbs y).run_ends = false) :
    ∃ w', fbd_feedback_base_done (fbd_feedback_run (fuel + 1)) w fb = some w' := by
  rw [fbd_feedback_base_done_eq]
  exact emit_signal_async fuel fb _ _ (by intro y; simpa using h y)

/-- The completion of a handle that the event restarts, when the effect does not end
inside `run()`: the handle is run again and nothing else happens. -/
theorem done_restart_async (fuel : Nat) (w : World) (fb : Nat)
    (hres : on_fb_ended_restarts w.ev = true) (hh : (w.fbs fb).handlers = 1)
    (hrun : (w.fbs fb).run_ends = false) :
    fbd_feedback_base_done (fbd_feedback_run (fuel + 1)) w fb =
      some (((w.set_ended fb true).emit (Call.feedback_run fb)).set_ended fb false) := by
  rw [fbd_feedback_base_done_eq, hh]
  simp only [emit_signal]
  rw [on_fb_ended_guard, if_pos (by simpa using hres),
    run_async fuel (w.set_ended fb true) fb (by simpa using hrun)]
  rfl

/-- Any number of completions of a handle that the event restarts. -/
theorem completions_restart (fuel : Nat) (fb : Nat) :
    ∀ (n : Nat) (w : World), on_fb_ended_restarts w.ev = true →
      (w.fbs fb).handlers = 1 → (w.fbs fb).run_ends = false →
      ∃ w', completions (fuel + 1) (List.replicate n fb) w = some w' ∧ w'.ev = w.ev ∧
        w'.log = w.log ++ List.replicate n (Call.feedback_run fb) ∧
        w'.sources = w.sources ∧ (w'.fbs fb).handlers = 1 ∧
        (w'.fbs fb).run_ends = false := by
  intro n
  induction n with
  | zero =>
    intro w _ hh hr
    exact ⟨w, rfl, rfl, by simp, rfl, hh, hr⟩
  | succ k ih =>
    intro w hres hh hr
    have hstep := done_restart_async fuel w fb hres hh hr
    obtain ⟨w', hw', hev, hlog, hsrc, hh', hr'⟩ :=
      ih (((w.set_ended fb true).emit (Call.feedback_run fb)).set_ended fb false)
        (by simpa using hres) (by simpa using hh) (by simpa using hr)
    refine ⟨w', ?_, by simpa using hev, ?_, by simpa using hsrc, hh', hr'⟩
    · simp only [completions, List.replicate_succ, foreach_feedback, hstep, Option.some_bind]
      exact hw'
    · rw [hlog]
      simp [List.replicate_succ]

theorem ended_sound_iff (w : World) :
    ended_sound w = true ↔
      (w.ev.ended = true → ∀ fb ∈ w.ev.feedbacks, (w.fbs fb).ended = true) := by
  unfold ended_sound
  cases he : w.ev.ended with
  | false => simp
  | true =>
    simp only [Bool.not_true, Bool.false_or, true_implies]
    exact get_feedbacks_ended_iff w

theorem sound_of_not_ended (w : World) (h : w.ev.ended = false) : ended_sound w = true := by
  simp [ended_sound, h]

theorem sound_mono (w w' : World)
    (hfeed : ∀ fb ∈ w'.ev.feedbacks, fb ∈ w.ev.feedbacks)
    (hend : w'.ev.ended = true → w.ev.ended = true)
    (hfbs : ∀ fb, (w.fbs fb).ended = true → (w'.fbs fb).ended = true)
    (h : ended_sound w = true) : ended_sound w' = true := by
  rw [ended_sound_iff] at h ⊢
  intro he fb hfb
  exact hfbs fb (h (hend he) fb (hfeed fb hfb))

theorem sound_check (w : World) (h : ended_sound w = true) :
    ended_sound (check_ended w).1 = true := by
  cases hb : fbd_event_get_feedbacks_ended w with
  | true =>
    have hall := (get_feedbacks_ended_iff w).mp hb
    rw [check_ended_of_all w hall, ended_sound_iff]
    intro _ fb hfb
    exact hall fb hfb
  | false =>
    have : check_ended w = (w, false) := by simp [check_ended, hb]
    rw [this]
    exact h

theorem sound_set_ended_true (w : World) (fb : Nat) (h : ended_sound w = true) :
    ended_sound (w.set_ended fb true) = true := by
  refine sound_mono w _ (fun _ hx => hx) (fun hx => hx) ?_ h
  intro y hy
  by_cases hyf : y = fb
  · subst hyf
    simp
  · rw [set_ended_other w fb y true hyf]
    exact hy

theorem sound_emit (w : World) (c : Call) (h : ended_sound w = true) :
    ended_sound (w.emit c) = true :=
  sound_mono w _ (fun _ hx => hx) (fun hx => hx) (fun _ hy => hy) h

theorem restarts_congr {e e' : FbdEvent} (h : e' = { e with ended := e'.ended }) :
    on_fb_ended_restarts e' = on_fb_ended_restarts e := by
  rw [h]
  rfl

/-- While the event does not restart handles, the handlers of a handle's `ended` signal
return and keep `ended_sound`. -/
theorem emit_signal_sound (run : World → Nat → Option World) (fb : Nat) :
    ∀ (n : Nat) (w : World), on_fb_ended_restarts w.ev = false → ended_sound w = true →
      ∃ w', emit_signal (fun v => on_fb_ended run v fb) n w = some w' ∧
        ended_sound w' = true ∧ on_fb_ended_restarts w'.ev = false := by
  intro n
  induction n with
  | zero =>
    intro w hr hs
    exact ⟨w, rfl, hs, hr⟩
  | succ k ih =>
    intro w hr hs
    have hstep : on_fb_ended run w fb = some (check_ended w).1 := by
      rw [on_fb_ended_guard, if_neg (by simp [hr])]
    have hr1 : on_fb_ended_restarts (check_ended w).1.ev = false := by
      rw [restarts_congr (check_ended_ev w)]
      exact hr
    obtain ⟨w', hw', hs', hr'⟩ := ih (check_ended w).1 hr1 (sound_check w hs)
    refine ⟨w', ?_, hs', hr'⟩
    simp only [emit_signal, hstep, Option.some_bind]
    exact hw'

theorem done_sound (run : World → Nat → Option World) (w : World) (fb : Nat)
    (hr : on_fb_ended_restarts w.ev = false) (hs : ended_sound w = true) :
    ∃ w', fbd_feedback_base_done run w fb = some w' ∧
      ended_sound w' = true ∧ on_fb_ended_restarts w'.ev = false := by
  rw [fbd_feedback_base_done_eq]
  exact emit_signal_sound run fb _ _ (by simpa using hr) (sound_set_ended_true w fb hs)

theorem end_sound (fuel : Nat) (w : World) (fb : Nat)
    (hr : on_fb_ended_restarts w.ev = false) (hs : ended_sound w = true) :
    ∃ w', fbd_feedback_end fuel w fb = some w' ∧
      ended_sound w' = true ∧ on_fb_ended_restarts w'.ev = false := by
  rw [fbd_feedback_end_eq]
  split
  · exact done_sound _ _ fb (by simpa using hr) (sound_emit w _ hs)
  · exact ⟨_, rfl, sound_emit w _ hs, by simpa using hr⟩

theorem foreach_end_sound (fuel : Nat) :
    ∀ (cs : List Nat) (w : World), on_fb_ended_restarts w.ev = false →
      ended_sound w = true →
      ∃ w', foreach_feedback (fbd_feedback_end fuel) cs w = some w' ∧
        ended_sound w' = true := by
  intro cs
  induction cs with
  | nil =>
    intro w _ hs
    exact ⟨w, rfl, hs⟩
  | cons c rest ih =>
    intro w hr hs
    obtain ⟨w1, hw1, hs1, hr1⟩ := end_sound fuel w c hr hs
    obtain ⟨w', hw', hs'⟩ := ih w1 hr1 hs1
    refine ⟨w', ?_, hs'⟩
    simp only [foreach_feedback, hw1, Option.some_bind]
    exact hw'

theorem set_end_reason_sound (w : World) (r : FbdEventEndReason)
    (hs : ended_sound w = true) : ended_sound (fbd_event_set_end_reason w r) = true := by
  refine sound_mono w _ ?_ ?_ ?_ hs
  · intro fb hfb
    rw [set_end_reason_ev] at hfb
    exact hfb
  · intro he
    rw [set_end_reason_ev] at he
    exact he
  · intro fb hfb
    rw [set_end_reason_fbs]
    exact hfb

theorem end_feedbacks_sound (fuel : Nat) (w : World) (hs : ended_sound w = true) :
    ∃ w', fbd_event_end_feedbacks fuel w = some w' ∧ ended_sound w' = true := by
  unfold fbd_event_end_feedbacks
  apply foreach_end_sound fuel _ _ _ (set_end_reason_sound w _ hs)
  have hr := set_end_reason_reason w FbdEventEndReason.EXPLICIT
  unfold on_fb_ended_restarts
  rw [hr]
  split
  · rfl
  · split <;> simp

theorem remove_feedback_sound (w : World) (fb : Nat) (hs : ended_sound w = true) :
    ended_sound (fbd_event_remove_feedback w fb).1 = true := by
  by_cases hm : fb ∈ w.ev.feedbacks
  · rw [remove_feedback_of_mem w fb hm]
    dsimp only
    have h0 : ended_sound ((w.set_handlers fb 0).set_ev
        { w.ev with feedbacks := w.ev.feedbacks.erase fb }) = true := by
      refine sound_mono w _ ?_ (fun hx => hx) ?_ hs
      · intro x hx
        exact List.mem_of_mem_erase hx
      · intro x hx
        simpa using hx
    split
    · exact sound_check _ h0
    · exact h0
  · rw [remove_feedback_of_not_mem w fb hm]
    exact hs

theorem timeout_dispatch_sound (w : World) (source : Nat) (hs : ended_sound w = true) :
    ended_sound (timeout_dispatch w source) = true := by
  unfold timeout_dispatch
  split
  · exact sound_mono w _ (fun _ hx => hx) (fun hx => hx) (fun _ hy => hy) hs
  · exact hs

theorem end_detached_sound (fuel : Nat) (w : World) (c : Nat) (w' : World)
    (h0 : (w.fbs c).handlers = 0) (hs : ended_sound w = true)
    (h : fbd_feedback_end fuel w c = some w') : ended_sound w' = true := by
  rw [fbd_feedback_end_eq] at h
  split at h
  · rw [done_no_handler _ _ _ (by simpa using h0)] at h
    cases h
    exact sound_set_ended_true _ c (sound_emit w _ hs)
  · cases h
    exact sound_emit w _ hs

/-- The second loop of `fbd_event_end_feedbacks_by_level` keeps `ended_sound`. -/
theorem level_loop_sound (fuel t : Nat) (lv : Nat → Nat) :
    ∀ (cs kept : List Nat) (v : World),
      (∀ y, (v.fbs y).level = lv y) →
      v.ev.feedbacks = kept ++ cs → (∀ y ∈ kept, lv y ≤ t) → ended_sound v = true →
      ∀ v', foreach_feedback (end_if_above fuel t) cs v = some v' →
        ended_sound v' = true := by
  intro cs
  induction cs with
  | nil =>
    intro kept v _ _ _ hs v' h
    cases h
    exact hs
  | cons c rest ih =>
    intro kept v hlv hf hk hs v' h
    by_cases hc : lv c ≤ t
    · have hstep : end_if_above fuel t v c = some v := by
        unfold end_if_above
        rw [if_neg (by rw [hlv c]; omega)]
      simp only [foreach_feedback, hstep, Option.some_bind] at h
      exact ih (kept ++ [c]) v hlv (by rw [hf]; simp)
        (by
          intro y hy
          rcases List.mem_append.mp hy with hy | hy
          · exact hk y hy
          · simp at hy; rw [hy]; exact hc) hs v' h
    · have hck : c ∉ kept := fun hm => hc (hk c hm)
      obtain ⟨v1, hv1, hev1, _, hlv1⟩ := level_step fuel v c kept rest hf hck
      have hstep : end_if_above fuel t v c = some v1 := by
        unfold end_if_above
        rw [if_pos (by rw [hlv c]; omega)]
        exact hv1
      have hs1 : ended_sound v1 = true :=
        end_detached_sound fuel _ c v1 (remove_shape v c kept rest hf hck).2.2.1
          (remove_feedback_sound v c hs) hv1
      simp only [foreach_feedback, hstep, Option.some_bind] at h
      exact ih kept v1 (fun y => (hlv1 y).trans (hlv y)) (by rw [hev1]) hk hs1 v' h

theorem end_feedbacks_by_level_sound (fuel : Nat) (w : World) (level : Nat) (w' : World)
    (hs : ended_sound w = true)
    (h : fbd_event_end_feedbacks_by_level fuel w level = some w') :
    ended_sound w' = true := by
  unfold fbd_event_end_feedbacks_by_level at h
  dsimp only at h
  split at h
  · cases h
    exact hs
  · split at h
    · exact level_loop_sound fuel level (fun y => (w.fbs y).level) w.ev.feedbacks [] _
        (by intro y; rw [set_end_reason_fbs])
        (by rw [set_end_reason_ev]; simp) (by simp) (set_end_reason_sound w _ hs) w' h
    · exact level_loop_sound fuel level (fun y => (w.fbs y).level) w.ev.feedbacks [] w
        (fun _ => rfl) (by simp) (by simp) hs w' h

/-- While the event restarts handles, the handlers of a handle's `ended` signal leave
the event record as it is, given that `run()` does. -/
theorem emit_signal_restart_ev (run : World → Nat → Option World) (fb : Nat)
    (hrun : ∀ v v', on_fb_ended_restarts v.ev = true → run v fb = some v' → v'.ev = v.ev) :
    ∀ (n : Nat) (w w' : World), on_fb_ended_restarts w.ev = true →
      emit_signal (fun v => on_fb_ended run v fb) n w = some w' → w'.ev = w.ev := by
  intro n
  induction n with
  | zero =>
    intro w w' _ h
    cases h
    rfl
  | succ k ih =>
    intro w w' hr h
    simp only [emit_signal] at h
    rw [on_fb_ended_guard, if_pos hr] at h
    cases h1 : run w fb with
    | none => rw [h1] at h; cases h
    | some w1 =>
      rw [h1] at h
      have e1 := hrun w w1 hr h1
      have e2 := ih w1 w' (by rw [e1]; exact hr) h
      rw [e2, e1]

/-- While the event restarts handles, a `run()` that returns has left the event record
as it is. -/
theorem run_restart_ev (fb : Nat) :
    ∀ (fuel : Nat) (w w' : World), on_fb_ended_restarts w.ev = true →
      fbd_feedback_run fuel w fb = some w' → w'.ev = w.ev := by
  intro fuel
  induction fuel with
  | zero =>
    intro w w' _ h
    cases h
  | succ n ih =>
    intro w w' hr h
    rw [fbd_feedback_run_succ] at h
    split at h
    · rw [fbd_feedback_base_done_eq] at h
      have := emit_signal_restart_ev (fbd_feedback_run n) fb ih _ _ _
        (by simpa using hr) h
      simpa using this
    · cases h
      rfl

theorem foreach_run_restart_ev (fuel : Nat) :
    ∀ (cs : List Nat) (w w' : World), on_fb_ended_restarts w.ev = true →
      foreach_feedback (fbd_feedback_run fuel) cs w = some w' → w'.ev = w.ev := by
  intro cs
  induction cs with
  | nil =>
    intro w w' _ h
    cases h
    rfl
  | cons c rest ih =>
    intro w w' hr h
    simp only [foreach_feedback] at h
    cases h1 : fbd_feedback_run fuel w c with
    | none => rw [h1] at h; cases h
    | some w1 =>
      rw [h1] at h
      have e1 := run_restart_ev c fuel w w1 hr h1
      have e2 := ih w1 w' (by rw [e1]; exact hr) h
      rw [e2, e1]

/-- Running handles none of which ends inside `run()` leaves the event record as it
is, whenever it returns. -/
theorem foreach_run_async_ev (fuel : Nat) (cs : List Nat) (w w' : World)
    (hasync : ∀ fb ∈ cs, (w.fbs fb).run_ends = false)
    (h : foreach_feedback (fbd_feedback_run fuel) cs w = some w') : w'.ev = w.ev := by
  cases fuel with
  | zero =>
    cases cs with
    | nil => cases h; rfl
    | cons c rest => simp [foreach_feedback, fbd_feedback_run_zero] at h
  | succ n =>
    obtain ⟨w2, hw2, hev, _⟩ := foreach_run_async n cs w hasync
    rw [hw2] at h
    cases h
    exact hev

theorem run_feedbacks_sound (fuel : Nat) (w w' : World)
    (hk : keeps_ended_sound w Op.run_feedbacks = true)
    (h : fbd_event_run_feedbacks fuel w = some w') : ended_sound w' = true := by
  simp only [keeps_ended_sound, Bool.and_eq_true, Bool.not_eq_true', Bool.or_eq_true,
    List.all_eq_true] at hk
  obtain ⟨hend, hcase⟩ := hk
  unfold fbd_event_run_feedbacks at h
  split at h
  · cases h
    exact sound_of_not_ended w hend
  · have harm : (if w.ev.timeout > 0 then arm_timeout w else w).ev.ended = false := by
      split
      · exact hend
      · exact hend
    have hres : on_fb_ended_restarts (if w.ev.timeout > 0 then arm_timeout w else w).ev
        = on_fb_ended_restarts w.ev := by
      split <;> rfl
    have hfbs : (if w.ev.timeout > 0 then arm_timeout w else w).fbs = w.fbs := by
      split <;> rfl
    have hfeed : (if w.ev.timeout > 0 then arm_timeout w else w).ev.feedbacks
        = w.ev.feedbacks := by
      split <;> rfl
    apply sound_of_not_ended
    rcases hcase with hr | ha
    · rw [foreach_run_restart_ev fuel _ _ _ (by rw [hres]; exact hr) h]
      exact harm
    · rw [foreach_run_async_ev fuel _ _ _ (by
        intro fb hfb
        rw [hfbs]
        rw [hfeed] at hfb
        simpa using ha fb hfb) h]
      exact harm

theorem completion_sound (fuel : Nat) (w : World) (fb : Nat) (w' : World)
    (hk : keeps_ended_sound w (Op.completion fb) = true) (hs : ended_sound w = true)
    (h : fbd_feedback_base_done (fbd_feedback_run fuel) w fb = some w') :
    ended_sound w' = true := by
  cases hr : on_fb_ended_restarts w.ev with
  | false =>
    obtain ⟨w2, hw2, hs2, _⟩ := done_sound (fbd_feedback_run fuel) w fb hr hs
    rw [hw2] at h
    cases h
    exact hs2
  | true =>
    have hend : w.ev.ended = false := by
      simpa [keeps_ended_sound, hr] using hk
    rw [fbd_feedback_base_done_eq] at h
    have hev := emit_signal_restart_ev (fbd_feedback_run fuel) fb
      (fun v v' => run_restart_ev fb fuel v v') _ _ _ (by simpa using hr) h
    apply sound_of_not_ended
    rw [hev]
    exact hend

/-- An operation that keeps `ended_sound` in the state it is applied to. -/
theorem apply_op_sound (fuel : Nat) (w : World) (op : Op) (w' : World)
    (hk : keeps_ended_sound w op = true) (hs : ended_sound w = true)
    (h : apply_op fuel w op = some w') : ended_sound w' = true := by
  cases op with
  | attach fb =>
    cases h
    apply sound_of_not_ended
    simpa [keeps_ended_sound] using hk
  | detach fb =>
    cases h
    exact remove_feedback_sound w fb hs
  | run_feedbacks => exact run_feedbacks_sound fuel w w' hk h
  | end_all =>
    obtain ⟨w2, hw2, hs2⟩ := end_feedbacks_sound fuel w hs
    have : fbd_event_end_feedbacks fuel w = some w' := h
    rw [hw2] at this
    cases this
    exact hs2
  | end_above_level level => exact end_feedbacks_by_level_sound fuel w level w' hs h
  | set_end_reason reason =>
    cases h
    exact set_end_reason_sound w reason hs
  | timer_expiry source =>
    cases h
    exact timeout_dispatch_sound w source hs
  | completion fb => exact completion_sound fuel w fb w' hk hs h

theorem apply_ops_sound (fuel : Nat) :
    ∀ (ops : List Op) (w w' : World), ops_keep_ended_sound fuel ops w = true →
      ended_sound w = true → apply_ops fuel ops w = some w' → ended_sound w' = true := by
  intro ops
  induction ops with
  | nil =>
    intro w w' _ hs h
    cases h
    exact hs
  | cons op rest ih =>
    intro w w' hk hs h
    simp only [apply_ops] at h
    simp only [ops_keep_ended_sound, Bool.and_eq_true] at hk
    cases h1 : apply_op fuel w op with
    | none => rw [h1] at h; cases h
    | some w1 =>
      rw [h1] at h
      have hk2 := hk.2
      rw [h1] at hk2
      exact ih w1 w' hk2 (apply_op_sound fuel w op w1 hk.1 hs h1) h

/-- On an event that restarts its handles, `fbd_event_run_feedbacks` does not return
when the first attached handle is connected and its effect ends inside `run()`: the
nesting of run, completion and restart exceeds every bound. -/
theorem run_feedbacks_restart_none (w : World) (fb : Nat) (rest : List Nat)
    (hfeed : w.ev.feedbacks = fb :: rest)
    (hrange : FBD_EVENT_TIMEOUT_LOOP ≤ w.ev.timeout ∨ w.ev.expired = false)
    (hres : restart_condition w.ev = true) (hrun : (w.fbs fb).run_ends = true)
    (hh : 0 < (w.fbs fb).handlers) :
    ∀ fuel, fbd_event_run_feedbacks fuel w = none := by
  intro fuel
  unfold fbd_event_run_feedbacks
  rw [if_neg (by simp [hfeed])]
  have hnone : fbd_feedback_run fuel (if w.ev.timeout > 0 then arm_timeout w else w) fb
      = none := by
    split
    · exact run_restart_none fb fuel (arm_timeout w) hrange hres hrun hh
    · exact run_restart_none fb fuel w hrange hres hrun hh
  have hf : (if w.ev.timeout > 0 then arm_timeout w else w).ev.feedbacks = fb :: rest := by
    split
    · exact hfeed
    · exact hfeed
  simp only [hf, foreach_feedback, hnone, Option.none_bind]

theorem recognised_entries_cons (entry : String) (rest : List String) :
    recognised_entries (entry :: rest) =
      recognised_entries rest +
        (if entry = LED_MULTI_INDEX_RED ∨ entry = LED_MULTI_INDEX_GREEN ∨
          entry = LED_MULTI_INDEX_BLUE then 1 else 0) := by
  unfold recognised_entries
  rw [List.countP_cons]
  simp

/-- The loop over `multi_index`: the counter is at most the number of recognised
entries seen, and every index recorded is below that number (or still 0). -/
theorem multi_index_fold_bound :
    ∀ (entries : List String) (st : FbdDevLed × Nat) (k : Nat),
      st.2 ≤ k → st.1.red_index ≤ k - 1 → st.1.green_index ≤ k - 1 →
      st.1.blue_index ≤ k - 1 →
      (entries.foldl multi_index_round st).2 ≤ k + recognised_entries entries ∧
      (entries.foldl multi_index_round st).1.red_index
        ≤ k + recognised_entries entries - 1 ∧
      (entries.foldl multi_index_round st).1.green_index
        ≤ k + recognised_entries entries - 1 ∧
      (entries.foldl multi_index_round st).1.blue_index
        ≤ k + recognised_entries entries - 1 := by
  intro entries
  induction entries with
  | nil =>
    intro st k hc hr hg hb
    simp only [List.foldl_nil, recognised_entries, List.countP_nil, Nat.add_zero]
    exact ⟨hc, hr, hg, hb⟩
  | cons entry rest ih =>
    intro st k hc hr hg hb
    rw [List.foldl_cons, recognised_entries_cons]
    have hmod : (st.2 + 1) % 2 ^ 32 ≤ k + 1 :=
      Nat.le_trans (Nat.mod_le _ _) (by omega)
    by_cases h1 : entry = LED_MULTI_INDEX_RED
    · have hstep : multi_index_round st entry =
          ({ st.1 with red_index := st.2 }, (st.2 + 1) % 2 ^ 32) := by
        simp [multi_index_round, h1]
      have := ih (multi_index_round st entry) (k + 1) (by rw [hstep]; exact hmod)
        (by rw [hstep]; show st.2 ≤ k + 1 - 1; omega)
        (by rw [hstep]; show st.1.green_index ≤ k + 1 - 1; omega)
        (by rw [hstep]; show st.1.blue_index ≤ k + 1 - 1; omega)
      rw [if_pos (Or.inl h1)]
      have e : k + (recognised_entries rest + 1) = k + 1 + recognised_entries rest := by omega
      rw [e]
      exact this
    · by_cases h2 : entry = LED_MULTI_INDEX_GREEN
      · have hstep : multi_index_round st entry =
            ({ st.1 with green_index := st.2 }, (st.2 + 1) % 2 ^ 32) := by
          have hne : LED_MULTI_INDEX_GREEN ≠ LED_MULTI_INDEX_RED := by decide
          simp [multi_index_round, h2, hne]
        have := ih (multi_index_round st entry) (k + 1) (by rw [hstep]; exact hmod)
          (by rw [hstep]; show st.1.red_index ≤ k + 1 - 1; omega)
          (by rw [hstep]; show st.2 ≤ k + 1 - 1; omega)
          (by rw [hstep]; show st.1.blue_index ≤ k + 1 - 1; omega)
        rw [if_pos (Or.inr (Or.inl h2))]
        have e : k + (recognised_entries rest + 1) = k + 1 + recognised_entries rest := by
          omega
        rw [e]
        exact this
      · by_cases h3 : entry = LED_MULTI_INDEX_BLUE
        · have hstep : multi_index_round st entry =
              ({ st.1 with blue_index := st.2 }, (st.2 + 1) % 2 ^ 32) := by
            have hne1 : LED_MULTI_INDEX_BLUE ≠ LED_MULTI_INDEX_RED := by decide
            have hne2 : LED_MULTI_INDEX_BLUE ≠ LED_MULTI_INDEX_GREEN := by decide
            simp [multi_index_round, h3, hne1, hne2]
          have := ih (multi_index_round st entry) (k + 1) (by rw [hstep]; exact hmod)
            (by rw [hstep]; show st.1.red_index ≤ k + 1 - 1; omega)
            (by rw [hstep]; show st.1.green_index ≤ k + 1 - 1; omega)
            (by rw [hstep]; show st.2 ≤ k + 1 - 1; omega)
          rw [if_pos (Or.inr (Or.inr h3))]
          have e : k + (recognised_entries rest + 1) = k + 1 + recognised_entries rest := by
            omega
          rw [e]
          exact this
        · have hstep : multi_index_round st entry = st := by
            simp [multi_index_round, h1, h2, h3]
          rw [hstep, if_neg (by simp [h1, h2, h3])]
          exact ih st k hc hr hg hb

/-- The indices that `read_multi_index` records in a fresh LED are below the number
of recognised entries, or 0. -/
theorem read_multi_index_bound (color : FbdFeedbackLedColor) (brightness : Nat)
    (index : Option (List String)) (n : Nat)
    (hn : ∀ entries, index = some entries → recognised_entries entries ≤ n) :
    (read_multi_index (fbd_dev_led_new color brightness) index).red_index ≤ n - 1 ∧
    (read_multi_index (fbd_dev_led_new color brightness) index).green_index ≤ n - 1 ∧
    (read_multi_index (fbd_dev_led_new color brightness) index).blue_index ≤ n - 1 := by
  cases index with
  | none => simp [read_multi_index, fbd_dev_led_new]
  | some entries =>
    have h := multi_index_fold_bound entries (fbd_dev_led_new color brightness, 0) 0
      (Nat.le_refl 0) (by simp [fbd_dev_led_new]) (by simp [fbd_dev_led_new])
      (by simp [fbd_dev_led_new])
    have hle := hn entries rfl
    simp only [read_multi_index]
    refine ⟨?_, ?_, ?_⟩
    · have := h.2.1
      omega
    · have := h.2.2.1
      omega
    · have := h.2.2.2
      omega

/-! ## The claims -/

/-- C2: the completion check `check_ended` sets `ended` and emits the terminal
notification (the property notification followed by the `feedbacks-ended` signal)
exactly when every attached handle reports ended, which is so in particular when
no handle is attached; when some attached handle has not ended it returns the
world as it was, with nothing emitted. -/
theorem check_ended_spec (w : World) :
    (fbd_event_get_feedbacks_ended w = true ↔
      ∀ fb ∈ w.ev.feedbacks, fbd_feedback_get_ended w fb = true) ∧
    ((∀ fb ∈ w.ev.feedbacks, fbd_feedback_get_ended w fb = true) →
      check_ended w =
        ({ w with ev := { w.ev with ended := true },
                  log := w.log ++ [Call.notify_feedbacks_ended,
                    Call.signal_feedbacks_ended w.ev.end_reason] }, true)) ∧
    (w.ev.feedbacks = [] →
      (check_ended w).1.ev.ended = true ∧
      (check_ended w).1.log = w.log ++ [Call.notify_feedbacks_ended,
        Call.signal_feedbacks_ended w.ev.end_reason]) ∧
    ((∃ fb ∈ w.ev.feedbacks, fbd_feedback_get_ended w fb = false) →
      check_ended w = (w, false)) := by
  refine ⟨get_feedbacks_ended_iff w, check_ended_of_all w, ?_, check_ended_of_not_all w⟩
  intro h0
  have hall : ∀ fb ∈ w.ev.feedbacks, fbd_feedback_get_ended w fb = true := by
    intro fb hm
    rw [h0] at hm
    cases hm
  rw [check_ended_of_all w hall]
  exact ⟨rfl, rfl⟩

/-- C10: for a handle that is not attached, `fbd_event_remove_feedback` returns the
world as it was (event, handles and log, so nothing is emitted) together with the
number of attached handles, which is 0 when none is attached. -/
theorem remove_feedback_absent (w : World) (fb : Nat) (h : fb ∉ w.ev.feedbacks) :
    fbd_event_remove_feedback w fb = (w, w.ev.feedbacks.length) := by
  unfold fbd_event_remove_feedback
  by_cases he : w.ev.feedbacks.isEmpty = true
  · have h0 : w.ev.feedbacks = [] := List.isEmpty_iff.mp he
    simp [h0]
  · have hne : w.ev.feedbacks ≠ [] := fun e => he (List.isEmpty_iff.mpr e)
    have hlen : w.ev.feedbacks.length ≠ 0 := fun e => hne (List.length_eq_zero.mp e)
    simp [he, h, World.set_ev, List.erase_of_not_mem h, hlen]

theorem remove_feedback_absent_witness :
    2 ∉ world_one_attached.ev.feedbacks ∧
    fbd_event_remove_feedback world_one_attached 2 = (world_one_attached, 1) :=
  ⟨by decide, remove_feedback_absent world_one_attached 2 (by decide)⟩

/-- C9: for a handle that is attached once, `fbd_event_remove_feedback` removes
exactly that handle and keeps the others in their order, returns the old count minus
one, and, when that leaves no handle attached, sets `ended` and emits the terminal
notification before it returns, whatever the timeout, the end reason and the handle's
own state; when handles remain, the rest of the event and the log are as before. -/
theorem remove_feedback_attached (w : World) (fb : Nat)
    (h : w.ev.feedbacks.count fb = 1) :
    (fbd_event_remove_feedback w fb).1.ev.feedbacks
      = w.ev.feedbacks.filter (fun x => x != fb) ∧
    (fbd_event_remove_feedback w fb).2 + 1 = w.ev.feedbacks.length ∧
    ((fbd_event_remove_feedback w fb).1.ev.feedbacks = [] →
      (fbd_event_remove_feedback w fb).1.ev.ended = true ∧
      (fbd_event_remove_feedback w fb).1.log
        = w.log ++ [Call.notify_feedbacks_ended,
            Call.signal_feedbacks_ended w.ev.end_reason]) ∧
    ((fbd_event_remove_feedback w fb).1.ev.feedbacks ≠ [] →
      (fbd_event_remove_feedback w fb).1.ev
        = { w.ev with feedbacks := w.ev.feedbacks.filter (fun x => x != fb) } ∧
      (fbd_event_remove_feedback w fb).1.log = w.log) := by
  have hmem : fb ∈ w.ev.feedbacks := by
    apply List.count_pos_iff.mp
    omega
  have hne : w.ev.feedbacks ≠ [] := List.ne_nil_of_mem hmem
  have he : w.ev.feedbacks.isEmpty = false := by
    cases hx : w.ev.feedbacks.isEmpty with
    | false => rfl
    | true => exact absurd (List.isEmpty_iff.mp hx) hne
  have hfil := erase_eq_filter_of_count_one w.ev.feedbacks fb h
  have hlen : (w.ev.feedbacks.erase fb).length + 1 = w.ev.feedbacks.length := by
    have h1 := List.length_erase_of_mem hmem
    have h2 : 0 < w.ev.feedbacks.length := List.length_pos.mpr hne
    omega
  by_cases hz : (w.ev.feedbacks.erase fb).length = 0
  · have hnil : w.ev.feedbacks.erase fb = [] := List.length_eq_zero.mp hz
    have hr : fbd_event_remove_feedback w fb =
        ((check_ended ((w.set_handlers fb 0).set_ev
            { w.ev with feedbacks := [] })).1, 0) := by
      rw [remove_feedback_of_mem w fb hmem, if_pos hz, hnil]
      rfl
    have hc := check_ended_of_all ((w.set_handlers fb 0).set_ev
        { w.ev with feedbacks := [] }) (by intro x hx; cases hx)
    rw [hr, hc]
    refine ⟨?_, ?_, ?_, ?_⟩
    · rw [← hfil, hnil]
      rfl
    · simpa [hz] using hlen
    · intro _
      exact ⟨rfl, rfl⟩
    · intro hcon
      exact absurd rfl hcon
  · have hr : fbd_event_remove_feedback w fb =
        ((w.set_handlers fb 0).set_ev
            { w.ev with feedbacks := w.ev.feedbacks.erase fb },
          (w.ev.feedbacks.erase fb).length) := by
      rw [remove_feedback_of_mem w fb hmem, if_neg hz]
    rw [hr]
    refine ⟨?_, ?_, ?_, ?_⟩
    · rw [← hfil]
      rfl
    · exact hlen
    · intro hcon
      have : w.ev.feedbacks.erase fb = [] := hcon
      exact absurd (by simp [this]) hz
    · intro _
      rw [← hfil]
      exact ⟨rfl, rfl⟩

theorem remove_feedback_attached_witness :
    (fbd_event_remove_feedback world_one_attached 1).1.ev.feedbacks = [] ∧
    (fbd_event_remove_feedback world_one_attached 1).2 + 1 = 1 ∧
    (fbd_event_remove_feedback world_one_attached 1).1.ev.ended = true ∧
    (fbd_event_remove_feedback world_one_attached 1).1.log
      = [Call.notify_feedbacks_ended,
          Call.signal_feedbacks_ended FbdEventEndReason.NATURAL] :=
  have h := remove_feedback_attached world_one_attached 1 (by decide)
  ⟨h.1, h.2.1, (h.2.2.1 h.1).1, (h.2.2.1 h.1).2⟩

/-- C1: when a handle reports its end, `on_fb_ended` follows the policy table: under
Oneshot it runs the completion check; under Loop it calls `run()` on that handle if
the end reason is Natural and runs the completion check otherwise; under TimedLoop it
calls `run()` on that handle if the deadline has not expired and the end reason is
Natural, and runs the completion check otherwise.  In a restart case, whenever the
handler returns, the event record is as before and the log has grown by the one call
`run()` on that handle, so nothing is notified; and it does return when the effect
does not end inside `run()`.  The event is one that can exist: its raw timeout is in
the range of the property (at least -1), or else at least its deadline has not
expired (no timer is armed for a negative timeout). -/
theorem on_fb_ended_policy_table (fuel : Nat) (w : World) (fb : Nat)
    (hrange : FBD_EVENT_TIMEOUT_LOOP ≤ w.ev.timeout ∨ w.ev.expired = false) :
    (match timeout_policy w.ev.timeout with
      | TimeoutPolicy.Oneshot =>
          on_fb_ended (fbd_feedback_run fuel) w fb = some (check_ended w).1
      | TimeoutPolicy.Loop =>
          on_fb_ended (fbd_feedback_run fuel) w fb =
            if w.ev.end_reason = FbdEventEndReason.NATURAL then fbd_feedback_run fuel w fb
            else some (check_ended w).1
      | TimeoutPolicy.TimedLoop _ =>
          on_fb_ended (fbd_feedback_run fuel) w fb =
            if w.ev.expired = false ∧ w.ev.end_reason = FbdEventEndReason.NATURAL then
              fbd_feedback_run fuel w fb
            else some (check_ended w).1) ∧
    (restart_condition w.ev = true →
      (∀ w', on_fb_ended (fbd_feedback_run fuel) w fb = some w' →
        w'.ev = w.ev ∧ w'.log = w.log ++ [Call.feedback_run fb]) ∧
      ((w.fbs fb).run_ends = false →
        on_fb_ended (fbd_feedback_run (fuel + 1)) w fb =
          some ((w.emit (Call.feedback_run fb)).set_ended fb false))) := by
  constructor
  · rw [on_fb_ended_eq _ _ _ hrange]
    unfold restart_condition timeout_policy
    by_cases hneg : w.ev.timeout < 0
    · cases hr : w.ev.end_reason <;> simp [hneg, hr]
    · by_cases h0 : w.ev.timeout = 0
      · simp [h0]
      · cases hr : w.ev.end_reason <;> cases hx : w.ev.expired <;> simp [hneg, h0, hr, hx]
  · intro hres
    constructor
    · intro w' hw'
      rw [on_fb_ended_eq _ _ _ hrange, if_pos hres] at hw'
      cases fuel with
      | zero => simp [fbd_feedback_run_zero] at hw'
      | succ n =>
        rw [fbd_feedback_run_succ] at hw'
        by_cases hrun : (w.fbs fb).run_ends = true
        · rw [if_pos hrun, fbd_feedback_base_done_eq] at hw'
          by_cases hh : (w.fbs fb).handlers = 0
          · have hz : (((w.emit (Call.feedback_run fb)).set_ended fb false).fbs fb).handlers
                = 0 := by simpa using hh
            rw [hz] at hw'
            simp only [emit_signal, Option.some.injEq] at hw'
            subst hw'
            exact ⟨rfl, rfl⟩
          · have hnone := run_restart_none fb (n + 1) w hrange hres hrun (by omega)
            rw [fbd_feedback_run_succ, if_pos hrun, fbd_feedback_base_done_eq] at hnone
            rw [hnone] at hw'
            cases hw'
        · rw [if_neg hrun] at hw'
          simp only [Option.some.injEq] at hw'
          subst hw'
          exact ⟨rfl, rfl⟩
    · intro hrun
      rw [on_fb_ended_eq _ _ _ hrange, if_pos hres, fbd_feedback_run_succ,
        if_neg (by simp [hrun])]

theorem on_fb_ended_policy_table_witness :
    (FBD_EVENT_TIMEOUT_LOOP ≤ world_one_attached.ev.timeout ∨
      world_one_attached.ev.expired = false) ∧
    restart_condition world_one_attached.ev = true ∧
    on_fb_ended (fbd_feedback_run 1) world_one_attached 1 =
      some ((world_one_attached.emit (Call.feedback_run 1)).set_ended 1 false) :=
  ⟨by decide, by decide,
    ((on_fb_ended_policy_table 0 world_one_attached 1 (by decide)).2 (by decide)).2
      (by decide)⟩

/-- C3, counterexample: on a newly constructed Oneshot event the operations attach,
detach, attach, detach of one handle emit the terminal notification twice; and on the
event as it is after the first two of them, where `ended` is already true, a further
completion check emits the notification once more. -/
theorem terminal_notification_twice :
    (apply_ops 1 [Op.attach 1, Op.detach 1, Op.attach 1, Op.detach 1] world_new_oneshot).map
        (fun w => terminal_notifications w.log) = some 2 ∧
    (apply_ops 1 [Op.attach 1, Op.detach 1] world_new_oneshot).map
        (fun w => (w.ev.ended, terminal_notifications w.log,
          terminal_notifications (check_ended w).1.log)) = some (true, 1, 2) := by
  constructor <;> decide

/-- C3, as amended: every completion check that finds every attached handle ended
(or no handle attached) emits the terminal notification once, also when `ended` is
already true, in which case the event record stays as it is and only the log grows; a
completion check emits nothing, and changes nothing, only when some attached handle
has not ended.  The notification can therefore fire more than once per event: `n`
rounds of attaching and detaching one handle on an event without handles emit it
exactly `n` times. -/
theorem check_ended_fires_every_time (w : World) (fb n fuel : Nat) :
    terminal_notifications (check_ended w).1.log =
      terminal_notifications w.log + (if fbd_event_get_feedbacks_ended w = true then 1 else 0) ∧
    (w.ev.ended = true → fbd_event_get_feedbacks_ended w = true →
      (check_ended w).1 =
        { w with log := w.log ++ [Call.notify_feedbacks_ended,
                   Call.signal_feedbacks_ended w.ev.end_reason] }) ∧
    (fbd_event_get_feedbacks_ended w = false → check_ended w = (w, false)) ∧
    (w.ev.feedbacks = [] →
      ∃ w', apply_ops fuel (attach_detach_rounds fb n) w = some w' ∧
        w'.ev.feedbacks = [] ∧
        terminal_notifications w'.log = terminal_notifications w.log + n) := by
  refine ⟨?_, ?_, ?_, ?_⟩
  · cases hb : fbd_event_get_feedbacks_ended w with
    | true =>
      rw [check_ended_of_all w ((get_feedbacks_ended_iff w).mp hb)]
      simp [terminal_notifications_append, terminal_notifications]
    | false =>
      simp [check_ended, hb]
  · intro he hb
    rw [check_ended_of_all w ((get_feedbacks_ended_iff w).mp hb)]
    have hev : { w.ev with ended := true } = w.ev := by
      rw [← he]
    simp only [hev]
  · intro hb
    simp [check_ended, hb]
  · intro h0
    induction n generalizing w with
    | zero => exact ⟨w, rfl, h0, rfl⟩
    | succ k ih =>
      obtain ⟨hnil, hcount⟩ := attach_detach_round w fb h0
      obtain ⟨w', hw', hf', ht'⟩ :=
        ih (fbd_event_remove_feedback (fbd_event_add_feedback w fb) fb).1 hnil
      refine ⟨w', ?_, hf', ?_⟩
      · simpa [attach_detach_rounds, apply_ops, apply_op] using hw'
      · rw [ht', hcount]
        omega

/-- C4: on a Oneshot event whose attached handles are distinct, connected once and
not ended, let the handles report their end in any order `pre ++ x :: post`.  After
the completions of `pre` (handles are still missing) `ended` is false and nothing has
been emitted.  After the next completion, of `x`, the same holds as long as handles
are missing (`post` is not empty); when `x` was the last one, `ended` is true and the
terminal notification has been emitted exactly once.  With two handles this is: not
after the first completion, but after the second, in either order. -/
theorem oneshot_completions (fuel : Nat) (w : World) (pre : List Nat) (x : Nat)
    (post : List Nat)
    (hone : w.ev.timeout = FBD_EVENT_TIMEOUT_ONESHOT)
    (hended : w.ev.ended = false)
    (hperm : (pre ++ x :: post).Perm w.ev.feedbacks)
    (hnodup : (pre ++ x :: post).Nodup)
    (hfresh : ∀ fb ∈ w.ev.feedbacks, (w.fbs fb).handlers = 1 ∧ (w.fbs fb).ended = false) :
    ∃ w1 w2, completions fuel pre w = some w1 ∧ completions fuel (pre ++ [x]) w = some w2 ∧
      w1.ev.ended = false ∧ w1.log = w.log ∧
      (post ≠ [] → w2.ev.ended = false ∧ w2.log = w.log) ∧
      (post = [] → w2.ev.ended = true ∧
        w2.log = w.log ++ [Call.notify_feedbacks_ended,
          Call.signal_feedbacks_ended w.ev.end_reason] ∧
        terminal_notifications w2.log = terminal_notifications w.log + 1) := by
  have hmem : ∀ y, y ∈ w.ev.feedbacks ↔ y ∈ pre ++ x :: post := fun y => (hperm.mem_iff).symm
  have hxm : x ∈ w.ev.feedbacks := (hmem x).mpr (by simp)
  have hxpre : x ∉ pre := by
    intro hx
    have := List.nodup_append.mp hnodup
    exact this.2.2 hx (by simp)
  obtain ⟨w1, hw1, hev1, hlog1, hend1, hhan1⟩ :=
    completions_not_last fuel pre w (Or.inl hone)
      (fun fb hfb => (hfresh fb ((hmem fb).mpr (by simp [hfb]))).1)
      ⟨x, hxm, hxpre, (hfresh x hxm).2⟩
  have hq1 : w1.ev.timeout = FBD_EVENT_TIMEOUT_ONESHOT ∨
      w1.ev.end_reason = FbdEventEndReason.EXPLICIT := Or.inl (by rw [hev1]; exact hone)
  have hh1 : (w1.fbs x).handlers = 1 := by rw [hhan1 x]; exact (hfresh x hxm).1
  have hcomp : ∀ v, fbd_feedback_base_done (fbd_feedback_run fuel) w1 x = some v →
      completions fuel (pre ++ [x]) w = some v := by
    intro v hv
    unfold completions at hw1 ⊢
    rw [foreach_feedback_append, hw1]
    simp [foreach_feedback, hv]
  by_cases hpost : post = []
  · subst hpost
    have hlast := done_last (fbd_feedback_run fuel) w1 x hq1 hh1 (by
      intro y hym hne
      rw [hev1] at hym
      have hy : y ∈ pre := by
        have := (hmem y).mp hym
        simpa [hne] using this
      rw [hend1 y]
      simp [hy])
    refine ⟨w1, _, hw1, hcomp _ hlast, ?_, hlog1, ?_, ?_⟩
    · rw [hev1]; exact hended
    · intro hcon; exact absurd rfl hcon
    · intro _
      refine ⟨rfl, ?_, ?_⟩
      · simp [hlog1, hev1]
      · simp [hlog1, terminal_notifications_append, terminal_notifications]
  · obtain ⟨y, hy⟩ := List.exists_mem_of_ne_nil post hpost
    have hym : y ∈ w.ev.feedbacks := (hmem y).mpr (by simp [hy])
    have hnd := List.nodup_append.mp hnodup
    have hynx : y ≠ x := by
      intro e
      have h2 := List.nodup_cons.mp hnd.2.1
      exact h2.1 (e ▸ hy)
    have hypre : y ∉ pre := fun hyp => hnd.2.2 hyp (by simp [hy])
    have hnl := done_not_last (fbd_feedback_run fuel) w1 x hq1 hh1
      ⟨y, by rw [hev1]; exact hym, hynx, by rw [hend1 y]; simp [hypre, (hfresh y hym).2]⟩
    refine ⟨w1, _, hw1, hcomp _ hnl, ?_, hlog1, ?_, ?_⟩
    · rw [hev1]; exact hended
    · intro _
      exact ⟨by simp [hev1, hended], by simp [hlog1]⟩
    · intro hcon; exact absurd hcon hpost

theorem oneshot_completions_witness :
    (∃ w1 w2, completions 1 [1] world_two_attached = some w1 ∧
      completions 1 ([1] ++ [2]) world_two_attached = some w2 ∧
      w1.ev.ended = false ∧ w1.log = world_two_attached.log ∧
      (([] : List Nat) ≠ [] → w2.ev.ended = false ∧ w2.log = world_two_attached.log) ∧
      (([] : List Nat) = [] → w2.ev.ended = true ∧
        w2.log = world_two_attached.log ++ [Call.notify_feedbacks_ended,
          Call.signal_feedbacks_ended world_two_attached.ev.end_reason] ∧
        terminal_notifications w2.log = terminal_notifications world_two_attached.log + 1)) ∧
    (∃ w1 w2, completions 1 [2] world_two_attached = some w1 ∧
      completions 1 ([2] ++ [1]) world_two_attached = some w2 ∧
      w1.ev.ended = false ∧ w1.log = world_two_attached.log ∧
      (([] : List Nat) ≠ [] → w2.ev.ended = false ∧ w2.log = world_two_attached.log) ∧
      (([] : List Nat) = [] → w2.ev.ended = true ∧
        w2.log = world_two_attached.log ++ [Call.notify_feedbacks_ended,
          Call.signal_feedbacks_ended world_two_attached.ev.end_reason] ∧
        terminal_notifications w2.log = terminal_notifications world_two_attached.log + 1)) :=
  ⟨oneshot_completions 1 world_two_attached [1] 2 [] (by decide) (by decide)
      (List.Perm.swap 2 1 []) (by decide) (by decide),
    oneshot_completions 1 world_two_attached [2] 1 [] (by decide) (by decide)
      (List.Perm.refl _) (by decide) (by decide)⟩

/-- C5: whatever the timeout (Oneshot, Loop, TimedLoop) and the expiry flag, for an
event with at least one attached handle, the handles distinct, connected once, not
ended and reporting their end from inside `end()`: `fbd_event_end_feedbacks` returns,
and then `ended` is true, the end reason is Explicit, the log has grown by the change
of the end reason (if it was not Explicit already), one `end()` per handle and, last,
one terminal notification whose signal is read with end reason Explicit; so the
terminal notification was emitted exactly once and `run()` was called on no handle. -/
theorem end_feedbacks_sync (fuel : Nat) (w : World)
    (hne : w.ev.feedbacks ≠ [])
    (hnodup : w.ev.feedbacks.Nodup)
    (hfresh : ∀ fb ∈ w.ev.feedbacks, (w.fbs fb).handlers = 1 ∧
      (w.fbs fb).ended = false ∧ (w.fbs fb).end_ends = true) :
    ∃ w', fbd_event_end_feedbacks fuel w = some w' ∧
      w'.ev = { w.ev with end_reason := FbdEventEndReason.EXPLICIT, ended := true } ∧
      w'.log = (fbd_event_set_end_reason w FbdEventEndReason.EXPLICIT).log ++
        w.ev.feedbacks.map Call.feedback_end ++
        [Call.notify_feedbacks_ended,
          Call.signal_feedbacks_ended FbdEventEndReason.EXPLICIT] ∧
      terminal_notifications w'.log = terminal_notifications w.log + 1 ∧
      handle_calls w'.log = handle_calls w.log ++ w.ev.feedbacks.map Call.feedback_end := by
  obtain ⟨pre, x, hsplit⟩ : ∃ pre x, w.ev.feedbacks = pre ++ [x] :=
    ⟨w.ev.feedbacks.dropLast, w.ev.feedbacks.getLast hne,
      (List.dropLast_append_getLast hne).symm⟩
  have hnd := List.nodup_append.mp (hsplit ▸ hnodup)
  have hxpre : x ∉ pre := fun hx => hnd.2.2 hx (by simp)
  have hxm : x ∈ w.ev.feedbacks := by simp [hsplit]
  have hrev := set_end_reason_ev w FbdEventEndReason.EXPLICIT
  have hrfbs := set_end_reason_fbs w FbdEventEndReason.EXPLICIT
  have hrfeed : (fbd_event_set_end_reason w FbdEventEndReason.EXPLICIT).ev.feedbacks
      = w.ev.feedbacks := by rw [hrev]
  obtain ⟨w1, hw1, hev1, hlog1, hend1, hhan1, hee1⟩ :=
    ends_not_last fuel pre (fbd_event_set_end_reason w FbdEventEndReason.EXPLICIT)
      (set_end_reason_reason w _)
      (by
        intro fb hfb
        rw [hrfbs]
        have := hfresh fb (by simp [hsplit, hfb])
        exact ⟨this.1, this.2.2⟩)
      ⟨x, by rw [hrfeed]; exact hxm, hxpre, by rw [hrfbs]; exact (hfresh x hxm).2.1⟩
  have hreason1 : w1.ev.end_reason = FbdEventEndReason.EXPLICIT := by
    rw [hev1]; exact set_end_reason_reason w _
  have hlast : fbd_feedback_end fuel w1 x =
      some { (w1.emit (Call.feedback_end x)).set_ended x true with
        ev := { w1.ev with ended := true },
        log := w1.log ++ [Call.feedback_end x] ++ [Call.notify_feedbacks_ended,
          Call.signal_feedbacks_ended w1.ev.end_reason] } := by
    rw [fbd_feedback_end_eq, if_pos (by rw [hee1 x, hrfbs]; exact (hfresh x hxm).2.2)]
    exact done_last (fbd_feedback_run fuel) (w1.emit (Call.feedback_end x)) x
      (Or.inr (by simpa using hreason1))
      (by
        have := hhan1 x
        rw [hrfbs] at this
        simpa [this] using (hfresh x hxm).1)
      (by
        intro y hym hne'
        have hym' : y ∈ pre := by
          have : y ∈ w.ev.feedbacks := by
            have h2 : y ∈ w1.ev.feedbacks := by simpa using hym
            rw [hev1, hrfeed] at h2
            exact h2
          rw [hsplit] at this
          simpa [hne'] using this
        have := hend1 y
        simp only [emit_fbs]
        rw [this]
        simp [hym'])
  have hrun : fbd_event_end_feedbacks fuel w =
      some { (w1.emit (Call.feedback_end x)).set_ended x true with
        ev := { w1.ev with ended := true },
        log := w1.log ++ [Call.feedback_end x] ++ [Call.notify_feedbacks_ended,
          Call.signal_feedbacks_ended w1.ev.end_reason] } := by
    unfold fbd_event_end_feedbacks
    simp only [hrfeed]
    rw [hsplit, foreach_feedback_append, hw1]
    simp only [Option.some_bind, foreach_feedback, hlast]
  refine ⟨_, hrun, ?_, ?_, ?_, ?_⟩
  · simp only [hev1, hrev]
  · simp only [hlog1, hreason1, hsplit, List.map_append, List.map_cons, List.map_nil,
      List.append_assoc]
  · simp only [hlog1, hreason1, set_end_reason_log, terminal_notifications_append]
    by_cases hr : w.ev.end_reason = FbdEventEndReason.EXPLICIT
    · simp [hr, terminal_notifications, List.countP_eq_zero]
    · simp [hr, terminal_notifications, List.countP_eq_zero]
  · simp only [hlog1, hreason1, set_end_reason_log, handle_calls_append, hsplit]
    by_cases hr : w.ev.end_reason = FbdEventEndReason.EXPLICIT
    · simp [hr, handle_calls, List.filter_eq_self]
    · simp [hr, handle_calls, List.filter_eq_self]

theorem end_feedbacks_sync_witness :
    ∃ w', fbd_event_end_feedbacks 1 world_two_attached_loop = some w' ∧
      w'.ev = { world_two_attached_loop.ev with
        end_reason := FbdEventEndReason.EXPLICIT, ended := true } ∧
      w'.log = (fbd_event_set_end_reason world_two_attached_loop
          FbdEventEndReason.EXPLICIT).log ++
        world_two_attached_loop.ev.feedbacks.map Call.feedback_end ++
        [Call.notify_feedbacks_ended,
          Call.signal_feedbacks_ended FbdEventEndReason.EXPLICIT] ∧
      terminal_notifications w'.log = terminal_notifications world_two_attached_loop.log + 1 ∧
      handle_calls w'.log = handle_calls world_two_attached_loop.log ++
        world_two_attached_loop.ev.feedbacks.map Call.feedback_end :=
  end_feedbacks_sync 1 world_two_attached_loop (by decide) (by decide) (by decide)

/-- C6: `fbd_event_end_feedbacks` returns for every event and any fuel.  It sets the
end reason to Explicit first: the log continues the log of that assignment, and what
follows holds one `end()` per attached handle, in the order of the list, no `run()`,
and otherwise only terminal notifications read with end reason Explicit.  It removes
no handle and changes no other field of the event than `ended`, and `ended` only
together with a terminal notification, that is through a completion check that a
completing handle triggers.  When no attached handle reports its end inside the call,
the result is the world after the assignment with the `end()` calls logged: `ended`,
the feedbacks and the handles are as before. -/
theorem end_feedbacks_spec (fuel : Nat) (w : World) :
    ∃ w' tail, fbd_event_end_feedbacks fuel w = some w' ∧
      w'.log = (fbd_event_set_end_reason w FbdEventEndReason.EXPLICIT).log ++ tail ∧
      handle_calls tail = w.ev.feedbacks.map Call.feedback_end ∧
      (∀ c ∈ tail, c = Call.notify_feedbacks_ended ∨
        c = Call.signal_feedbacks_ended FbdEventEndReason.EXPLICIT ∨
        ∃ fb, c = Call.feedback_end fb) ∧
      w'.ev = { w.ev with end_reason := FbdEventEndReason.EXPLICIT, ended := w'.ev.ended } ∧
      (w'.ev.ended = w.ev.ended ∨ (w'.ev.ended = true ∧ 0 < terminal_notifications tail)) ∧
      ((∀ fb ∈ w.ev.feedbacks, (w.fbs fb).end_ends = false) →
        w' = { fbd_event_set_end_reason w FbdEventEndReason.EXPLICIT with
          log := (fbd_event_set_end_reason w FbdEventEndReason.EXPLICIT).log ++
            w.ev.feedbacks.map Call.feedback_end }) := by
  have hrev := set_end_reason_ev w FbdEventEndReason.EXPLICIT
  have hrfbs := set_end_reason_fbs w FbdEventEndReason.EXPLICIT
  have hrr := set_end_reason_reason w FbdEventEndReason.EXPLICIT
  have hrfeed : (fbd_event_set_end_reason w FbdEventEndReason.EXPLICIT).ev.feedbacks
      = w.ev.feedbacks := by rw [hrev]
  obtain ⟨w', tail, hw', h, hc⟩ := foreach_end_ends fuel w.ev.feedbacks
    (fbd_event_set_end_reason w FbdEventEndReason.EXPLICIT) (Or.inr hrr)
  have hrun : fbd_event_end_feedbacks fuel w = some w' := by
    unfold fbd_event_end_feedbacks
    simp only [hrfeed]
    exact hw'
  refine ⟨w', tail, hrun, h.log_eq, hc, ?_, ?_, ?_, ?_⟩
  · intro c hcm
    have := h.calls c hcm
    rw [hrr] at this
    exact this
  · rw [h.ev_eq, hrev]
  · rcases h.ended_eq with he | he
    · left
      rw [he, hrev]
    · exact Or.inr he
  · intro hasync
    have hx := foreach_end_async fuel w.ev.feedbacks
      (fbd_event_set_end_reason w FbdEventEndReason.EXPLICIT)
      (by intro fb hfb; rw [hrfbs]; exact hasync fb hfb)
    rw [hx] at hw'
    exact (Option.some.inj hw').symm

/-- C7: for an event whose attached handles are distinct and every threshold,
`fbd_event_end_feedbacks_by_level` returns; afterwards the attached handles are the
previously attached ones whose level is at most the threshold, in their previous
order; the calls on handles made meanwhile are one `end()` for each previously
attached handle above the threshold, so `end()` was called exactly once on each of
those, on no other handle, and `run()` on none.  A handle whose level equals the
threshold stays attached. -/
theorem end_feedbacks_by_level_handles (fuel : Nat) (w : World) (level : Nat)
    (hnodup : w.ev.feedbacks.Nodup) :
    ∃ w' tail, fbd_event_end_feedbacks_by_level fuel w level = some w' ∧
      w'.log = w.log ++ tail ∧
      w'.ev.feedbacks = w.ev.feedbacks.filter (fun y => decide ((w.fbs y).level ≤ level)) ∧
      handle_calls tail =
        (w.ev.feedbacks.filter (fun y => decide ((w.fbs y).level > level))).map
          Call.feedback_end ∧
      (∀ fb, tail.count (Call.feedback_end fb) =
        if fb ∈ w.ev.feedbacks ∧ (w.fbs fb).level > level then 1 else 0) ∧
      (∀ fb, tail.count (Call.feedback_run fb) = 0) ∧
      (∀ fb ∈ w.ev.feedbacks, (w.fbs fb).level = level → fb ∈ w'.ev.feedbacks) := by
  obtain ⟨w', tail, hw', hlog, hfeed, hcalls, _, _, _⟩ := by_level_full fuel w level
  refine ⟨w', tail, hw', hlog, hfeed, hcalls, ?_, ?_, ?_⟩
  · intro fb
    rw [← count_end_handle_calls, hcalls,
      List.count_map_of_injective _ _ feedback_end_injective,
      List.count_eq_of_nodup (hnodup.filter _)]
    simp [List.mem_filter]
  · intro fb
    rw [← count_run_handle_calls, hcalls]
    apply List.count_eq_zero_of_not_mem
    simp
  · intro fb hfb hl
    rw [hfeed]
    exact List.mem_filter.mpr ⟨hfb, by simp [hl]⟩

theorem end_feedbacks_by_level_handles_witness :
    ∃ w' tail, fbd_event_end_feedbacks_by_level 1 world_levels 7 = some w' ∧
      w'.log = world_levels.log ++ tail ∧
      w'.ev.feedbacks = [2] ∧
      handle_calls tail = [Call.feedback_end 1] ∧
      tail.count (Call.feedback_end 1) = 1 ∧
      tail.count (Call.feedback_end 2) = 0 := by
  obtain ⟨w', tail, h1, h2, h3, h4, h5, _, _⟩ :=
    end_feedbacks_by_level_handles 1 world_levels 7 (by decide)
  exact ⟨w', tail, h1, h2, h3.trans (by decide), h4.trans (by decide),
    (h5 1).trans (by decide), (h5 2).trans (by decide)⟩

/-- C8: with `cnt` the number of attached handles above the threshold and `total` the
number attached, `fbd_event_end_feedbacks_by_level` returns, and: if `cnt > 0` and
`cnt = total`, the end reason is Explicit, no handle is attached, `ended` is true and
the terminal notification has been emitted exactly once, after the change of the end
reason and read with end reason Explicit; otherwise the end reason and `ended` are as
before, only the list of feedbacks has changed, and no terminal notification has been
emitted; and if `cnt = 0` the world is as before and nothing has been called. -/
theorem end_feedbacks_by_level_reason (fuel : Nat) (w : World) (level : Nat) :
    ∃ w' tail, fbd_event_end_feedbacks_by_level fuel w level = some w' ∧
      w'.log = w.log ++ tail ∧
      ((0 < count_above w w.ev.feedbacks level ∧
          count_above w w.ev.feedbacks level = w.ev.feedbacks.length) →
        w'.ev = { w.ev with end_reason := FbdEventEndReason.EXPLICIT, feedbacks := [],
                            ended := true } ∧
        terminal_notifications tail = 1 ∧
        ∃ t2, tail = (if w.ev.end_reason = FbdEventEndReason.EXPLICIT then []
            else [Call.notify_end_reason]) ++ t2 ∧
          ∀ c ∈ t2, c = Call.notify_feedbacks_ended ∨
            c = Call.signal_feedbacks_ended FbdEventEndReason.EXPLICIT ∨
            ∃ fb, c = Call.feedback_end fb) ∧
      (¬ (0 < count_above w w.ev.feedbacks level ∧
          count_above w w.ev.feedbacks level = w.ev.feedbacks.length) →
        w'.ev = { w.ev with
          feedbacks := w.ev.feedbacks.filter (fun y => decide ((w.fbs y).level ≤ level)) } ∧
        w'.ev.end_reason = w.ev.end_reason ∧ w'.ev.ended = w.ev.ended ∧
        terminal_notifications tail = 0) ∧
      (count_above w w.ev.feedbacks level = 0 → w' = w ∧ tail = []) := by
  obtain ⟨w', tail, hw', hlog, _, _, hzero, hall, hpart⟩ := by_level_full fuel w level
  refine ⟨w', tail, hw', hlog, hall, ?_, hzero⟩
  intro h
  obtain ⟨hev, ht⟩ := hpart h
  exact ⟨hev, by rw [hev], by rw [hev], ht⟩

/-- C12: when the deadline timer fires, `on_timeout_expired` sets `expired` and clears
`timeout_id` and does nothing else: the other fields of the event (among them `ended`,
the end reason and the feedbacks), the handles and the log are as before, so no
completion check ran, nothing was notified and no handle was called, whatever the
handles report.  The main loop then drops the source that fired; a source that is
not pending does not fire. -/
theorem timeout_expired_frame (w : World) (source : Nat) :
    on_timeout_expired w =
      { w with ev := { w.ev with expired := true, timeout_id := 0 } } ∧
    (on_timeout_expired w).ev.ended = w.ev.ended ∧
    (on_timeout_expired w).ev.end_reason = w.ev.end_reason ∧
    (on_timeout_expired w).ev.feedbacks = w.ev.feedbacks ∧
    (on_timeout_expired w).log = w.log ∧
    (on_timeout_expired w).fbs = w.fbs ∧
    (source ∈ w.sources →
      timeout_dispatch w source =
        { w with ev := { w.ev with expired := true, timeout_id := 0 },
                 sources := w.sources.erase source }) ∧
    (source ∉ w.sources → timeout_dispatch w source = w) := by
  refine ⟨rfl, rfl, rfl, rfl, rfl, rfl, ?_, ?_⟩
  · intro h
    simp [timeout_dispatch, h, on_timeout_expired, World.set_ev]
  · intro h
    simp [timeout_dispatch, h]

/-- C14, the code at the failing input: on the TimedLoop event with one handle, two
calls of `fbd_event_run_feedbacks` leave two timeout sources pending, 1 and 2, of
which the event stores only the second; `fbd_event_dispose` then removes source 2
and leaves source 1 pending. -/
theorem run_feedbacks_twice_leaks_timer :
    (apply_ops 1 [Op.run_feedbacks, Op.run_feedbacks] world_timed).map
        (fun w => (w.sources, w.ev.timeout_id, (fbd_event_dispose w).sources,
          (fbd_event_dispose w).ev.timeout_id)) = some ([1, 2], 2, [1], 0) := by
  decide

/-- C15, counterexample: constructed with the raw timeout -2, the event reports the
timeout -1; constructed with the id -1, it reports the id 0. -/
theorem fbd_event_new_out_of_range :
    fbd_event_get_timeout
        (fbd_event_new 1 (some "app") (some "window-close") (-2) (some "sender-id")) = -1 ∧
    fbd_event_get_id
        (fbd_event_new (-1) (some "app") (some "window-close") 2 (some "sender-id")) = 0 := by
  decide

/-- C15, as amended: for every app id, name and optional sender, every id in the range
0..G_MAXINT of the `id` property and every raw timeout in the range -1..G_MAXINT of the
`timeout` property, the accessors of the new event return exactly the values given;
the end reason is Natural, `ended` and `expired` are false and no handle is attached.
An id outside its range is not stored and reads 0; a timeout outside its range is not
stored and reads -1. -/
theorem fbd_event_new_fidelity (id : Int) (app_id event : Option String) (timeout : Int)
    (sender : Option String) :
    (0 ≤ id ∧ id ≤ G_MAXINT →
      (fbd_event_get_id (fbd_event_new id app_id event timeout sender) : Int) = id) ∧
    (-1 ≤ timeout ∧ timeout ≤ G_MAXINT →
      fbd_event_get_timeout (fbd_event_new id app_id event timeout sender) = timeout) ∧
    fbd_event_get_app_id (fbd_event_new id app_id event timeout sender) = app_id ∧
    fbd_event_get_event (fbd_event_new id app_id event timeout sender) = event ∧
    fbd_event_get_sender (fbd_event_new id app_id event timeout sender) = sender ∧
    fbd_event_get_end_reason (fbd_event_new id app_id event timeout sender)
      = FbdEventEndReason.NATURAL ∧
    (fbd_event_new id app_id event timeout sender).ended = false ∧
    (fbd_event_new id app_id event timeout sender).expired = false ∧
    fbd_event_get_feedbacks (fbd_event_new id app_id event timeout sender) = [] ∧
    (¬ (0 ≤ id ∧ id ≤ G_MAXINT) →
      fbd_event_get_id (fbd_event_new id app_id event timeout sender) = 0) ∧
    (¬ (-1 ≤ timeout ∧ timeout ≤ G_MAXINT) →
      fbd_event_get_timeout (fbd_event_new id app_id event timeout sender) = -1) := by
  by_cases hid : 0 ≤ id ∧ id ≤ G_MAXINT <;>
    by_cases ht : -1 ≤ timeout ∧ timeout ≤ G_MAXINT <;>
    simp [fbd_event_new, fbd_event_init, fbd_event_get_id, fbd_event_get_timeout,
      fbd_event_get_app_id, fbd_event_get_event, fbd_event_get_sender,
      fbd_event_get_end_reason, fbd_event_get_feedbacks, hid, ht]

theorem fbd_event_new_fidelity_witness :
    (fbd_event_get_id
        (fbd_event_new 1 (some "app") (some "window-close") 2 (some "sender-id")) : Int) = 1 ∧
    fbd_event_get_timeout
        (fbd_event_new 1 (some "app") (some "window-close") 2 (some "sender-id")) = 2 ∧
    fbd_event_get_sender
        (fbd_event_new 1 (some "app") (some "window-close") 2 (some "sender-id"))
      = some "sender-id" :=
  have h := fbd_event_new_fidelity 1 (some "app") (some "window-close") 2 (some "sender-id")
  ⟨h.1 (by decide), h.2.1 (by decide), h.2.2.2.2.1⟩

/-- C18, counterexample: on a newly constructed event, which has no handle attached
and the end reason Natural, `fbd_event_end_feedbacks` changes the end reason to
Explicit and emits the notification of that change. -/
theorem end_feedbacks_empty_changes_reason :
    world_new_oneshot.ev.feedbacks = [] ∧
    (fbd_event_end_feedbacks 1 world_new_oneshot).map
        (fun w => (w.ev.end_reason, w.log))
      = some (FbdEventEndReason.EXPLICIT, [Call.notify_end_reason]) := by
  decide

/-- C18, as amended: on an event without attached handles `fbd_event_end_feedbacks`
calls no handle, emits no terminal notification and leaves `ended`, the feedbacks and
the handles as they are, but it sets the end reason to Explicit, and notifies that
change if the end reason was not Explicit before; it is a no-op when the end reason
is Explicit already. -/
theorem end_feedbacks_empty (fuel : Nat) (w : World) (h : w.ev.feedbacks = []) :
    fbd_event_end_feedbacks fuel w =
      some (fbd_event_set_end_reason w FbdEventEndReason.EXPLICIT) ∧
    (fbd_event_set_end_reason w FbdEventEndReason.EXPLICIT).ev =
      { w.ev with end_reason := FbdEventEndReason.EXPLICIT } ∧
    (fbd_event_set_end_reason w FbdEventEndReason.EXPLICIT).log =
      w.log ++ (if w.ev.end_reason = FbdEventEndReason.EXPLICIT then []
        else [Call.notify_end_reason]) ∧
    (fbd_event_set_end_reason w FbdEventEndReason.EXPLICIT).fbs = w.fbs ∧
    (w.ev.end_reason = FbdEventEndReason.EXPLICIT →
      fbd_event_end_feedbacks fuel w = some w) := by
  have hfeed : (fbd_event_set_end_reason w FbdEventEndReason.EXPLICIT).ev.feedbacks = [] := by
    rw [set_end_reason_ev]
    exact h
  have hrun : fbd_event_end_feedbacks fuel w =
      some (fbd_event_set_end_reason w FbdEventEndReason.EXPLICIT) := by
    unfold fbd_event_end_feedbacks
    simp only [hfeed]
    rfl
  refine ⟨hrun, set_end_reason_ev w _, set_end_reason_log w _, set_end_reason_fbs w _, ?_⟩
  intro hr
  rw [hrun]
  simp [fbd_event_set_end_reason, hr]

theorem end_feedbacks_empty_witness :
    fbd_event_end_feedbacks 1 world_new_oneshot =
      some (fbd_event_set_end_reason world_new_oneshot FbdEventEndReason.EXPLICIT) ∧
    (fbd_event_set_end_reason world_new_oneshot FbdEventEndReason.EXPLICIT).log =
      world_new_oneshot.log ++
        (if world_new_oneshot.ev.end_reason = FbdEventEndReason.EXPLICIT then []
          else [Call.notify_end_reason]) :=
  have h := end_feedbacks_empty 1 world_new_oneshot (by decide)
  ⟨h.1, h.2.2.1⟩

/-- C19, counterexample: after attaching handle 1 to the new event with id 1 and
detaching it again, the handle still carries the tag 1; and a handle attached to an
event with id 0 carries no tag. -/
theorem detach_keeps_event_id :
    ((fbd_event_remove_feedback (fbd_event_add_feedback world_new_oneshot 1) 1).1.fbs 1).event_id
      = some 1 ∧
    ((fbd_event_add_feedback
        (World.start (fbd_event_new 0 (some "app") (some "window-close") 0 none)
          (fun _ => fresh_feedback 0)) 1).fbs 1).event_id = none := by
  decide

/-- C19, as amended: `fbd_event_add_feedback` puts the handle in front of the feedbacks,
so the attached count grows by exactly 1, and stores the event's id as the handle's
`event-id` datum, which is a tag with that id for every id but 0 (the id 0 is the NULL
datum, that is no tag).  `fbd_event_remove_feedback` changes the tag of no handle:
after attach and detach the handle carries the tag the attach gave it. -/
theorem add_feedback_tags (w : World) (h : Nat) :
    (fbd_event_add_feedback w h).ev.feedbacks = h :: w.ev.feedbacks ∧
    (fbd_event_add_feedback w h).ev.feedbacks.length = w.ev.feedbacks.length + 1 ∧
    ((fbd_event_add_feedback w h).fbs h).event_id = GUINT_TO_POINTER w.ev.id ∧
    (w.ev.id ≠ 0 → ((fbd_event_add_feedback w h).fbs h).event_id = some w.ev.id) ∧
    (∀ x y, ((fbd_event_remove_feedback w x).1.fbs y).event_id = (w.fbs y).event_id) ∧
    ((fbd_event_remove_feedback (fbd_event_add_feedback w h) h).1.fbs h).event_id
      = GUINT_TO_POINTER w.ev.id := by
  have hrem : ∀ (v : World) (x y : Nat),
      ((fbd_event_remove_feedback v x).1.fbs y).event_id = (v.fbs y).event_id := by
    intro v x y
    have hset : ((v.set_handlers x 0).fbs y).event_id = (v.fbs y).event_id := by
      by_cases hy : y = x
      · subst hy
        simp [World.set_handlers]
      · rw [set_handlers_other v x y 0 hy]
    rw [remove_feedback_fbs]
    split
    · exact hset
    · rfl
  have htag : ((fbd_event_add_feedback w h).fbs h).event_id = GUINT_TO_POINTER w.ev.id := by
    simp [fbd_event_add_feedback, World.set_handlers]
  refine ⟨rfl, by simp [fbd_event_add_feedback], htag, ?_, hrem w, ?_⟩
  · intro hid
    rw [htag]
    simp [GUINT_TO_POINTER, hid]
  · rw [hrem, htag]

/-- C11: on an event without attached handles `fbd_event_run_feedbacks` returns the
world as it is: nothing is called, no timer is armed, whatever the timeout.  On an
event with attached handles none of which ends inside `run()`, it returns, and the log
has grown by the arming of the timer, exactly if the raw timeout is positive and then
with that many seconds as the delay, followed by one `run()` per attached handle in
the order of the list; the new timeout source is pending and stored in `timeout_id`,
and the rest of the event is as before.  Also when handles end inside `run()`: if the
call returns, the pending sources and the number of timers armed have grown by one
exactly if the raw timeout is positive. -/
theorem run_feedbacks_spec (fuel : Nat) (w : World) :
    (w.ev.feedbacks = [] → fbd_event_run_feedbacks fuel w = some w) ∧
    (w.ev.feedbacks ≠ [] → (∀ fb ∈ w.ev.feedbacks, (w.fbs fb).run_ends = false) →
      ∃ w', fbd_event_run_feedbacks (fuel + 1) w = some w' ∧
        w'.log = w.log ++
          (if 0 < w.ev.timeout then
            [Call.timeout_add_seconds w.ev.timeout (w.last_source + 1)] else []) ++
          w.ev.feedbacks.map Call.feedback_run ∧
        w'.sources = w.sources ++ (if 0 < w.ev.timeout then [w.last_source + 1] else []) ∧
        w'.ev = { w.ev with
          timeout_id := if 0 < w.ev.timeout then w.last_source + 1 else w.ev.timeout_id }) ∧
    (w.ev.feedbacks ≠ [] → ∀ w', fbd_event_run_feedbacks fuel w = some w' →
      w'.sources = w.sources ++ (if 0 < w.ev.timeout then [w.last_source + 1] else []) ∧
      timers_armed w'.log = timers_armed w.log + (if 0 < w.ev.timeout then 1 else 0)) := by
  refine ⟨?_, ?_, ?_⟩
  · intro h
    simp [fbd_event_run_feedbacks, h]
  · intro hne hasync
    have he : w.ev.feedbacks.isEmpty = false := by
      cases hx : w.ev.feedbacks.isEmpty with
      | false => rfl
      | true => exact absurd (List.isEmpty_iff.mp hx) hne
    unfold fbd_event_run_feedbacks
    rw [if_neg (by simp [he])]
    by_cases ht : 0 < w.ev.timeout
    · simp only [gt_iff_lt, ht, if_true]
      obtain ⟨w', hw', hev, hlog, hsrc, _, _, _⟩ :=
        foreach_run_async fuel (arm_timeout w).ev.feedbacks (arm_timeout w)
          (by intro fb hfb; exact hasync fb hfb)
      refine ⟨w', hw', ?_, ?_, ?_⟩
      · rw [hlog]
        rfl
      · rw [hsrc]
        rfl
      · rw [hev]
        rfl
    · simp only [gt_iff_lt, ht, if_false]
      obtain ⟨w', hw', hev, hlog, hsrc, _, _, _⟩ :=
        foreach_run_async fuel w.ev.feedbacks w hasync
      refine ⟨w', hw', ?_, ?_, ?_⟩
      · rw [hlog]
        simp
      · rw [hsrc]
        simp
      · rw [hev]
  · intro hne w' hw'
    have he : w.ev.feedbacks.isEmpty = false := by
      cases hx : w.ev.feedbacks.isEmpty with
      | false => rfl
      | true => exact absurd (List.isEmpty_iff.mp hx) hne
    unfold fbd_event_run_feedbacks at hw'
    rw [if_neg (by simp [he])] at hw'
    by_cases ht : 0 < w.ev.timeout
    · simp only [gt_iff_lt, ht, if_true] at hw' ⊢
      obtain ⟨t, c⟩ := foreach_calls (fbd_feedback_run fuel) (run_calls fuel) _ _ _ hw'
      refine ⟨by rw [c.sources_eq]; rfl, ?_⟩
      rw [c.timers]
      simp [arm_timeout, timers_armed_append, timers_armed]
    · simp only [gt_iff_lt, ht, if_false] at hw' ⊢
      obtain ⟨t, c⟩ := foreach_calls (fbd_feedback_run fuel) (run_calls fuel) _ _ _ hw'
      exact ⟨by rw [c.sources_eq]; simp, by rw [c.timers]; rfl⟩

/-- C20: no operation changes a field fixed at construction.  Whenever one of attach,
detach, run_feedbacks, end_all, end_above_level, set_end_reason, the expiry of a timer
or the completion of a handle returns, the accessors for the id, the app id, the event
name, the sender and the raw timeout return what they returned before.  Every
operation but run_feedbacks and the completion of a handle returns always, and those
two return when no effect ends inside `run()`. -/
theorem construction_fields_frame (fuel : Nat) (w : World) (op : Op) :
    (∀ w', apply_op fuel w op = some w' →
      fbd_event_get_id w'.ev = fbd_event_get_id w.ev ∧
      fbd_event_get_app_id w'.ev = fbd_event_get_app_id w.ev ∧
      fbd_event_get_event w'.ev = fbd_event_get_event w.ev ∧
      fbd_event_get_sender w'.ev = fbd_event_get_sender w.ev ∧
      fbd_event_get_timeout w'.ev = fbd_event_get_timeout w.ev) ∧
    (op ≠ Op.run_feedbacks → (∀ fb, op ≠ Op.completion fb) →
      ∃ w', apply_op fuel w op = some w') ∧
    ((∀ y, (w.fbs y).run_ends = false) → ∃ w', apply_op (fuel + 1) w op = some w') := by
  have hend : ∀ f, ∃ w', fbd_event_end_feedbacks f w = some w' := by
    intro f
    obtain ⟨w', _, hw', _, _⟩ := foreach_end_ends f
      (fbd_event_set_end_reason w FbdEventEndReason.EXPLICIT).ev.feedbacks
      (fbd_event_set_end_reason w FbdEventEndReason.EXPLICIT)
      (Or.inr (set_end_reason_reason w _))
    exact ⟨w', hw'⟩
  have hlevel : ∀ f level, ∃ w', fbd_event_end_feedbacks_by_level f w level = some w' := by
    intro f level
    obtain ⟨w', _, hw', _⟩ := by_level_full f w level
    exact ⟨w', hw'⟩
  refine ⟨?_, ?_, ?_⟩
  · intro w' h
    have hf := apply_op_frame fuel w op w' h
    exact ⟨hf.id_eq, hf.app_id_eq, hf.event_eq, hf.sender_eq, hf.timeout_eq⟩
  · intro hrun hcomp
    cases op with
    | attach fb => exact ⟨_, rfl⟩
    | detach fb => exact ⟨_, rfl⟩
    | run_feedbacks => exact absurd rfl hrun
    | end_all => exact hend fuel
    | end_above_level level => exact hlevel fuel level
    | set_end_reason reason => exact ⟨_, rfl⟩
    | timer_expiry source => exact ⟨_, rfl⟩
    | completion fb => exact absurd rfl (hcomp fb)
  · intro hasync
    cases op with
    | attach fb => exact ⟨_, rfl⟩
    | detach fb => exact ⟨_, rfl⟩
    | run_feedbacks =>
      by_cases hne : w.ev.feedbacks = []
      · exact ⟨w, by simp [apply_op, fbd_event_run_feedbacks, hne]⟩
      · have he : w.ev.feedbacks.isEmpty = false := by
          cases hx : w.ev.feedbacks.isEmpty with
          | false => rfl
          | true => exact absurd (List.isEmpty_iff.mp hx) hne
        simp only [apply_op, fbd_event_run_feedbacks]
        rw [if_neg (by simp [he])]
        obtain ⟨w', hw', _⟩ := foreach_run_async fuel
          (if w.ev.timeout > 0 then arm_timeout w else w).ev.feedbacks
          (if w.ev.timeout > 0 then arm_timeout w else w)
          (by
            intro fb _
            split
            · exact hasync fb
            · exact hasync fb)
        exact ⟨w', hw'⟩
    | end_all => exact hend (fuel + 1)
    | end_above_level level => exact hlevel (fuel + 1) level
    | set_end_reason reason => exact ⟨_, rfl⟩
    | timer_expiry source => exact ⟨_, rfl⟩
    | completion fb => exact done_async fuel w fb hasync

/-- C13: take a TimedLoop event (raw timeout positive) with one handle attached and
connected once, whose effect does not end inside `run()`, with end reason Natural, the
deadline not expired, `ended` false and a timeout source pending.  Then any number
`n` of completions of the handle leaves the event as it is, `ended` false included, and
adds `n` calls of `run()` on the handle to the log and nothing else: every completion
restarts the handle.  Once the source has fired after that, the next completion
of the handle sets `ended`, emits the terminal notification once, and the end reason
is still Natural. -/
theorem timed_loop_expiry (fuel n : Nat) (w : World) (h source : Nat)
    (ht : 0 < w.ev.timeout) (hf : w.ev.feedbacks = [h])
    (hh : (w.fbs h).handlers = 1) (hr : (w.fbs h).run_ends = false)
    (hnat : w.ev.end_reason = FbdEventEndReason.NATURAL)
    (hexp : w.ev.expired = false) (hend : w.ev.ended = false)
    (hs : source ∈ w.sources) :
    ∃ wn w2, completions (fuel + 1) (List.replicate n h) w = some wn ∧
      wn.ev = w.ev ∧ wn.ev.ended = false ∧
      wn.log = w.log ++ List.replicate n (Call.feedback_run h) ∧
      fbd_feedback_base_done (fbd_feedback_run fuel) (timeout_dispatch wn source) h
        = some w2 ∧
      w2.ev.ended = true ∧ w2.ev.end_reason = FbdEventEndReason.NATURAL ∧
      w2.ev.expired = true ∧
      w2.log = wn.log ++ [Call.notify_feedbacks_ended,
        Call.signal_feedbacks_ended FbdEventEndReason.NATURAL] ∧
      terminal_notifications w2.log = terminal_notifications w.log + 1 := by
  have hres : on_fb_ended_restarts w.ev = true := by
    have h0 : ¬ w.ev.timeout = 0 := by omega
    have h1 : ¬ w.ev.timeout = -1 := by omega
    simp [on_fb_ended_restarts, FBD_EVENT_TIMEOUT_ONESHOT, FBD_EVENT_TIMEOUT_LOOP, h0, h1,
      hexp, hnat]
  obtain ⟨wn, hwn, hev, hlog, hsrc, hh', _⟩ := completions_restart fuel h n w hres hh hr
  have hsn : source ∈ wn.sources := by rw [hsrc]; exact hs
  have hdisp : timeout_dispatch wn source =
      { wn with ev := { wn.ev with expired := true, timeout_id := 0 },
                sources := wn.sources.erase source } := by
    simp [timeout_dispatch, hsn, on_timeout_expired, World.set_ev]
  have hguard : on_fb_ended_restarts (timeout_dispatch wn source).ev = false := by
    have h0 : ¬ w.ev.timeout = 0 := by omega
    have h1 : ¬ w.ev.timeout = -1 := by omega
    rw [hdisp]
    simp [on_fb_ended_restarts, FBD_EVENT_TIMEOUT_ONESHOT, FBD_EVENT_TIMEOUT_LOOP, hev, h0, h1]
  have hdone : fbd_feedback_base_done (fbd_feedback_run fuel) (timeout_dispatch wn source) h =
      some (check_ended ((timeout_dispatch wn source).set_ended h true)).1 := by
    rw [fbd_feedback_base_done_eq]
    have hh2 : ((timeout_dispatch wn source).fbs h).handlers = 1 := by
      rw [hdisp]
      exact hh'
    rw [hh2]
    simp only [emit_signal]
    rw [on_fb_ended_guard, if_neg (by simpa using hguard)]
    rfl
  have hall : ∀ fb ∈ ((timeout_dispatch wn source).set_ended h true).ev.feedbacks,
      fbd_feedback_get_ended ((timeout_dispatch wn source).set_ended h true) fb = true := by
    intro fb hfb
    have : fb = h := by
      rw [hdisp] at hfb
      simpa [hev, hf] using hfb
    subst this
    simp [fbd_feedback_get_ended]
  rw [check_ended_of_all _ hall] at hdone
  refine ⟨wn, _, hwn, hev, by rw [hev]; exact hend, hlog, hdone, rfl, ?_, ?_, ?_, ?_⟩
  · rw [hdisp]
    simp [hev, hnat]
  · rw [hdisp]
    rfl
  · rw [hdisp]
    simp [hev, hnat]
  · rw [hdisp]
    simp [hlog, hev, hnat, terminal_notifications_append, terminal_notifications,
      List.countP_replicate]

theorem timed_loop_expiry_witness :
    ∃ wn w2, completions 1 (List.replicate 3 1) world_timed_running = some wn ∧
      wn.ev = world_timed_running.ev ∧ wn.ev.ended = false ∧
      wn.log = world_timed_running.log ++ List.replicate 3 (Call.feedback_run 1) ∧
      fbd_feedback_base_done (fbd_feedback_run 0) (timeout_dispatch wn 1) 1 = some w2 ∧
      w2.ev.ended = true ∧ w2.ev.end_reason = FbdEventEndReason.NATURAL ∧
      w2.ev.expired = true ∧
      w2.log = wn.log ++ [Call.notify_feedbacks_ended,
        Call.signal_feedbacks_ended FbdEventEndReason.NATURAL] ∧
      terminal_notifications w2.log = terminal_notifications world_timed_running.log + 1 :=
  timed_loop_expiry 0 3 world_timed_running 1 1 (by decide) (by decide) (by decide)
    (by decide) (by decide) (by decide) (by decide) (by decide)

/-- C16: the code decodes the raw timeout as the spec's three policies.  On the
completion of a handle, `on_fb_ended` restarts the handle exactly under the restart
condition of the policy that the raw timeout decodes to: for a negative raw timeout it
acts by the Loop row, and takes the same branch as the same event with raw timeout -1;
for zero it always runs the completion check; for a positive value it acts by the
TimedLoop row.  `fbd_event_run_feedbacks` arms a timer exactly if the policy has a
deadline, that is for a positive raw timeout, with that value as the delay, and for a
negative or zero raw timeout it only runs the handles.  An event with a negative or
zero raw timeout and no timeout source pending, a newly constructed one in particular,
stays so under every sequence of operations: no source is pending, no timer is armed
and `expired` keeps its value, false for a new event.  (For a raw timeout below -1,
which the `timeout` property does not store, the Loop row needs `expired` false, as it
is in all those states.) -/
theorem timeout_decoding (fuel : Nat) (run : World → Nat → Option World) (w : World)
    (fb : Nat) :
    ((w.ev.timeout < -1 → w.ev.expired = false) →
      on_fb_ended run w fb =
        if restart_condition w.ev = true then run w fb else some (check_ended w).1) ∧
    (w.ev.timeout < 0 → w.ev.expired = false →
      timeout_policy w.ev.timeout = TimeoutPolicy.Loop ∧
      on_fb_ended run w fb =
        (if w.ev.end_reason = FbdEventEndReason.NATURAL then run w fb
          else some (check_ended w).1) ∧
      on_fb_ended_restarts w.ev =
        on_fb_ended_restarts { w.ev with timeout := FBD_EVENT_TIMEOUT_LOOP }) ∧
    (w.ev.timeout = 0 →
      timeout_policy w.ev.timeout = TimeoutPolicy.Oneshot ∧
      on_fb_ended run w fb = some (check_ended w).1) ∧
    (0 < w.ev.timeout →
      timeout_policy w.ev.timeout = TimeoutPolicy.TimedLoop w.ev.timeout ∧
      on_fb_ended run w fb =
        (if w.ev.expired = false ∧ w.ev.end_reason = FbdEventEndReason.NATURAL then run w fb
          else some (check_ended w).1)) ∧
    (policy_deadline (timeout_policy w.ev.timeout) = none →
      fbd_event_run_feedbacks fuel w =
        if w.ev.feedbacks.isEmpty = true then some w
        else foreach_feedback (fbd_feedback_run fuel) w.ev.feedbacks w) ∧
    (∀ seconds, policy_deadline (timeout_policy w.ev.timeout) = some seconds →
      seconds = w.ev.timeout ∧ 0 < seconds ∧
      (arm_timeout w).log = w.log ++ [Call.timeout_add_seconds seconds (w.last_source + 1)] ∧
      fbd_event_run_feedbacks fuel w =
        if w.ev.feedbacks.isEmpty = true then some w
        else foreach_feedback (fbd_feedback_run fuel) w.ev.feedbacks (arm_timeout w)) ∧
    (w.ev.timeout ≤ 0 → w.sources = [] → ∀ ops w', apply_ops fuel ops w = some w' →
      w'.ev.timeout = w.ev.timeout ∧ w'.sources = [] ∧ w'.ev.expired = w.ev.expired ∧
      timers_armed w'.log = timers_armed w.log) ∧
    (∀ id app_id event timeout sender fbs ops w', timeout ≤ 0 →
      apply_ops fuel ops (World.start (fbd_event_new id app_id event timeout sender) fbs)
        = some w' →
      w'.ev.timeout ≤ 0 ∧ w'.sources = [] ∧ w'.ev.expired = false ∧
      timers_armed w'.log = 0) := by
  have hquiet : ∀ (v : World), v.ev.timeout ≤ 0 → v.sources = [] →
      ∀ ops v', apply_ops fuel ops v = some v' →
      v'.ev.timeout = v.ev.timeout ∧ v'.sources = [] ∧ v'.ev.expired = v.ev.expired ∧
      timers_armed v'.log = timers_armed v.log := by
    intro v ht hs ops v' h
    have hf := apply_ops_frame fuel ops v v' h
    obtain ⟨a, b, c⟩ := hf.quiet ht hs
    exact ⟨hf.timeout_eq, a, b, c⟩
  refine ⟨?_, ?_, ?_, ?_, ?_, ?_, hquiet w, ?_⟩
  · intro h
    apply on_fb_ended_eq
    by_cases hlt : w.ev.timeout < -1
    · exact Or.inr (h hlt)
    · left
      unfold FBD_EVENT_TIMEOUT_LOOP
      omega
  · intro hneg hexp
    have hpol : timeout_policy w.ev.timeout = TimeoutPolicy.Loop := by
      simp [timeout_policy, hneg]
    refine ⟨hpol, ?_, ?_⟩
    · rw [on_fb_ended_eq run w fb (Or.inr hexp)]
      unfold restart_condition
      rw [hpol]
      cases hr : w.ev.end_reason <;> simp
    · have h0 : ¬ w.ev.timeout = 0 := by omega
      by_cases h1 : w.ev.timeout = -1
      · cases hr : w.ev.end_reason <;>
          simp [on_fb_ended_restarts, FBD_EVENT_TIMEOUT_ONESHOT, FBD_EVENT_TIMEOUT_LOOP, h1, hr]
      · cases hr : w.ev.end_reason with
        | NATURAL =>
          simp [on_fb_ended_restarts, FBD_EVENT_TIMEOUT_ONESHOT, FBD_EVENT_TIMEOUT_LOOP, h0,
            h1, hexp, hr]
        | EXPLICIT =>
          simp [on_fb_ended_restarts, FBD_EVENT_TIMEOUT_ONESHOT, FBD_EVENT_TIMEOUT_LOOP, h0,
            h1, hexp, hr]
          decide
  · intro h0
    refine ⟨by simp [timeout_policy, h0], ?_⟩
    simp [on_fb_ended, FBD_EVENT_TIMEOUT_ONESHOT, h0]
  · intro hpos
    have hneg : ¬ w.ev.timeout < 0 := by omega
    have h0 : ¬ w.ev.timeout = 0 := by omega
    have hpol : timeout_policy w.ev.timeout = TimeoutPolicy.TimedLoop w.ev.timeout := by
      simp [timeout_policy, hneg, h0]
    refine ⟨hpol, ?_⟩
    rw [on_fb_ended_eq run w fb (Or.inl (by unfold FBD_EVENT_TIMEOUT_LOOP; omega))]
    unfold restart_condition
    rw [hpol]
    cases hr : w.ev.end_reason <;> cases hx : w.ev.expired <;> simp
  · intro hnone
    have hle : ¬ w.ev.timeout > 0 := by
      intro hpos
      have hneg : ¬ w.ev.timeout < 0 := by omega
      have h0 : ¬ w.ev.timeout = 0 := by omega
      simp [timeout_policy, hneg, h0, policy_deadline] at hnone
    unfold fbd_event_run_feedbacks
    simp only [hle, if_false]
  · intro seconds hsome
    have hpos : w.ev.timeout > 0 ∧ seconds = w.ev.timeout := by
      unfold timeout_policy at hsome
      by_cases hneg : w.ev.timeout < 0
      · simp [hneg, policy_deadline] at hsome
      · by_cases h0 : w.ev.timeout = 0
        · simp [h0, policy_deadline] at hsome
        · simp [hneg, h0, policy_deadline] at hsome
          exact ⟨by omega, hsome.symm⟩
    obtain ⟨hp, hs⟩ := hpos
    refine ⟨hs, by omega, ?_, ?_⟩
    · rw [hs]
      rfl
    · unfold fbd_event_run_feedbacks
      simp only [hp, if_true]
      rfl
  · intro id app_id event timeout sender fbs ops w' ht h
    have hle : (fbd_event_new id app_id event timeout sender).timeout ≤ 0 := by
      by_cases hid : 0 ≤ id ∧ id ≤ G_MAXINT <;>
        by_cases hr : -1 ≤ timeout ∧ timeout ≤ G_MAXINT <;>
        simp [fbd_event_new, fbd_event_init, hid, hr, ht]
    have hexp : (fbd_event_new id app_id event timeout sender).expired = false := by
      by_cases hid : 0 ≤ id ∧ id ≤ G_MAXINT <;>
        by_cases hr : -1 ≤ timeout ∧ timeout ≤ G_MAXINT <;>
        simp [fbd_event_new, fbd_event_init, hid, hr]
    obtain ⟨a, b, c, d⟩ :=
      hquiet (World.start (fbd_event_new id app_id event timeout sender) fbs) hle rfl ops w' h
    refine ⟨by rw [a]; exact hle, b, by rw [c]; exact hexp, ?_⟩
    rw [d]
    rfl

/-- C17, counterexample: from a newly constructed Oneshot event, attach handle 1,
detach it (the event is drained and `ended` becomes true), attach handle 2, which has
not ended: now `ended` is true, handle 2 is attached and reports that it has not
ended. -/
theorem ended_with_running_handle :
    (apply_ops 1 [Op.attach 1, Op.detach 1, Op.attach 2] world_new_oneshot).map
        (fun w => (w.ev.ended, w.ev.feedbacks, fbd_feedback_get_ended w 2, ended_sound w))
      = some (true, [2], false, false) := by
  decide

/-- C17, as amended: `ended == true` implies that no handle is attached or every
attached handle reports ended in every state reached from a newly constructed event
(or from any state in which the implication holds) by a sequence of operations in
which, once `ended` is true, no handle is attached, run_feedbacks is not called and no
completion restarts its handle (and in which run_feedbacks, on an event that does not
restart handles, runs no effect that ends inside `run()`).  Detach, end_all,
end_above_level, set_end_reason and the expiry of a timer are not restricted.  No
operation resets `ended`. -/
theorem ended_sound_reachable (fuel : Nat) (ops : List Op) (w w' : World)
    (hkeep : ops_keep_ended_sound fuel ops w = true) (hsound : ended_sound w = true)
    (hrun : apply_ops fuel ops w = some w') :
    ended_sound w' = true ∧
    (w'.ev.ended = true → ∀ fb ∈ w'.ev.feedbacks, fbd_feedback_get_ended w' fb = true) ∧
    (w.ev.ended = true → w'.ev.ended = true) ∧
    (∀ id app_id event timeout sender fbs,
      ended_sound (World.start (fbd_event_new id app_id event timeout sender) fbs) = true) := by
  have hs := apply_ops_sound fuel ops w w' hkeep hsound hrun
  refine ⟨hs, (ended_sound_iff w').mp hs, (apply_ops_frame fuel ops w w' hrun).ended_mono, ?_⟩
  intro id app_id event timeout sender fbs
  apply sound_of_not_ended
  by_cases hid : 0 ≤ id ∧ id ≤ G_MAXINT <;>
    by_cases hr : -1 ≤ timeout ∧ timeout ≤ G_MAXINT <;>
    simp [World.start, fbd_event_new, fbd_event_init, hid, hr]

theorem ended_sound_reachable_witness :
    ∃ w', apply_ops 1 [Op.run_feedbacks, Op.completion 1, Op.completion 2, Op.detach 1]
        world_two_attached = some w' ∧
      w'.ev.ended = true ∧ w'.ev.feedbacks = [2] ∧ ended_sound w' = true ∧
      ∀ fb ∈ w'.ev.feedbacks, fbd_feedback_get_ended w' fb = true := by
  have hsome : (apply_ops 1 [Op.run_feedbacks, Op.completion 1, Op.completion 2, Op.detach 1]
      world_two_attached).isSome = true := by decide
  obtain ⟨w', hw'⟩ := Option.isSome_iff_exists.mp hsome
  have hval : (apply_ops 1 [Op.run_feedbacks, Op.completion 1, Op.completion 2, Op.detach 1]
      world_two_attached).map (fun w => (w.ev.ended, w.ev.feedbacks)) = some (true, [2]) := by
    decide
  rw [hw'] at hval
  simp only [Option.map_some', Option.some.injEq, Prod.mk.injEq] at hval
  have h := ended_sound_reachable 1
    [Op.run_feedbacks, Op.completion 1, Op.completion 2, Op.detach 1]
    world_two_attached w' (by decide) (by decide) hw'
  exact ⟨w', hw', hval.1, hval.2, h.1, h.2.1 hval.1⟩

/-- C21, the code at the failing input: on the Loop event with one attached handle
whose effect ends inside `run()`, `fbd_event_run_feedbacks` returns within no bound on
the nesting of run, completion and restart: the handler answers every completion with
the next `run()`, which completes again.  The same holds on the TimedLoop event, whose
deadline cannot expire while the call is running.  On the Oneshot event with the same
handle the call returns. -/
theorem run_feedbacks_never_returns :
    (∀ fuel, fbd_event_run_feedbacks fuel world_loop_instant = none) ∧
    (∀ fuel, fbd_event_run_feedbacks fuel world_timed_instant = none) ∧
    (fbd_event_run_feedbacks 1 world_oneshot_instant).map
        (fun w => (w.ev.ended, w.log))
      = some (true, [Call.feedback_run 1, Call.notify_feedbacks_ended,
          Call.signal_feedbacks_ended FbdEventEndReason.NATURAL]) := by
  refine ⟨?_, ?_, by decide⟩
  · exact run_feedbacks_restart_none world_loop_instant 1 [] (by decide) (by decide)
      (by decide) (by decide) (by decide)
  · exact run_feedbacks_restart_none world_timed_instant 1 [] (by decide) (by decide)
      (by decide) (by decide) (by decide)

/-- C22, the code at the failing input: for the `multi_index` value red, green, blue,
red the loop of `initable_init` records the red index 3 (with green 1 and blue 2), and
the first write of `fbd_dev_leds_start_periodic` for the colour white, the one to
`colors[red_index]`, is outside the three-element array.  For the value red, green,
blue the indices are 0, 1, 2 and the array becomes the three brightness values; and
for every attribute value with at most three recognised entries each recorded index
is below 3. -/
theorem multi_index_repeated_entry :
    read_multi_index (fbd_dev_led_new FbdFeedbackLedColor.RGB 255)
        (some ["red", "green", "blue", "red"])
      = { max_brightness := 255, red_index := 3, green_index := 1, blue_index := 2,
          color := FbdFeedbackLedColor.RGB } ∧
    rgb_colors (read_multi_index (fbd_dev_led_new FbdFeedbackLedColor.RGB 255)
        (some ["red", "green", "blue", "red"])) FbdFeedbackLedColor.WHITE = none ∧
    rgb_colors (read_multi_index (fbd_dev_led_new FbdFeedbackLedColor.RGB 255)
        (some ["red", "green", "blue"])) FbdFeedbackLedColor.WHITE
      = some [255, 255, 255] ∧
    (∀ (color : FbdFeedbackLedColor) (brightness : Nat) (entries : List String),
      recognised_entries entries ≤ 3 →
      (read_multi_index (fbd_dev_led_new color brightness) (some entries)).red_index < 3 ∧
      (read_multi_index (fbd_dev_led_new color brightness) (some entries)).green_index < 3 ∧
      (read_multi_index (fbd_dev_led_new color brightness) (some entries)).blue_index
        < 3) := by
  refine ⟨by decide, by decide, by decide, ?_⟩
  intro color brightness entries hle
  have h := read_multi_index_bound color brightness (some entries) 3
    (fun l hl => by cases hl; exact hle)
  omega

end Feedbackd
